import Mathlib

set_option maxHeartbeats 1000000

/-! Shallow embedding of the V8 scope analyzer (src/ast/scopes.cc) and proofs
    checking the specification's claims about it.

    Conventions of the embedding:
    * Scopes, varMap and variable proxies live in stores indexed by `Nat`
      (mirroring arena pointers); mutation is explicit state passing.
    * Intrusive singly-linked lists (`inner_scope_`/`sibling_`,
      `next_unresolved`) are modelled as Lean lists in chain order.
    * `DCHECK`s are debug assertions (no-ops in release builds); they appear
      here as hypotheses of theorems, not as runtime checks.
    * Code declared in scopes.h / variable.h / ast.cc is not part of the
      repository snapshot under verification; where such code decides a
      behaviour it is modelled from the specification's words and marked
      with a comment starting with "Modelled from the spec". -/

-- ## Basic enumerations (spec section 3; scopes.h / variable.h interface)

inductive VariableMode where
  | VAR
  | CONST_LEGACY
  | LET
  | CONST
  | TEMPORARY
  | DYNAMIC
  | DYNAMIC_GLOBAL
  | DYNAMIC_LOCAL
deriving DecidableEq, Repr

inductive VariableKind where
  | NORMAL
  | FUNCTION
  | THIS
  | ARGUMENTS
deriving DecidableEq, Repr

inductive VariableLocation where
  | UNALLOCATED
  | PARAMETER
  | LOCAL
  | CONTEXT
  | GLOBAL
  | LOOKUP
  | MODULE
deriving DecidableEq, Repr

inductive ScopeType where
  | SCRIPT
  | FUNCTION
  | MODULE
  | BLOCK
  | CATCH
  | WITH
  | EVAL
deriving DecidableEq, Repr

/-- Modelled from the spec: lexical modes are LET and CONST ("lexical vs.
function-scoped bindings"; `DeclareLocal` handles VAR/LET/CONST). -/
def isLexicalVariableMode (m : VariableMode) : Bool :=
  m = .LET || m = .CONST

/-- Modelled from the spec: declared modes are the parser-declarable ones
(VAR, CONST_LEGACY, LET, CONST). -/
def isDeclaredVariableMode (m : VariableMode) : Bool :=
  m = .VAR || m = .CONST_LEGACY || m = .LET || m = .CONST

/-- Modelled from the spec: the DYNAMIC* modes ("DYNAMIC modes imply LOOKUP
location"). -/
def isDynamicVariableMode (m : VariableMode) : Bool :=
  m = .DYNAMIC || m = .DYNAMIC_GLOBAL || m = .DYNAMIC_LOCAL

/-- Context::MIN_CONTEXT_SLOTS: heap slot indices start here (spec 4.G). -/
def MIN_CONTEXT_SLOTS : Nat := 4

-- ## Records: Variable, Scope, VariableProxy

/-- A Variable record (variable.h interface, spec section 3). `vname` is the
interned identifier (identity = equality of the `Nat` id); `nameEmpty` models
`raw_name()->IsEmpty()`. `allocScope` is a ghost field recording which scope's
slot counter supplied a LOCAL/CONTEXT index (used to state density claims). -/
structure Var where
  vname : Nat
  nameEmpty : Bool := false
  mode : VariableMode
  kind : VariableKind := .NORMAL
  scope : Option Nat := none
  location : VariableLocation := .UNALLOCATED
  index : Int := 0
  isUsed : Bool := false
  forceCtx : Bool := false
  maybeAssigned : Bool := false
  localIfNotShadowed : Option Nat := none
  allocScope : Option Nat := none
deriving DecidableEq, Repr

/-- A VariableProxy (ast.h interface): a use of a name awaiting resolution. -/
structure Proxy where
  pname : Nat
  isAssigned : Bool := false
  boundTo : Option Nat := none
deriving DecidableEq, Repr

/-- A Scope record (scopes.h interface, spec section 3), flattened with the
DeclarationScope / ModuleScope extensions (valid only when `isDecl` or the
scope type says so, mirroring the C++ downcasts). `inner` is the
`inner_scope_`/`sibling_` chain as a list (head = `inner_scope_`);
`varMap` is the VariableMap as an insertion-ordered association list
from name id to variable id; `sloppyBlockFns` is the set of names present
in the `sloppy_block_function_map`. -/
structure SScope where
  stype : ScopeType
  isDecl : Bool := false
  strict : Bool := false
  callsEval : Bool := false
  innerEval : Bool := false
  forceCtx : Bool := false
  isDebugEvaluate : Bool := false
  asmModule : Bool := false
  asmFunction : Bool := false
  isArrow : Bool := false
  hasThisDecl : Bool := false
  hasSimpleParams : Bool := true
  hasArgumentsParam : Bool := false
  numStack : Nat := 0
  numHeap : Nat := MIN_CONTEXT_SLOTS
  outer : Option Nat := none
  inner : List Nat := []
  varMap : List (Nat × Nat) := []
  locals : List Nat := []
  params : List Nat := []
  decls : List Nat := []
  unresolved : List Nat := []
  receiver : Option Nat := none
  functionVar : Option Nat := none
  argumentsVar : Option Nat := none
  newTarget : Option Nat := none
  thisFunction : Option Nat := none
  sloppyBlockFns : List Nat := []
  regularImports : List Nat := []
  regularExports : List Nat := []
deriving DecidableEq, Repr

/-- The analysis state: arena stores for variables, scopes and proxies,
plus an allocation cursor for fresh variable ids. -/
@[ext]
structure AState where
  vars : Nat → Var
  scopes : Nat → SScope
  proxies : Nat → Proxy
  nextVar : Nat

def updVar (st : AState) (i : Nat) (f : Var → Var) : AState :=
  { st with vars := fun j => if j = i then f (st.vars j) else st.vars j }

def updScope (st : AState) (i : Nat) (f : SScope → SScope) : AState :=
  { st with scopes := fun j => if j = i then f (st.scopes j) else st.scopes j }

def updProxy (st : AState) (i : Nat) (f : Proxy → Proxy) : AState :=
  { st with proxies := fun j => if j = i then f (st.proxies j) else st.proxies j }

@[simp] theorem updVar_vars (st : AState) (i : Nat) (f : Var → Var) (j : Nat) :
    (updVar st i f).vars j = if j = i then f (st.vars j) else st.vars j := rfl

@[simp] theorem updVar_scopes (st : AState) (i : Nat) (f : Var → Var) :
    (updVar st i f).scopes = st.scopes := rfl

@[simp] theorem updScope_scopes (st : AState) (i : Nat) (f : SScope → SScope) (j : Nat) :
    (updScope st i f).scopes j = if j = i then f (st.scopes j) else st.scopes j := rfl

@[simp] theorem updScope_vars (st : AState) (i : Nat) (f : SScope → SScope) :
    (updScope st i f).vars = st.vars := rfl

@[simp] theorem updProxy_vars (st : AState) (i : Nat) (f : Proxy → Proxy) :
    (updProxy st i f).vars = st.vars := rfl

@[simp] theorem updProxy_scopes (st : AState) (i : Nat) (f : Proxy → Proxy) :
    (updProxy st i f).scopes = st.scopes := rfl

-- Scope type predicates (scopes.h one-liners)

def SScope.isBlockScope (s : SScope) : Bool := s.stype = .BLOCK
def SScope.isFunctionScope (s : SScope) : Bool := s.stype = .FUNCTION
def SScope.isScriptScope (s : SScope) : Bool := s.stype = .SCRIPT
def SScope.isModuleScope (s : SScope) : Bool := s.stype = .MODULE
def SScope.isCatchScope (s : SScope) : Bool := s.stype = .CATCH
def SScope.isWithScope (s : SScope) : Bool := s.stype = .WITH
def SScope.isEvalScope (s : SScope) : Bool := s.stype = .EVAL

/-- Modelled from the spec (glossary): sloppy eval is a direct eval call in
non-strict code; `calls_sloppy_eval() = scope_calls_eval_ && is_sloppy()`. -/
def SScope.callsSloppyEval (s : SScope) : Bool := s.callsEval && !s.strict

/-- Scope::IsAsmModule (scopes.cc:254): function scope with the asm_module
flag. -/
def SScope.isAsmModule (s : SScope) : Bool := s.isFunctionScope && s.asmModule

def Var.isDynamic (v : Var) : Bool := isDynamicVariableMode v.mode

def Var.isThisVar (v : Var) : Bool := v.kind = .THIS

def Var.isFunctionKind (v : Var) : Bool := v.kind = .FUNCTION

def Var.isUnallocated (v : Var) : Bool := v.location = .UNALLOCATED

/-- Modelled from the spec (4.A): "A variable is global-object property iff
mode ∈ {VAR, DYNAMIC_GLOBAL} and its scope is SCRIPT, or mode is
DYNAMIC_GLOBAL anywhere." (Variable::IsGlobalObjectProperty lives in
variable.cc, which is not part of this snapshot.) -/
def isGlobalObjectProperty (st : AState) (v : Nat) : Bool :=
  let va := st.vars v
  ((va.mode = .VAR || va.mode = .DYNAMIC_GLOBAL) &&
    (match va.scope with
     | some s => (st.scopes s).isScriptScope
     | none => false)) ||
  va.mode = .DYNAMIC_GLOBAL

/-- Variable::AllocateTo: record a location and index (also remembers, in the
ghost field, which scope's counter produced a LOCAL/CONTEXT slot). -/
def allocateTo (st : AState) (v : Nat) (loc : VariableLocation) (idx : Int)
    (aScope : Option Nat) : AState :=
  updVar st v (fun va => { va with location := loc, index := idx, allocScope := aScope })

-- ## VariableMap (scopes.cc:26-74): insertion-ordered map from name to variable

def vmLookup (m : List (Nat × Nat)) (n : Nat) : Option Nat :=
  match m.find? (fun p => p.1 = n) with
  | some p => some p.2
  | none => none

/-- VariableMap::Declare (scopes.cc:29): insert a fresh Variable if the name
is absent, otherwise return the existing one. Returns (variable id, state,
added?). The fresh variable id comes from the arena cursor. -/
def vmDeclare (st : AState) (s : Nat) (scopeRef : Option Nat) (n : Nat)
    (mode : VariableMode) (kind : VariableKind) : Nat × AState × Bool :=
  match vmLookup (st.scopes s).varMap n with
  | some v => (v, st, false)
  | none =>
    let v := st.nextVar
    let st1 := { st with nextVar := st.nextVar + 1 }
    let st2 := { st1 with
      vars := fun j => if j = v then
        { vname := n, mode := mode, kind := kind, scope := scopeRef } else st1.vars j }
    let st3 := updScope st2 s (fun sc => { sc with varMap := sc.varMap ++ [(n, v)] })
    (v, st3, true)

/-- Modelled from the spec: Scope::Declare (scopes.h) wraps
`variables_.Declare` and, when the variable was freshly added, appends it to
`locals_` ("locals: insertion-ordered sequence of Variables that must receive
a slot"; the `added` out-parameter of VariableMap::Declare in scopes.cc:34
exists precisely for this). -/
def scopeDeclare (st : AState) (s : Nat) (n : Nat) (mode : VariableMode)
    (kind : VariableKind) : Nat × AState :=
  match vmDeclare st s (some s) n mode kind with
  | (v, st1, added) =>
    if added then (v, updScope st1 s (fun sc => { sc with locals := sc.locals ++ [v] }))
    else (v, st1)

-- ## Scope::RemoveUnresolved (scopes.cc:815-832)

/-- Scope::RemoveUnresolved on the unresolved chain: if the proxy is the head,
pop it; otherwise walk the chain and unlink the first occurrence. Returns
whether the proxy was found, and the resulting chain. -/
def removeUnresolvedList (l : List Nat) (p : Nat) : Bool × List Nat :=
  match l with
  | [] => (false, [])
  | q :: rest =>
    if q = p then (true, rest)
    else
      match removeUnresolvedList rest p with
      | (b, rest2) => (b, q :: rest2)

/-- Scope-level RemoveUnresolved: operates on the scope's `unresolved_` list. -/
def removeUnresolvedScope (st : AState) (s : Nat) (p : Nat) : Bool × AState :=
  match removeUnresolvedList (st.scopes s).unresolved p with
  | (b, l2) => (b, updScope st s (fun sc => { sc with unresolved := l2 }))

theorem removeUnresolvedList_not_mem {l : List Nat} {p : Nat} (h : p ∉ l) :
    removeUnresolvedList l p = (false, l) := by
  induction l with
  | nil => rfl
  | cons q rest ih =>
    have hq : q ≠ p := fun hqp => h (hqp ▸ List.mem_cons_self q rest)
    have hrest : p ∉ rest := fun hm => h (List.mem_cons_of_mem q hm)
    simp [removeUnresolvedList, hq, ih hrest]

theorem removeUnresolvedList_removes {l l2 : List Nat} {p : Nat}
    (hcount : l.count p ≤ 1) (h : removeUnresolvedList l p = (true, l2)) :
    p ∉ l2 := by
  induction l generalizing l2 with
  | nil => simp [removeUnresolvedList] at h
  | cons q rest ih =>
    by_cases hq : q = p
    · subst hq
      simp [removeUnresolvedList] at h
      subst h
      intro hmem
      have : 1 ≤ rest.count q := List.one_le_count_iff.mpr hmem
      have : 2 ≤ (q :: rest).count q := by
        rw [List.count_cons_self]
        omega
      omega
    · simp only [removeUnresolvedList, if_neg hq] at h
      rcases hrec : removeUnresolvedList rest p with ⟨b, rest2⟩
      rw [hrec] at h
      have hb : b = true := by
        have := congrArg Prod.fst h
        simpa using this.symm
      have hl2 : l2 = q :: rest2 := by
        have := congrArg Prod.snd h
        simpa using this.symm
      subst hb
      have hcount2 : rest.count p ≤ 1 := by
        have : (q :: rest).count p = rest.count p := List.count_cons_of_ne (fun h2 => hq h2.symm) rest
        omega
      have hnot := ih hcount2 hrec
      rw [hl2]
      intro hmem
      rcases List.mem_cons.mp hmem with h1 | h1
      · exact hq h1.symm
      · exact hnot h1

/-- C9: RemoveUnresolved(p) is idempotent. If p occurs at most once in the
scope's unresolved list and a call removed it (returned true), a second call
on the resulting scope returns false and leaves the unresolved list (and the
whole state) unchanged. -/
theorem claim9_remove_unresolved_idempotent (st : AState) (s p : Nat)
    (hcount : ((st.scopes s).unresolved).count p ≤ 1)
    {st1 : AState} (h1 : removeUnresolvedScope st s p = (true, st1)) :
    removeUnresolvedScope st1 s p = (false, st1) := by
  rcases hrem : removeUnresolvedList (st.scopes s).unresolved p with ⟨b, l2⟩
  unfold removeUnresolvedScope at h1
  rw [hrem] at h1
  have hb : b = true := by
    have := congrArg Prod.fst h1
    simpa using this.symm
  subst hb
  have hst1 : st1 = updScope st s (fun sc => { sc with unresolved := l2 }) := by
    have := congrArg Prod.snd h1
    simpa using this.symm
  have hnot : p ∉ l2 := removeUnresolvedList_removes hcount hrem
  subst hst1
  have hun : ((updScope st s (fun sc => { sc with unresolved := l2 })).scopes s).unresolved
      = l2 := by
    simp [updScope]
  unfold removeUnresolvedScope
  rw [hun, removeUnresolvedList_not_mem hnot]
  refine congrArg (Prod.mk false) ?_
  apply AState.ext
  · rfl
  · funext j
    by_cases hj : j = s
    · subst hj
      simp [updScope]
    · simp [updScope, hj]
  · rfl
  · rfl

/-- Witness for C9 at a concrete scope state: a one-element unresolved list;
the first removal succeeds and the second returns false. -/
def w9State : AState :=
  { vars := fun _ => { vname := 0, mode := .VAR }
    scopes := fun _ => { stype := .BLOCK, unresolved := [7] }
    proxies := fun _ => { pname := 0 }
    nextVar := 0 }

theorem claim9_witness :
    removeUnresolvedScope (removeUnresolvedScope w9State 0 7).2 0 7 =
      (false, (removeUnresolvedScope w9State 0 7).2) := by
  have hcount : ((w9State.scopes 0).unresolved).count 7 ≤ 1 := by decide
  have h1 : removeUnresolvedScope w9State 0 7 = (true, (removeUnresolvedScope w9State 0 7).2) := by
    rfl
  exact claim9_remove_unresolved_idempotent w9State 0 7 hcount h1

-- ## Scope trees as explicit skeletons
-- The C++ scope tree is traversed through `inner_scope_`/`sibling_` chains.
-- Recursive traversals are modelled by structural recursion over an explicit
-- tree skeleton; `treeMatches` states that the skeleton mirrors the store's
-- `inner` lists exactly.

mutual
inductive STree where
  | node (sid : Nat) (kids : STreeList)
inductive STreeList where
  | snil
  | scons (t : STree) (ts : STreeList)
end

def STree.rootId : STree → Nat
  | .node s _ => s

mutual
def treeNodes : STree → List Nat
  | .node s kids => s :: treeNodesList kids
def treeNodesList : STreeList → List Nat
  | .snil => []
  | .scons t ts => treeNodes t ++ treeNodesList ts
end

mutual
def kidRoots : STreeList → List Nat
  | .snil => []
  | .scons t ts => t.rootId :: kidRoots ts
end

-- The skeleton mirrors the store: each node's `inner` list is exactly the
-- list of its kids' roots.
mutual
def treeMatches : STree → AState → Bool
  | .node s kids, st => ((st.scopes s).inner == kidRoots kids) && treeMatchesList kids st
def treeMatchesList : STreeList → AState → Bool
  | .snil, _ => true
  | .scons t ts, st => treeMatches t st && treeMatchesList ts st
end

-- Parent/child edges of the skeleton.
mutual
def treeEdges : STree → List (Nat × Nat)
  | .node s kids => treeEdgesKids s kids
def treeEdgesKids (parent : Nat) : STreeList → List (Nat × Nat)
  | .snil => []
  | .scons t ts => (parent, t.rootId) :: treeEdges t ++ treeEdgesKids parent ts
end

-- Ancestor/strict-descendant pairs of the skeleton.
mutual
def treeDescPairs : STree → List (Nat × Nat)
  | .node s kids => (treeNodesList kids).map (fun d => (s, d)) ++ treeDescPairsList kids
def treeDescPairsList : STreeList → List (Nat × Nat)
  | .snil => []
  | .scons t ts => treeDescPairs t ++ treeDescPairsList ts
end

-- ## Scope::PropagateScopeInfo (scopes.cc:1421-1428)

/-- The per-child step of PropagateScopeInfo (scopes.cc:1424-1426): if this
scope is an asm module and the inner scope is a function scope, set the inner
scope's asm_function flag. -/
def asmStep (parent child : Nat) (st : AState) : AState :=
  if (st.scopes parent).isAsmModule && (st.scopes child).isFunctionScope then
    updScope st child (fun sc => { sc with asmFunction := true })
  else st

-- Scope::PropagateScopeInfo: recurse into each inner scope, then force the
-- asm_function flag on each direct inner function scope of an asm module.
mutual
def propagateScopeInfo : STree → AState → AState
  | .node s kids, st => propagateInner s kids st
def propagateInner (parent : Nat) : STreeList → AState → AState
  | .snil, st => st
  | .scons t ts, st =>
    propagateInner parent ts (asmStep parent t.rootId (propagateScopeInfo t st))
end

/-- The literal statement of claim C3 about the state after PropagateScopeInfo:
eval flags bubble up to every ancestor, and inner function scopes of asm
modules get asm_function. -/
def c3Statement (t : STree) (st : AState) : Prop :=
  (∀ p ∈ treeDescPairs t,
      ((propagateScopeInfo t st).scopes p.2).callsEval = true →
      ((propagateScopeInfo t st).scopes p.1).innerEval = true) ∧
  (∀ p ∈ treeEdges t,
      ((propagateScopeInfo t st).scopes p.1).isAsmModule = true →
      ((propagateScopeInfo t st).scopes p.2).isFunctionScope = true →
      ((propagateScopeInfo t st).scopes p.2).asmFunction = true)

instance (t : STree) (st : AState) : Decidable (c3Statement t st) := by
  unfold c3Statement
  infer_instance

/-- Concrete two-scope tree for the C3 counterexample: scope 1 (inner, calls
eval) nested in scope 0 (inner_scope_calls_eval not set). -/
def c3State : AState :=
  { vars := fun _ => { vname := 0, mode := .VAR }
    scopes := fun i =>
      if i = 0 then { stype := .FUNCTION, isDecl := true, inner := [1] }
      else { stype := .FUNCTION, isDecl := true, callsEval := true }
    proxies := fun _ => { pname := 0 }
    nextVar := 0 }

def c3Tree : STree := .node 0 (.scons (.node 1 .snil) .snil)

/-- C3 counterexample: on a real scope tree (the skeleton matches the store)
where the inner scope calls eval, PropagateScopeInfo does not set
inner_scope_calls_eval on the ancestor: the claimed property is false. -/
theorem claim3_counterexample :
    treeMatches c3Tree c3State = true ∧ ¬ c3Statement c3Tree c3State := by
  constructor
  · decide
  · decide

theorem asmStep_flags (p c : Nat) (st : AState) (i : Nat) :
    ((asmStep p c st).scopes i).callsEval = (st.scopes i).callsEval ∧
    ((asmStep p c st).scopes i).innerEval = (st.scopes i).innerEval ∧
    ((asmStep p c st).scopes i).asmModule = (st.scopes i).asmModule ∧
    ((asmStep p c st).scopes i).stype = (st.scopes i).stype := by
  unfold asmStep
  split
  · by_cases hi : i = c <;> simp [updScope, hi]
  · exact ⟨rfl, rfl, rfl, rfl⟩

theorem asmStep_mono (p c : Nat) (st : AState) (i : Nat)
    (h : (st.scopes i).asmFunction = true) :
    ((asmStep p c st).scopes i).asmFunction = true := by
  unfold asmStep
  split
  · by_cases hi : i = c <;> simp [updScope, hi, h]
  · exact h

theorem asmStep_sets (p c : Nat) (st : AState)
    (hp : (st.scopes p).isAsmModule = true)
    (hc : (st.scopes c).isFunctionScope = true) :
    ((asmStep p c st).scopes c).asmFunction = true := by
  unfold asmStep
  rw [hp, hc]
  simp [updScope]

mutual
theorem propagateFlags (t : STree) (st : AState) (i : Nat) :
    ((propagateScopeInfo t st).scopes i).callsEval = (st.scopes i).callsEval ∧
    ((propagateScopeInfo t st).scopes i).innerEval = (st.scopes i).innerEval ∧
    ((propagateScopeInfo t st).scopes i).asmModule = (st.scopes i).asmModule ∧
    ((propagateScopeInfo t st).scopes i).stype = (st.scopes i).stype :=
  match t with
  | .node s kids => propagateFlagsList s kids st i

theorem propagateFlagsList (p : Nat) (ts : STreeList) (st : AState) (i : Nat) :
    ((propagateInner p ts st).scopes i).callsEval = (st.scopes i).callsEval ∧
    ((propagateInner p ts st).scopes i).innerEval = (st.scopes i).innerEval ∧
    ((propagateInner p ts st).scopes i).asmModule = (st.scopes i).asmModule ∧
    ((propagateInner p ts st).scopes i).stype = (st.scopes i).stype :=
  match ts with
  | .snil => ⟨rfl, rfl, rfl, rfl⟩
  | .scons t rest => by
    have h1 := propagateFlags t st i
    have h2 := asmStep_flags p t.rootId (propagateScopeInfo t st) i
    have h3 := propagateFlagsList p rest (asmStep p t.rootId (propagateScopeInfo t st)) i
    show ((propagateInner p rest (asmStep p t.rootId (propagateScopeInfo t st))).scopes i).callsEval = _ ∧ _
    exact ⟨h3.1.trans (h2.1.trans h1.1),
           h3.2.1.trans (h2.2.1.trans h1.2.1),
           h3.2.2.1.trans (h2.2.2.1.trans h1.2.2.1),
           h3.2.2.2.trans (h2.2.2.2.trans h1.2.2.2)⟩
end

mutual
theorem propagateAsmMono (t : STree) (st : AState) (i : Nat)
    (h : (st.scopes i).asmFunction = true) :
    ((propagateScopeInfo t st).scopes i).asmFunction = true :=
  match t with
  | .node s kids => propagateAsmMonoList s kids st i h

theorem propagateAsmMonoList (p : Nat) (ts : STreeList) (st : AState) (i : Nat)
    (h : (st.scopes i).asmFunction = true) :
    ((propagateInner p ts st).scopes i).asmFunction = true :=
  match ts with
  | .snil => h
  | .scons t rest =>
    propagateAsmMonoList p rest (asmStep p t.rootId (propagateScopeInfo t st)) i
      (asmStep_mono p t.rootId (propagateScopeInfo t st) i (propagateAsmMono t st i h))
end

theorem isAsmModule_congr {a b : SScope} (h1 : a.asmModule = b.asmModule)
    (h2 : a.stype = b.stype) : a.isAsmModule = b.isAsmModule := by
  simp [SScope.isAsmModule, SScope.isFunctionScope, h1, h2]

theorem isFunctionScope_congr {a b : SScope} (h : a.stype = b.stype) :
    a.isFunctionScope = b.isFunctionScope := by
  simp [SScope.isFunctionScope, h]

mutual
theorem propagateAsmEdges (t : STree) (st : AState) :
    ∀ q ∈ treeEdges t, (st.scopes q.1).isAsmModule = true →
      (st.scopes q.2).isFunctionScope = true →
      ((propagateScopeInfo t st).scopes q.2).asmFunction = true :=
  match t with
  | .node s kids => fun q hq => propagateAsmEdgesList s kids st q hq

theorem propagateAsmEdgesList (p : Nat) (ts : STreeList) (st : AState) :
    ∀ q ∈ treeEdgesKids p ts, (st.scopes q.1).isAsmModule = true →
      (st.scopes q.2).isFunctionScope = true →
      ((propagateInner p ts st).scopes q.2).asmFunction = true :=
  match ts with
  | .snil => by intro q hq; simp [treeEdgesKids] at hq
  | .scons t rest => by
    intro q hq hasm hfun
    have hun : treeEdgesKids p (.scons t rest) =
        (p, t.rootId) :: treeEdges t ++ treeEdgesKids p rest := rfl
    rw [hun] at hq
    show ((propagateInner p rest
        (asmStep p t.rootId (propagateScopeInfo t st))).scopes q.2).asmFunction = true
    rcases List.mem_cons.mp hq with hq1 | hq1
    · subst hq1
      apply propagateAsmMonoList
      apply asmStep_sets
      · rw [isAsmModule_congr (propagateFlags t st p).2.2.1 (propagateFlags t st p).2.2.2]
        exact hasm
      · rw [isFunctionScope_congr (propagateFlags t st t.rootId).2.2.2]
        exact hfun
    · rcases List.mem_append.mp hq1 with hq2 | hq2
      · apply propagateAsmMonoList
        apply asmStep_mono
        exact propagateAsmEdges t st q hq2 hasm hfun
      · apply propagateAsmEdgesList p rest _ q hq2
        · rw [isAsmModule_congr
              (asmStep_flags p t.rootId (propagateScopeInfo t st) q.1).2.2.1
              (asmStep_flags p t.rootId (propagateScopeInfo t st) q.1).2.2.2,
            isAsmModule_congr (propagateFlags t st q.1).2.2.1 (propagateFlags t st q.1).2.2.2]
          exact hasm
        · rw [isFunctionScope_congr
              (asmStep_flags p t.rootId (propagateScopeInfo t st) q.2).2.2.2,
            isFunctionScope_congr (propagateFlags t st q.2).2.2.2]
          exact hfun
end

/-- C3 (amended): PropagateScopeInfo leaves `scope_calls_eval` and
`inner_scope_calls_eval` unchanged on every scope (eval propagation is not
performed by this function in this snapshot); and after it runs, every inner
function scope of an asm-module scope has asm_function set. -/
theorem claim3_amended (t : STree) (st : AState) :
    (∀ i, ((propagateScopeInfo t st).scopes i).callsEval = (st.scopes i).callsEval ∧
          ((propagateScopeInfo t st).scopes i).innerEval = (st.scopes i).innerEval) ∧
    (∀ q ∈ treeEdges t, (st.scopes q.1).isAsmModule = true →
        (st.scopes q.2).isFunctionScope = true →
        ((propagateScopeInfo t st).scopes q.2).asmFunction = true) :=
  ⟨fun i => ⟨(propagateFlags t st i).1, (propagateFlags t st i).2.1⟩,
   propagateAsmEdges t st⟩

/-- Concrete asm module with an inner function scope, for the C3 witness. -/
def c3wState : AState :=
  { vars := fun _ => { vname := 0, mode := .VAR }
    scopes := fun i =>
      if i = 0 then { stype := .FUNCTION, isDecl := true, asmModule := true, inner := [1] }
      else { stype := .FUNCTION, isDecl := true }
    proxies := fun _ => { pname := 0 }
    nextVar := 0 }

def c3wTree : STree := .node 0 (.scons (.node 1 .snil) .snil)

theorem claim3_witness :
    ((propagateScopeInfo c3wTree c3wState).scopes 1).asmFunction = true ∧
    ((propagateScopeInfo c3wTree c3wState).scopes 0).innerEval = (c3wState.scopes 0).innerEval :=
  ⟨(claim3_amended c3wTree c3wState).2 (0, 1) (by decide) (by decide) (by decide),
   ((claim3_amended c3wTree c3wState).1 0).2⟩

-- ## Scope::FinalizeBlockScope (scopes.cc:484-525)

/-- Modelled from the spec: Scope::RemoveInnerScope (scopes.h) maintains the
sibling list; it unlinks the first occurrence of the scope from the outer
scope's inner chain. -/
def removeInnerScope (st : AState) (o b : Nat) : AState :=
  updScope st o (fun sc => { sc with inner := sc.inner.erase b })

/-- Scope::PropagateUsageFlagsToScope (scopes.cc:593-598): if this scope calls
eval, record an eval call on the other scope. (RecordEvalCall is declared in
scopes.h; modelled from the spec 4.D: "if scope_calls_eval then
other.scope_calls_eval = true".) -/
def propagateUsageFlagsToScope (st : AState) (s other : Nat) : AState :=
  if (st.scopes s).callsEval then
    updScope st other (fun sc => { sc with callsEval := true })
  else st

/-- The mutation part of FinalizeBlockScope (scopes.cc:492-524) once the
scope is known to be removable and its outer scope is `o`: remove from outer,
re-parent inner scopes, move unresolved proxies, propagate the eval flag,
zero the heap slot count. -/
def setOuterAll (kids : List Nat) (o : Nat) (st : AState) : AState :=
  kids.foldl (fun acc k => updScope acc k (fun sc => { sc with outer := some o })) st

def finalizeRemove (st : AState) (b o : Nat) : AState :=
  let sb := st.scopes b
  let st1 := removeInnerScope st o b
  let st2 := setOuterAll sb.inner o st1
  let st3 := updScope st2 o (fun sc => { sc with inner := sb.inner ++ sc.inner })
  let st4 := updScope st3 b (fun sc => { sc with inner := [] })
  let st5 := updScope st4 o (fun sc => { sc with unresolved := sb.unresolved ++ sc.unresolved })
  let st6 := updScope st5 b (fun sc => { sc with unresolved := [] })
  let st7 := propagateUsageFlagsToScope st6 b o
  updScope st7 b (fun sc => { sc with numHeap := 0 })

/-- Scope::FinalizeBlockScope (scopes.cc:484-525). Keep the scope (return it)
when its variable map is non-empty or it is a declaration scope calling sloppy
eval. Otherwise remove it from its outer scope, re-parent its inner scopes to
the head of the outer scope's inner list (preserving their order), splice its
unresolved list in front of the outer scope's unresolved list, propagate the
eval flag, zero `num_heap_slots` and return none. The C++ dereferences the
outer scope unconditionally; when `outer = none` the model keeps the scope
(theorems assume an outer scope exists). -/
def finalizeBlockScope (st : AState) (b : Nat) : Option Nat × AState :=
  let sb := st.scopes b
  if sb.varMap.length > 0 || (sb.isDecl && sb.callsSloppyEval) then
    (some b, st)
  else
    match sb.outer with
    | none => (some b, st)
    | some o => (none, finalizeRemove st b o)

/-- Scopes reachable from `s` through `inner` lists within `n` steps. -/
def reachScopes : Nat → AState → Nat → List Nat
  | 0, _, _ => []
  | n + 1, st, s => s :: (st.scopes s).inner.flatMap (fun k => reachScopes n st k)

theorem reachScopes_self (n : Nat) (st : AState) (s : Nat) :
    s ∈ reachScopes (n + 1) st s := by
  simp [reachScopes]

theorem reachScopes_step {n : Nat} {st : AState} {s k x : Nat}
    (hk : k ∈ (st.scopes s).inner) (hx : x ∈ reachScopes n st k) :
    x ∈ reachScopes (n + 1) st s := by
  simp only [reachScopes, List.mem_cons, List.mem_flatMap]
  exact Or.inr ⟨k, hk, hx⟩

theorem reachScopes_mono {n m : Nat} (h : n ≤ m) (st : AState) (s : Nat) :
    ∀ x, x ∈ reachScopes n st s → x ∈ reachScopes m st s := by
  induction n generalizing m s with
  | zero => intro x hx; simp [reachScopes] at hx
  | succ n ih =>
    intro x hx
    rcases Nat.exists_eq_add_of_le h with ⟨c, hc⟩
    rcases m with - | m
    · omega
    simp only [reachScopes, List.mem_cons, List.mem_flatMap] at hx ⊢
    rcases hx with hx | ⟨k, hk, hx⟩
    · exact Or.inl hx
    · exact Or.inr ⟨k, hk, ih (by omega) k x hx⟩

/-- Membership in any finite-fuel reach; the transitive reachable set. -/
def ReachesFrom (st : AState) (s x : Nat) : Prop :=
  ∃ n, x ∈ reachScopes n st s

theorem foldl_setOuter (kids : List Nat) (o : Nat) (st : AState) (j : Nat) :
    ((setOuterAll kids o st).scopes j)
      = if j ∈ kids then { st.scopes j with outer := some o } else st.scopes j := by
  unfold setOuterAll
  induction kids generalizing st with
  | nil => simp
  | cons k ks ih =>
    simp only [List.foldl_cons]
    rw [ih]
    by_cases hk : j = k
    · subst hk
      by_cases hks : j ∈ ks <;> simp [updScope, hks]
    · by_cases hks : j ∈ ks <;> simp [updScope, hks, hk, Ne.symm]


theorem propagateUsageFlags_scopes (st : AState) (s o j : Nat) :
    ((propagateUsageFlagsToScope st s o).scopes j) =
      if (st.scopes s).callsEval then
        (if j = o then { st.scopes j with callsEval := true } else st.scopes j)
      else st.scopes j := by
  unfold propagateUsageFlagsToScope
  split <;> rename_i h
  · simp [updScope, h]
  · simp at h
    simp [h]

theorem finalizeRemove_scopes_b (st : AState) (b o : Nat)
    (hbo : b ≠ o) (hbin : b ∉ (st.scopes b).inner) :
    (finalizeRemove st b o).scopes b
      = { st.scopes b with inner := [], unresolved := [], numHeap := 0 } := by
  unfold finalizeRemove removeInnerScope
  simp [propagateUsageFlags_scopes, updScope, foldl_setOuter, hbo, hbin, ite_self]

theorem finalizeRemove_scopes_o (st : AState) (b o : Nat)
    (hbo : b ≠ o) (hbin : b ∉ (st.scopes b).inner) (hoin : o ∉ (st.scopes b).inner) :
    (finalizeRemove st b o).scopes o
      = { st.scopes o with
            inner := (st.scopes b).inner ++ (st.scopes o).inner.erase b,
            unresolved := (st.scopes b).unresolved ++ (st.scopes o).unresolved,
            callsEval := ((st.scopes o).callsEval || (st.scopes b).callsEval) } := by
  unfold finalizeRemove removeInnerScope
  rcases hce : (st.scopes b).callsEval with - | - <;>
    simp [propagateUsageFlags_scopes, updScope, foldl_setOuter, hbo, hbin, hoin,
      Ne.symm hbo, hce, ite_self]

theorem finalizeRemove_scopes_other (st : AState) (b o j : Nat)
    (hjb : j ≠ b) (hjo : j ≠ o) :
    (finalizeRemove st b o).scopes j
      = if j ∈ (st.scopes b).inner then { st.scopes j with outer := some o }
        else st.scopes j := by
  unfold finalizeRemove removeInnerScope
  by_cases hji : j ∈ (st.scopes b).inner <;>
    simp [propagateUsageFlags_scopes, updScope, foldl_setOuter, hjb, hjo, hji, ite_self]

theorem finalizeRemove_scopes_other_inner (st : AState) (b o j : Nat)
    (hjb : j ≠ b) (hjo : j ≠ o) :
    ((finalizeRemove st b o).scopes j).inner = (st.scopes j).inner := by
  rw [finalizeRemove_scopes_other st b o j hjb hjo]
  split <;> rfl

theorem flatMap_congr_mem {α β : Type} {l : List α} {f g : α → List β}
    (h : ∀ a ∈ l, f a = g a) : l.flatMap f = l.flatMap g := by
  induction l with
  | nil => rfl
  | cons a l2 ih =>
    simp only [List.flatMap_cons]
    rw [h a (List.mem_cons_self a l2), ih (fun x hx => h x (List.mem_cons_of_mem a hx))]

theorem reach_subset_closed {C : List Nat} {st : AState}
    (hC : ∀ x ∈ C, ∀ y ∈ (st.scopes x).inner, y ∈ C) :
    ∀ n k, k ∈ C → ∀ x, x ∈ reachScopes n st k → x ∈ C := by
  intro n
  induction n with
  | zero => intro k _ x hx; simp [reachScopes] at hx
  | succ n ih =>
    intro k hk x hx
    simp only [reachScopes, List.mem_cons, List.mem_flatMap] at hx
    rcases hx with hx | ⟨j, hj, hx⟩
    · exact hx ▸ hk
    · exact ih j (hC k hk j hj) x hx

theorem reach_eq_of_untouched {st st2 : AState} {o b : Nat}
    (h : ∀ j, j ≠ o → j ≠ b → (st2.scopes j).inner = (st.scopes j).inner) :
    ∀ n k, o ∉ reachScopes n st k → b ∉ reachScopes n st k →
      reachScopes n st2 k = reachScopes n st k := by
  intro n
  induction n with
  | zero => intro k _ _; rfl
  | succ n ih =>
    intro k hko hkb
    have hko2 : k ≠ o := fun he => hko (he ▸ reachScopes_self n st k)
    have hkb2 : k ≠ b := fun he => hkb (he ▸ reachScopes_self n st k)
    simp only [reachScopes, h k hko2 hkb2]
    refine congrArg (List.cons k) (flatMap_congr_mem ?_)
    intro j hj
    exact ih j (fun hmem => hko (reachScopes_step hj hmem))
      (fun hmem => hkb (reachScopes_step hj hmem))

/-- C4: FinalizeBlockScope on a block scope b. If b's variable map is
non-empty or b is a declaration scope calling sloppy eval, it returns b with
the state unchanged. Otherwise (given an outer scope o, b occurring once in
o's inner list, and a transitively inner-closed set C of the re-parented
subtrees avoiding b and o) it returns none, removes b from o's inner list
while re-parenting b's inner scopes at the head of o's inner list in order,
splices b's unresolved list in front of o's, propagates scope_calls_eval,
zeroes b's num_heap_slots, and the set of scopes transitively reachable from
o is preserved except that b itself is gone. -/
theorem claim4_finalize_block_scope (st : AState) (b : Nat)
    (hblock : (st.scopes b).stype = ScopeType.BLOCK) :
    (((st.scopes b).varMap.length > 0 || ((st.scopes b).isDecl && (st.scopes b).callsSloppyEval)) = true →
        finalizeBlockScope st b = (some b, st)) ∧
    (∀ o, ((st.scopes b).varMap.length > 0 || ((st.scopes b).isDecl && (st.scopes b).callsSloppyEval)) = false →
      (st.scopes b).outer = some o → b ≠ o →
      ((st.scopes o).inner).count b = 1 →
      ∀ C : List Nat, (∀ x ∈ C, ∀ y ∈ (st.scopes x).inner, y ∈ C) →
        (∀ k ∈ (st.scopes b).inner, k ∈ C) →
        (∀ k ∈ (st.scopes o).inner, k ≠ b → k ∈ C) →
        b ∉ C → o ∉ C →
        (finalizeBlockScope st b).1 = none ∧
        ((finalizeBlockScope st b).2.scopes o).inner
            = (st.scopes b).inner ++ (st.scopes o).inner.erase b ∧
        (∀ k ∈ (st.scopes b).inner, ((finalizeBlockScope st b).2.scopes k).outer = some o) ∧
        ((finalizeBlockScope st b).2.scopes b).inner = [] ∧
        ((finalizeBlockScope st b).2.scopes o).unresolved
            = (st.scopes b).unresolved ++ (st.scopes o).unresolved ∧
        ((finalizeBlockScope st b).2.scopes b).unresolved = [] ∧
        ((finalizeBlockScope st b).2.scopes o).callsEval
            = ((st.scopes o).callsEval || (st.scopes b).callsEval) ∧
        ((finalizeBlockScope st b).2.scopes b).numHeap = 0 ∧
        (∀ x, ReachesFrom (finalizeBlockScope st b).2 o x ↔ (ReachesFrom st o x ∧ x ≠ b))) := by
  constructor
  · intro hkeep
    unfold finalizeBlockScope
    dsimp only
    rw [hkeep]
    rfl
  · intro o hkeep houter hbo hcount C hC hkidsC hoinC hbC hoC
    have hfb : finalizeBlockScope st b = (none, finalizeRemove st b o) := by
      unfold finalizeBlockScope
      dsimp only
      rw [hkeep]
      simp only [Bool.false_eq_true, if_false, houter]
    have hbin : b ∉ (st.scopes b).inner := fun h => hbC (hkidsC b h)
    have hoin : o ∉ (st.scopes b).inner := fun h => hoC (hkidsC o h)
    have hbmem : b ∈ (st.scopes o).inner := by
      have : 0 < ((st.scopes o).inner).count b := by omega
      exact List.count_pos_iff.mp this
    have hberase : b ∉ (st.scopes o).inner.erase b := by
      intro hmem
      have h1 := List.count_erase_self b (st.scopes o).inner
      have h2 : 0 < ((st.scopes o).inner.erase b).count b := List.count_pos_iff.mpr hmem
      omega
    rw [hfb]
    refine ⟨rfl, ?_, ?_, ?_, ?_, ?_, ?_, ?_, ?_⟩
    · rw [finalizeRemove_scopes_o st b o hbo hbin hoin]
    · intro k hk
      have hkC : k ∈ C := hkidsC k hk
      have hkb : k ≠ b := fun he => hbC (he ▸ hkC)
      have hko : k ≠ o := fun he => hoC (he ▸ hkC)
      rw [finalizeRemove_scopes_other st b o k hkb hko, if_pos hk]
    · rw [finalizeRemove_scopes_b st b o hbo hbin]
    · rw [finalizeRemove_scopes_o st b o hbo hbin hoin]
    · rw [finalizeRemove_scopes_b st b o hbo hbin]
    · rw [finalizeRemove_scopes_o st b o hbo hbin hoin]
    · rw [finalizeRemove_scopes_b st b o hbo hbin]
    · -- Reachable-set preservation.
      set st2 := finalizeRemove st b o with hst2
      have hEo : (st2.scopes o).inner
          = (st.scopes b).inner ++ (st.scopes o).inner.erase b :=
        congrArg SScope.inner (finalizeRemove_scopes_o st b o hbo hbin hoin)
      have hEb : (st2.scopes b).inner = [] :=
        congrArg SScope.inner (finalizeRemove_scopes_b st b o hbo hbin)
      have hEj : ∀ j, j ≠ o → j ≠ b → (st2.scopes j).inner = (st.scopes j).inner :=
        fun j hjo hjb => finalizeRemove_scopes_other_inner st b o j hjb hjo
      have hreach : ∀ n k, k ∈ C → reachScopes n st2 k = reachScopes n st k := by
        intro n k hk
        exact reach_eq_of_untouched hEj n k
          (fun hm => hoC (reach_subset_closed hC n k hk o hm))
          (fun hm => hbC (reach_subset_closed hC n k hk b hm))
      intro x
      constructor
      · rintro ⟨n, hx⟩
        rcases n with - | n
        · simp [reachScopes] at hx
        simp only [reachScopes, List.mem_cons, List.mem_flatMap] at hx
        rcases hx with hx | ⟨k, hk, hx⟩
        · subst hx
          exact ⟨⟨1, reachScopes_self 0 st x⟩, Ne.symm hbo⟩
        · rw [hEo] at hk
          rcases List.mem_append.mp hk with hk1 | hk1
          · have hkC : k ∈ C := hkidsC k hk1
            rw [hreach n k hkC] at hx
            refine ⟨⟨n + 2, ?_⟩, fun he => hbC (he ▸ reach_subset_closed hC n k hkC x hx)⟩
            exact reachScopes_step hbmem (reachScopes_step hk1 hx)
          · have hkb : k ≠ b := fun he => hberase (he ▸ hk1)
            have hkC : k ∈ C := hoinC k (List.mem_of_mem_erase hk1) hkb
            rw [hreach n k hkC] at hx
            refine ⟨⟨n + 1, reachScopes_step (List.mem_of_mem_erase hk1) hx⟩,
              fun he => hbC (he ▸ reach_subset_closed hC n k hkC x hx)⟩
      · rintro ⟨⟨n, hx⟩, hxb⟩
        rcases n with - | n
        · simp [reachScopes] at hx
        simp only [reachScopes, List.mem_cons, List.mem_flatMap] at hx
        rcases hx with hx | ⟨k, hk, hx⟩
        · subst hx
          exact ⟨1, reachScopes_self 0 st2 x⟩
        · by_cases hkb : k = b
          · subst hkb
            rcases n with - | n
            · simp [reachScopes] at hx
            simp only [reachScopes, List.mem_cons, List.mem_flatMap] at hx
            rcases hx with hx | ⟨k2, hk2, hx⟩
            · exact absurd hx hxb
            · have hk2C : k2 ∈ C := hkidsC k2 hk2
              rw [← hreach n k2 hk2C] at hx
              have hk2mem : k2 ∈ (st2.scopes o).inner := by
                rw [hEo]
                exact List.mem_append.mpr (Or.inl hk2)
              exact ⟨n + 1, reachScopes_step hk2mem hx⟩
          · have hkmem : k ∈ (st2.scopes o).inner := by
              rw [hEo]
              exact List.mem_append.mpr (Or.inr ((List.mem_erase_of_ne hkb).mpr hk))
            have hkC : k ∈ C := hoinC k hk hkb
            rw [← hreach n k hkC] at hx
            exact ⟨n + 1, reachScopes_step hkmem hx⟩

/-- Concrete configuration for the C4 witness: block scope 1 (empty map,
calls eval, one unresolved proxy, one inner scope 2) inside function scope 0. -/
def c4wState : AState :=
  { vars := fun _ => { vname := 0, mode := .VAR }
    scopes := fun i =>
      if i = 0 then { stype := .FUNCTION, isDecl := true, inner := [1], unresolved := [6] }
      else if i = 1 then
        { stype := .BLOCK, outer := some 0, inner := [2], unresolved := [5], callsEval := true }
      else { stype := .BLOCK, outer := some 1 }
    proxies := fun _ => { pname := 0 }
    nextVar := 0 }

theorem claim4_witness :
    (finalizeBlockScope c4wState 1).1 = none ∧
    ((finalizeBlockScope c4wState 1).2.scopes 0).inner
        = (c4wState.scopes 1).inner ++ (c4wState.scopes 0).inner.erase 1 ∧
    ((finalizeBlockScope c4wState 1).2.scopes 2).outer = some 0 ∧
    ((finalizeBlockScope c4wState 1).2.scopes 0).unresolved
        = (c4wState.scopes 1).unresolved ++ (c4wState.scopes 0).unresolved ∧
    ((finalizeBlockScope c4wState 1).2.scopes 0).callsEval = true ∧
    ((finalizeBlockScope c4wState 1).2.scopes 1).numHeap = 0 ∧
    (∀ x, ReachesFrom (finalizeBlockScope c4wState 1).2 0 x ↔
      (ReachesFrom c4wState 0 x ∧ x ≠ 1)) := by
  have h := (claim4_finalize_block_scope c4wState 1 (by decide)).2 0 (by decide) (by decide)
    (by decide) (by decide) [2] (by decide) (by decide) (by decide) (by decide) (by decide)
  refine ⟨h.1, h.2.1, h.2.2.1 2 (by decide), h.2.2.2.2.1, ?_, h.2.2.2.2.2.2.2.1,
    h.2.2.2.2.2.2.2.2⟩
  rw [h.2.2.2.2.2.2.1]
  decide

-- ## Scope::DeclareVariable (scopes.cc:703-805)

/-- Scope::GetDeclarationScope (scopes.cc:961-967): walk outward until a
declaration scope is found; fuel-bounded (the C++ loop terminates because the
root scope is a declaration scope). -/
def getDeclarationScope : Nat → AState → Nat → Option Nat
  | 0, _, _ => none
  | fuel + 1, st, s =>
    if (st.scopes s).isDecl then some s
    else
      match (st.scopes s).outer with
      | none => none
      | some o => getDeclarationScope fuel st o

/-- The slice of a Declaration AST node consumed by DeclareVariable: its
identity, its proxy, whether it is a function declaration, and the declared
function's kind bits (ast.h interface). -/
structure DeclInfo where
  declId : Nat
  proxy : Nat
  isFunctionDeclaration : Bool := false
  funIsAsync : Bool := false
  funIsGenerator : Bool := false
deriving DecidableEq, Repr

/-- Result record for DeclareVariable: returned variable (null = none), the
state, and the `ok` / `sloppy_mode_block_scope_function_redefinition`
out-parameters (the caller passes them in as true / false). -/
structure DeclareResult where
  result : Option Nat
  state : AState
  ok : Bool
  redefinition : Bool

/-- The common tail of DeclareVariable (scopes.cc:802-804): append the
declaration node to decls_ and bind the proxy. Modelled from the spec (4.F):
binding a proxy records the variable on the proxy; the spec does not say that
binding marks the variable used, so no use flag is set here. -/
def finishDeclare (st : AState) (target : Nat) (decl : DeclInfo) (v : Nat) : DeclareResult :=
  let st1 := updScope st target (fun sc => { sc with decls := sc.decls ++ [decl.declId] })
  let st2 := updProxy st1 decl.proxy (fun p => { p with boundTo := some v })
  { result := some v, state := st2, ok := true, redefinition := false }

/-- The duplicate_allowed condition of scopes.cc:748-763: sloppy mode, a
function declaration redefining an existing FUNCTION binding whose name is in
the surrounding declaration scope's sloppy_block_function_map, not async, and
not a generator when the restrictive-generators flag is set. -/
def sloppyRedefCase (fuel : Nat) (st : AState) (s : Nat) (decl : DeclInfo)
    (allowHarmonyRestrictiveGenerators : Bool) (v : Nat) : Bool :=
  !(st.scopes s).strict && decl.isFunctionDeclaration && (st.vars v).isFunctionKind &&
  (match getDeclarationScope fuel st s with
   | some d => (st.scopes d).sloppyBlockFns.contains (st.proxies decl.proxy).pname
   | none => false) &&
  !decl.funIsAsync && !(allowHarmonyRestrictiveGenerators && decl.funIsGenerator)

/-- The body of Scope::DeclareVariable executing on scope `target` (after any
VAR-hoisting forward, scopes.cc:710-714). -/
def declareVariableOn (fuel : Nat) (st : AState) (target : Nat) (decl : DeclInfo)
    (mode : VariableMode) (allowHarmonyRestrictiveGenerators : Bool) : DeclareResult :=
  let name := (st.proxies decl.proxy).pname
  if (st.scopes target).isEvalScope && !(st.scopes target).strict && mode = .VAR then
    -- scopes.cc:726-734: sloppy direct eval VAR: a fresh variable pinned to LOOKUP.
    let v := st.nextVar
    let st1 := { st with
      nextVar := st.nextVar + 1,
      vars := fun j => if j = v then
        { vname := name, mode := mode, kind := .NORMAL, scope := some target,
          location := .LOOKUP, index := -1 } else st.vars j }
    finishDeclare st1 target decl v
  else
    match vmLookup (st.scopes target).varMap name with
    | none =>
      -- scopes.cc:738-744: declare the name.
      let kind : VariableKind := if decl.isFunctionDeclaration then .FUNCTION else .NORMAL
      let p := scopeDeclare st target name mode kind
      finishDeclare p.2 target decl p.1
    | some v =>
      if isLexicalVariableMode mode || isLexicalVariableMode ((st.vars v).mode) then
        if sloppyRedefCase fuel st target decl allowHarmonyRestrictiveGenerators v then
          let r := finishDeclare st target decl v
          { r with redefinition := true }
        else
          { result := none, state := st, ok := false, redefinition := false }
      else if mode = .VAR then
        finishDeclare (updVar st v (fun va => { va with maybeAssigned := true })) target decl v
      else
        finishDeclare st target decl v

/-- Scope::DeclareVariable (scopes.cc:703): VAR declarations outside a
declaration scope are hoisted to the declaration scope first. -/
def declareVariable (fuel : Nat) (st : AState) (s : Nat) (decl : DeclInfo)
    (mode : VariableMode) (allowHarmonyRestrictiveGenerators : Bool) : DeclareResult :=
  if mode = .VAR && !(st.scopes s).isDecl then
    match getDeclarationScope fuel st s with
    | none => { result := none, state := st, ok := true, redefinition := false }
    | some d => declareVariableOn fuel st d decl mode allowHarmonyRestrictiveGenerators
  else declareVariableOn fuel st s decl mode allowHarmonyRestrictiveGenerators

theorem declareVariableOn_cases (fuel : Nat) (st : AState) (target : Nat)
    (decl : DeclInfo) (mode : VariableMode) (aH : Bool) :
    (declareVariableOn fuel st target decl mode aH).ok = true ∨
    declareVariableOn fuel st target decl mode aH
      = { result := none, state := st, ok := false, redefinition := false } := by
  unfold declareVariableOn finishDeclare
  dsimp only
  split
  · left; rfl
  · split
    · left; rfl
    · split
      · split
        · left; rfl
        · right; rfl
      · split
        · left; rfl
        · left; rfl

theorem declareVariable_cases (fuel : Nat) (st : AState) (s : Nat)
    (decl : DeclInfo) (mode : VariableMode) (aH : Bool) :
    (declareVariable fuel st s decl mode aH).ok = true ∨
    declareVariable fuel st s decl mode aH
      = { result := none, state := st, ok := false, redefinition := false } := by
  unfold declareVariable
  split
  · split
    · left; rfl
    · exact declareVariableOn_cases fuel st _ decl mode aH
  · exact declareVariableOn_cases fuel st s decl mode aH

/-- C10: whenever DeclareVariable returns null with ok set to false (a
conflicting redeclaration), the state is unchanged: in particular no variable
map changes, no decls entry is appended, and the declaration's proxy keeps
its previous (unbound) state. -/
theorem claim10_failed_declaration_unchanged (fuel : Nat) (st : AState) (s : Nat)
    (decl : DeclInfo) (mode : VariableMode) (aH : Bool)
    (h : (declareVariable fuel st s decl mode aH).result = none ∧
         (declareVariable fuel st s decl mode aH).ok = false) :
    (declareVariable fuel st s decl mode aH).state = st ∧
    (∀ j, ((declareVariable fuel st s decl mode aH).state.scopes j).varMap
        = (st.scopes j).varMap) ∧
    (∀ j, ((declareVariable fuel st s decl mode aH).state.scopes j).decls
        = (st.scopes j).decls) ∧
    ((declareVariable fuel st s decl mode aH).state.proxies decl.proxy
        = st.proxies decl.proxy) := by
  rcases declareVariable_cases fuel st s decl mode aH with hx | hx
  · rw [hx] at h
    exact absurd h.2 (by simp)
  · rw [hx]
    exact ⟨rfl, fun j => rfl, fun j => rfl, rfl⟩

/-- Concrete failing redeclaration for the C10 witness: `let x` exists in a
strict function scope; a second `let x` declaration conflicts. -/
def c10wState : AState :=
  { vars := fun _ => { vname := 1, mode := .LET, scope := some 0 }
    scopes := fun _ =>
      { stype := .FUNCTION, isDecl := true, strict := true, varMap := [(1, 0)], locals := [0] }
    proxies := fun _ => { pname := 1 }
    nextVar := 5 }

def c10wDecl : DeclInfo := { declId := 9, proxy := 2 }

theorem claim10_witness :
    (declareVariable 4 c10wState 0 c10wDecl .LET false).state = c10wState ∧
    (∀ j, ((declareVariable 4 c10wState 0 c10wDecl .LET false).state.scopes j).varMap
        = (c10wState.scopes j).varMap) ∧
    (∀ j, ((declareVariable 4 c10wState 0 c10wDecl .LET false).state.scopes j).decls
        = (c10wState.scopes j).decls) ∧
    ((declareVariable 4 c10wState 0 c10wDecl .LET false).state.proxies c10wDecl.proxy
        = c10wState.proxies c10wDecl.proxy) :=
  claim10_failed_declaration_unchanged 4 c10wState 0 c10wDecl .LET false
    ⟨by decide, by decide⟩

/-- The literal statement of claim C5 at a given call: whenever the name is
already present in the scope and at least one of the modes is lexical, either
the sloppy block function redefinition case applies and the declaration
succeeds with the redefinition signal, or ok is set to false and null is
returned. -/
def c5Statement (fuel : Nat) (st : AState) (s : Nat) (decl : DeclInfo)
    (mode : VariableMode) (aH : Bool) : Prop :=
  ∀ v, vmLookup (st.scopes s).varMap ((st.proxies decl.proxy).pname) = some v →
    (isLexicalVariableMode mode || isLexicalVariableMode ((st.vars v).mode)) = true →
    ((sloppyRedefCase fuel st s decl aH v = true →
        (declareVariable fuel st s decl mode aH).redefinition = true ∧
        (declareVariable fuel st s decl mode aH).result ≠ none) ∧
     (sloppyRedefCase fuel st s decl aH v = false →
        (declareVariable fuel st s decl mode aH).ok = false ∧
        (declareVariable fuel st s decl mode aH).result = none))

/-- Concrete input refuting C5 as stated: a sloppy direct-eval scope with an
existing lexical binding for x; a `var x` declaration takes the
sloppy-direct-eval path and succeeds (fresh LOOKUP variable, ok stays true)
rather than failing. -/
def c5xState : AState :=
  { vars := fun _ => { vname := 1, mode := .LET, scope := some 0 }
    scopes := fun _ =>
      { stype := .EVAL, isDecl := true, strict := false, varMap := [(1, 0)], locals := [0] }
    proxies := fun _ => { pname := 1 }
    nextVar := 5 }

def c5xDecl : DeclInfo := { declId := 9, proxy := 2 }

theorem claim5_counterexample : ¬ c5Statement 4 c5xState 0 c5xDecl .VAR false := by
  intro h
  have h2 := (h 0 (by decide) (by decide)).2 (by decide)
  exact absurd h2.1 (by decide)

/-- C5 (amended): the dichotomy holds for the calls that reach the local
lookup step, i.e. calls that are not forwarded to the declaration scope
(mode VAR on a non-declaration scope) and do not take the sloppy direct-eval
VAR path. -/
theorem claim5_amended (fuel : Nat) (st : AState) (s : Nat) (decl : DeclInfo)
    (mode : VariableMode) (aH : Bool) (v : Nat)
    (hname : vmLookup (st.scopes s).varMap ((st.proxies decl.proxy).pname) = some v)
    (hlex : (isLexicalVariableMode mode || isLexicalVariableMode ((st.vars v).mode)) = true)
    (hforward : mode = .VAR → (st.scopes s).isDecl = true)
    (hnoeval : ((st.scopes s).isEvalScope && !(st.scopes s).strict && mode = .VAR) = false) :
    (sloppyRedefCase fuel st s decl aH v = true →
        (declareVariable fuel st s decl mode aH).redefinition = true ∧
        (declareVariable fuel st s decl mode aH).result = some v ∧
        (declareVariable fuel st s decl mode aH).ok = true) ∧
    (sloppyRedefCase fuel st s decl aH v = false →
        declareVariable fuel st s decl mode aH
          = { result := none, state := st, ok := false, redefinition := false }) := by
  have hcond1 : (mode = VariableMode.VAR && !(st.scopes s).isDecl) = false := by
    by_cases hm : mode = .VAR
    · simp [hm, hforward hm]
    · simp [hm]
  have hstep : declareVariable fuel st s decl mode aH
      = declareVariableOn fuel st s decl mode aH := by
    unfold declareVariable
    rw [hcond1]
    simp
  rw [hstep]
  unfold declareVariableOn
  dsimp only
  rw [hnoeval]
  simp only [Bool.false_eq_true, if_false, hname]
  rw [hlex]
  simp only [if_true]
  constructor
  · intro hdup
    rw [hdup]
    simp [finishDeclare]
  · intro hdup
    rw [hdup]
    simp

/-- Concrete configuration for the C5 witness: sloppy-mode block scope 1 in
function scope 0; block scope holds a lexical FUNCTION binding g (var 3) whose
name is in the declaration scope's sloppy_block_function_map; a second
function declaration for g is the permitted redefinition. -/
def c5wState : AState :=
  { vars := fun _ => { vname := 2, mode := .LET, kind := .FUNCTION, scope := some 1 }
    scopes := fun i =>
      if i = 0 then { stype := .FUNCTION, isDecl := true, inner := [1], sloppyBlockFns := [2] }
      else { stype := .BLOCK, outer := some 0, varMap := [(2, 3)], locals := [3] }
    proxies := fun _ => { pname := 2 }
    nextVar := 7 }

def c5wDecl : DeclInfo := { declId := 11, proxy := 4, isFunctionDeclaration := true }

theorem claim5_witness :
    (declareVariable 4 c5wState 1 c5wDecl .LET false).redefinition = true ∧
    (declareVariable 4 c5wState 1 c5wDecl .LET false).result = some 3 ∧
    (declareVariable 4 c5wState 1 c5wDecl .LET false).ok = true :=
  (claim5_amended 4 c5wState 1 c5wDecl .LET false 3
    (by decide) (by decide) (by decide) (by decide)).1 (by decide)

-- ## Scope::LookupRecursive (scopes.cc:1245-1337) and helpers

/-- Scope::NonLocal (scopes.cc:1235-1243): declare-or-get a dynamic-mode
variable in this scope's map (owning scope recorded as null) and allocate it
to LOOKUP(-1). -/
def nonLocal (st : AState) (s : Nat) (n : Nat) (mode : VariableMode) : Nat × AState :=
  let p := vmDeclare st s none n mode .NORMAL
  (p.1, allocateTo p.2.1 p.1 .LOOKUP (-1) none)

/-- Modelled from the spec (4.F.2): LookupLocal consults `variables`; the
LookupInScopeInfo branch applies only to deserialized scopes carrying
serialized scope info, which freshly parsed scopes (the ones modelled here)
do not have. -/
def lookupLocal (st : AState) (s : Nat) (n : Nat) : Option Nat :=
  vmLookup (st.scopes s).varMap n

/-- DeclarationScope::LookupFunctionVar (scopes.cc:636-651) without the
scope-info branch: the function_ variable when its raw name matches. -/
def lookupFunctionVar (st : AState) (s : Nat) (n : Nat) : Option Nat :=
  match (st.scopes s).functionVar with
  | some f => if (st.vars f).vname = n then some f else none
  | none => none

/-- DeclarationScope::DeclareDynamicGlobal (scopes.cc:807-812): declare a
DYNAMIC_GLOBAL variable in the (script) scope's map; it is not added to
locals_ and stays unallocated. -/
def declareDynamicGlobal (st : AState) (s : Nat) (n : Nat) : Nat × AState :=
  let p := vmDeclare st s (some s) n .DYNAMIC_GLOBAL .NORMAL
  (p.1, p.2.1)

/-- Scope::LookupRecursive (scopes.cc:1245-1337), fuel-bounded over the outer
chain. Returns the resolved variable (or none) and the state. The branch
where the outer pointer is null while outer_scope_end is not (a broken chain,
which the C++ would dereference) returns none. -/
def lookupRecursive : Nat → AState → Nat → Nat → Bool → Option Nat → Option Nat × AState
  | 0, st, _, _, _, _ => (none, st)
  | fuel + 1, st, s, proxy, declareFree, outerEnd =>
    let name := (st.proxies proxy).pname
    if (st.scopes s).isDebugEvaluate then
      if !declareFree then (none, st)
      else
        let p := nonLocal st s name .DYNAMIC
        (some p.1, p.2)
    else
      match lookupLocal st s name with
      | some v => (some v, st)
      | none =>
        let fv : Option Nat :=
          if (st.scopes s).isFunctionScope then lookupFunctionVar st s name else none
        match fv with
        | some v =>
          if (st.scopes s).callsSloppyEval then
            let p := nonLocal st s name .DYNAMIC
            (some p.1, p.2)
          else (some v, st)
        | none =>
          if (st.scopes s).outer = outerEnd then
            if !declareFree then (none, st)
            else
              let p := declareDynamicGlobal st s name
              (some p.1, p.2)
          else
            match (st.scopes s).outer with
            | none => (none, st)
            | some os =>
              match lookupRecursive fuel st os proxy declareFree outerEnd with
              | (none, st1) => (none, st1)
              | (some v, st1) =>
                let st2 :=
                  if (st.scopes s).isFunctionScope && !(st1.vars v).isDynamic then
                    updVar st1 v (fun va => { va with forceCtx := true })
                  else st1
                if (st2.vars v).isThisVar then (some v, st2)
                else if (st.scopes s).isWithScope then
                  let st3 :=
                    if !(st2.vars v).isDynamic && (st2.vars v).isUnallocated then
                      let sta := updVar st2 v
                        (fun va => { va with isUsed := true, forceCtx := true })
                      if (st.proxies proxy).isAssigned then
                        updVar sta v (fun va => { va with maybeAssigned := true })
                      else sta
                    else st2
                  let p := nonLocal st3 s name .DYNAMIC
                  (some p.1, p.2)
                else if (st.scopes s).callsSloppyEval && (st.scopes s).isDecl then
                  if isGlobalObjectProperty st2 v then
                    let p := nonLocal st2 s name .DYNAMIC_GLOBAL
                    (some p.1, p.2)
                  else if (st2.vars v).isDynamic then (some v, st2)
                  else
                    let p := nonLocal st2 s name .DYNAMIC_LOCAL
                    let st4 := updVar p.2 p.1
                      (fun va => { va with localIfNotShadowed := some v })
                    (some p.1, st4)
                else (some v, st2)

/-- The literal statement of claim C6 at a call that starts at a with scope:
the resolved variable always has mode DYNAMIC, and a found unallocated outer
binding is marked used and forced to context allocation. -/
def c6Statement (fuel : Nat) (st : AState) (s : Nat) (proxy : Nat) : Prop :=
  (st.scopes s).isWithScope = true →
  ((∀ v, (lookupRecursive (fuel + 1) st s proxy true none).1 = some v →
      ((lookupRecursive (fuel + 1) st s proxy true none).2.vars v).mode = .DYNAMIC) ∧
   (∀ os, (st.scopes s).outer = some os →
      ∀ w, (lookupRecursive fuel st os proxy true none).1 = some w →
        ((lookupRecursive fuel st os proxy true none).2.vars w).location = .UNALLOCATED →
        ((lookupRecursive (fuel + 1) st s proxy true none).2.vars w).isUsed = true ∧
        ((lookupRecursive (fuel + 1) st s proxy true none).2.vars w).forceCtx = true))

/-- Concrete input refuting C6 as stated: a `this` proxy inside a with scope
(scope 2) whose outer function scope (scope 1) holds the receiver; the
receiver is returned unchanged (mode VAR, not DYNAMIC) and is not marked used
or forced to a context slot. -/
def c6xState : AState :=
  { vars := fun _ => { vname := 1, mode := .VAR, kind := .THIS, scope := some 1 }
    scopes := fun i =>
      if i = 1 then
        { stype := .FUNCTION, isDecl := true, inner := [2], varMap := [(1, 0)], locals := [0] }
      else { stype := .WITH, outer := some 1 }
    proxies := fun _ => { pname := 1 }
    nextVar := 5 }

theorem claim6_counterexample : ¬ c6Statement 4 c6xState 2 3 := by
  intro h
  have h2 := (h (by decide)).1 0 (by decide)
  exact absurd h2 (by decide)

/-- C6 (amended): at a with scope on the resolution path (the with scope
itself holds no local binding for the name and has an outer scope), when the
outer lookup found a binding w: if w is the receiver (`this`), it is returned
unchanged (the documented exception, scopes.cc:1296-1299); otherwise the call
returns a freshly declared DYNAMIC non-local, and if w is a non-dynamic
unallocated binding it is marked used and forced to context allocation. -/
theorem claim6_amended (fuel : Nat) (st : AState) (s proxy os w : Nat) (st1 : AState)
    (hwith : (st.scopes s).stype = ScopeType.WITH)
    (hdbg : (st.scopes s).isDebugEvaluate = false)
    (hos : (st.scopes s).outer = some os)
    (hlocal : vmLookup (st.scopes s).varMap ((st.proxies proxy).pname) = none)
    (hr : lookupRecursive fuel st os proxy true none = (some w, st1))
    (hlocal2 : vmLookup ((st1.scopes s).varMap) ((st.proxies proxy).pname) = none) :
    ((st1.vars w).kind = .THIS →
        lookupRecursive (fuel + 1) st s proxy true none = (some w, st1)) ∧
    ((st1.vars w).kind ≠ .THIS →
      (∃ v, (lookupRecursive (fuel + 1) st s proxy true none).1 = some v ∧
        (((lookupRecursive (fuel + 1) st s proxy true none).2).vars v).mode = .DYNAMIC) ∧
      (isDynamicVariableMode ((st1.vars w).mode) = false →
       (st1.vars w).location = .UNALLOCATED →
       w ≠ st1.nextVar →
       (((lookupRecursive (fuel + 1) st s proxy true none).2).vars w).isUsed = true ∧
       (((lookupRecursive (fuel + 1) st s proxy true none).2).vars w).forceCtx = true)) := by
  have hfun : (st.scopes s).isFunctionScope = false := by
    simp [SScope.isFunctionScope, hwith]
  have hwith2 : (st.scopes s).isWithScope = true := by
    simp [SScope.isWithScope, hwith]
  have hstep : lookupRecursive (fuel + 1) st s proxy true none =
      (if (st1.vars w).isThisVar then (some w, st1)
       else
         (let st3 :=
            if !(st1.vars w).isDynamic && (st1.vars w).isUnallocated then
              (let sta := updVar st1 w (fun va => { va with isUsed := true, forceCtx := true });
               if (st.proxies proxy).isAssigned then
                 updVar sta w (fun va => { va with maybeAssigned := true })
               else sta)
            else st1;
          let p := nonLocal st3 s ((st.proxies proxy).pname) .DYNAMIC;
          (some p.1, p.2))) := by
    simp only [lookupRecursive, lookupLocal]
    rw [hlocal, hdbg, hfun, hos]
    dsimp only
    rw [hr]
    simp [hwith2]
  rw [hstep]
  constructor
  · intro hthis
    have h1 : (st1.vars w).isThisVar = true := by simp [Var.isThisVar, hthis]
    rw [h1]
    simp
  · intro hthis
    have h1 : (st1.vars w).isThisVar = false := by simp [Var.isThisVar, hthis]
    rw [h1]
    simp only [Bool.false_eq_true, if_false]
    rcases hguard : (!(st1.vars w).isDynamic && (st1.vars w).isUnallocated) with - | -
    · -- w already dynamic or already allocated: no marking needed (hypotheses refute it)
      simp only [hguard, Bool.false_eq_true, if_false]
      constructor
      · refine ⟨st1.nextVar, ?_, ?_⟩
        · simp [nonLocal, vmDeclare, hlocal2]
        · simp [nonLocal, vmDeclare, hlocal2, allocateTo, updVar, updScope]
      · intro hdyn hunalloc
        exfalso
        rw [Var.isDynamic, hdyn, Var.isUnallocated, hunalloc] at hguard
        simp at hguard
    · simp only [hguard, if_true]
      rcases hassign : (st.proxies proxy).isAssigned with - | -
      all_goals simp only [hassign, Bool.false_eq_true, if_false, if_true]
      · constructor
        · refine ⟨st1.nextVar, ?_, ?_⟩
          · simp [nonLocal, vmDeclare, hlocal2, updVar, updScope]
          · simp [nonLocal, vmDeclare, hlocal2, allocateTo, updVar, updScope]
        · intro hdyn hunalloc hwne
          constructor <;>
            simp [nonLocal, vmDeclare, hlocal2, allocateTo, updVar, updScope, hwne]
      · constructor
        · refine ⟨st1.nextVar, ?_, ?_⟩
          · simp [nonLocal, vmDeclare, hlocal2, updVar, updScope]
          · simp [nonLocal, vmDeclare, hlocal2, allocateTo, updVar, updScope]
        · intro hdyn hunalloc hwne
          constructor <;>
            simp [nonLocal, vmDeclare, hlocal2, allocateTo, updVar, updScope, hwne]

/-- Concrete configuration for the C6 witness: `with (o) { x }` — with scope 2
inside function scope 1 that declares x (var 0, unallocated). -/
def c6wState : AState :=
  { vars := fun _ => { vname := 1, mode := .VAR, scope := some 1 }
    scopes := fun i =>
      if i = 1 then
        { stype := .FUNCTION, isDecl := true, inner := [2], varMap := [(1, 0)], locals := [0] }
      else { stype := .WITH, outer := some 1 }
    proxies := fun _ => { pname := 1 }
    nextVar := 5 }

theorem claim6_witness :
    (∃ v, (lookupRecursive 5 c6wState 2 3 true none).1 = some v ∧
      (((lookupRecursive 5 c6wState 2 3 true none).2).vars v).mode = .DYNAMIC) ∧
    ((((lookupRecursive 5 c6wState 2 3 true none).2).vars 0).isUsed = true ∧
     (((lookupRecursive 5 c6wState 2 3 true none).2).vars 0).forceCtx = true) := by
  have hr : lookupRecursive 4 c6wState 1 3 true none
      = (some 0, (lookupRecursive 4 c6wState 1 3 true none).2) :=
    Prod.ext (by decide) rfl
  have h := (claim6_amended 4 c6wState 2 3 1 0 (lookupRecursive 4 c6wState 1 3 true none).2
      (by decide) (by decide) (by decide) (by decide) hr (by decide)).2 (by decide)
  exact ⟨h.1, h.2 (by decide) (by decide) (by decide)⟩

-- ## The allocator (scopes.cc:1431-1644)

/-- Scope::MustAllocate (scopes.cc:1431-1444): give the variable a use if it
might be accessed via eval (visible name and inner eval / catch / script
scope), then report whether it needs a slot (used and not a global object
property). -/
def mustAllocate (st : AState) (s v : Nat) : Bool × AState :=
  let va := st.vars v
  let sc := st.scopes s
  let st1 :=
    if (va.isThisVar || !va.nameEmpty) &&
        (sc.innerEval || sc.isCatchScope || sc.isScriptScope) then
      let sta := updVar st v (fun x => { x with isUsed := true })
      if sc.innerEval then updVar sta v (fun x => { x with maybeAssigned := true }) else sta
    else st
  (!(isGlobalObjectProperty st1 v) && (st1.vars v).isUsed, st1)

/-- Scope::MustAllocateInContext (scopes.cc:1447-1462). -/
def mustAllocateInContext (st : AState) (s v : Nat) : Bool :=
  let va := st.vars v
  let sc := st.scopes s
  if sc.forceCtx then true
  else if va.mode = .TEMPORARY then false
  else if sc.isCatchScope then true
  else if sc.isScriptScope && isLexicalVariableMode va.mode then true
  else va.forceCtx || sc.innerEval

/-- The scope whose frame receives a stack slot requested at scope s:
Scope::AllocateStackSlot (scopes.cc:1465-1471) forwards from a block scope to
the enclosing declaration scope, repeatedly until a non-block declaration
scope (the closure scope) is reached. Fuel-bounded. -/
def closureTargetForStack : Nat → AState → Nat → Option Nat
  | 0, _, _ => none
  | fuel + 1, st, s =>
    if (st.scopes s).isBlockScope then
      match (st.scopes s).outer with
      | none => none
      | some o =>
        match getDeclarationScope fuel st o with
        | none => none
        | some d => closureTargetForStack fuel st d
    else some s

/-- Scope::AllocateStackSlot: assign LOCAL at the target scope's
num_stack_slots counter and bump it. A broken chain (no target) is a
no-op in the model (the C++ would dereference null). -/
def allocateStackSlot (fuel : Nat) (st : AState) (s v : Nat) : AState :=
  match closureTargetForStack fuel st s with
  | none => st
  | some d =>
    updScope (allocateTo st v .LOCAL ((st.scopes d).numStack : Int) (some d)) d
      (fun sc => { sc with numStack := sc.numStack + 1 })

/-- Scope::AllocateHeapSlot (scopes.cc:1474-1476): assign CONTEXT at this
scope's num_heap_slots counter and bump it. -/
def allocateHeapSlot (st : AState) (s v : Nat) : AState :=
  updScope (allocateTo st v .CONTEXT ((st.scopes s).numHeap : Int) (some s)) s
    (fun sc => { sc with numHeap := sc.numHeap + 1 })

/-- DeclarationScope::AllocateParameter (scopes.cc:1525-1539). -/
def allocateParameter (st : AState) (s v : Nat) (idx : Int) : AState :=
  match mustAllocate st s v with
  | (m, st1) =>
    if m then
      if mustAllocateInContext st1 s v then
        if (st1.vars v).isUnallocated then allocateHeapSlot st1 s v else st1
      else
        if (st1.vars v).isUnallocated then allocateTo st1 v .PARAMETER idx none else st1
    else st1

/-- DeclarationScope::AllocateParameterLocals (scopes.cc:1478-1523): decide
the sloppy-arguments aliasing (possibly nulling out arguments_), then
allocate parameters in reverse index order, forcing context allocation when
the sloppy arguments object aliases them. -/
def apArgumentsDecision (st : AState) (s : Nat) : Bool × AState :=
  match (st.scopes s).argumentsVar with
  | some a =>
    match mustAllocate st s a with
    | (m, st1) =>
      if m && !(st1.scopes s).hasArgumentsParam then
        (!(st1.scopes s).strict && (st1.scopes s).hasSimpleParams, st1)
      else
        (false, updScope st1 s (fun sc => { sc with argumentsVar := none }))
  | none => (false, st)

def apFold (s : Nat) (usesSloppy : Bool) (st : AState) : AState :=
  ((st.scopes s).params.enum.reverse).foldl
    (fun acc pair =>
      let acc1 :=
        if usesSloppy then updVar acc pair.2 (fun va => { va with forceCtx := true }) else acc
      allocateParameter acc1 s pair.2 (pair.1 : Int))
    st

def allocateParameterLocals (st : AState) (s : Nat) : AState :=
  apFold s (apArgumentsDecision st s).1 (apArgumentsDecision st s).2

/-- DeclarationScope::AllocateReceiver (scopes.cc:1541-1546): parameter slot
index -1 for `this` when the scope has a this declaration. -/
def allocateReceiver (st : AState) (s : Nat) : AState :=
  if (st.scopes s).hasThisDecl then
    match (st.scopes s).receiver with
    | some r => allocateParameter st s r (-1)
    | none => st
  else st

/-- Scope::AllocateNonParameterLocal (scopes.cc:1548-1557). -/
def allocateNonParameterLocal (fuel : Nat) (st : AState) (s v : Nat) : AState :=
  if (st.vars v).isUnallocated then
    match mustAllocate st s v with
    | (m, st1) =>
      if m then
        if mustAllocateInContext st1 s v then allocateHeapSlot st1 s v
        else allocateStackSlot fuel st1 s v
      else st1
  else st

/-- DeclarationScope::AllocateLocals (scopes.cc:1569-1588): allocate the
function self-binding last, and drop new_target_ / this_function_ when
unused. -/
def alFunctionVar (fuel : Nat) (st : AState) (s : Nat) : AState :=
  match (st.scopes s).functionVar with
  | some f => allocateNonParameterLocal fuel st s f
  | none => st

def alNewTarget (st : AState) (s : Nat) : AState :=
  match (st.scopes s).newTarget with
  | some nt =>
    match mustAllocate st s nt with
    | (m, sta) =>
      if !m then updScope sta s (fun sc => { sc with newTarget := none }) else sta
  | none => st

def alThisFunction (st : AState) (s : Nat) : AState :=
  match (st.scopes s).thisFunction with
  | some tf =>
    match mustAllocate st s tf with
    | (m, sta) =>
      if !m then updScope sta s (fun sc => { sc with thisFunction := none }) else sta
  | none => st

def allocateLocals (fuel : Nat) (st : AState) (s : Nat) : AState :=
  alThisFunction (alNewTarget (alFunctionVar fuel st s) s) s

/-- Scope::AllocateNonParameterLocalsAndDeclaredGlobals (scopes.cc:1559-1567). -/
def allocateNPLocals (fuel : Nat) (st : AState) (s : Nat) : AState :=
  let st1 := (st.scopes s).locals.foldl
    (fun acc v => allocateNonParameterLocal fuel acc s v) st
  if (st1.scopes s).isDecl then allocateLocals fuel st1 s else st1

/-- ModuleScope::AllocateModuleVariables (scopes.cc:1590-1601): regular
imports get MODULE slot 42 (the placeholder), regular exports get MODULE
slot 0. The C++ dereferences the LookupLocal result unconditionally; names
missing from the map are skipped in the model (a precondition). -/
def allocModFold (s : Nat) (i0 : Int) (L : List Nat) (st : AState) : AState :=
  L.foldl
    (fun acc n =>
      match lookupLocal acc s n with
      | some v => allocateTo acc v .MODULE i0 none
      | none => acc) st

def allocateModuleVariables (st : AState) (s : Nat) : AState :=
  let st1 := allocModFold s 42 (st.scopes s).regularImports st
  allocModFold s 0 ((st1.scopes s).regularExports) st1

/-- The per-scope part of Scope::AllocateVariablesRecursively
(scopes.cc:1615-1640), run after the children. -/
def asoDeclPhase (st : AState) (s : Nat) : AState :=
  if (st.scopes s).isDecl then
    allocateReceiver
      (if (st.scopes s).isModuleScope then allocateModuleVariables st s
       else if (st.scopes s).isFunctionScope then allocateParameterLocals st s
       else st) s
  else st

def mustHaveContext (st : AState) (s : Nat) : Bool :=
  (st.scopes s).isWithScope || (st.scopes s).isModuleScope ||
    ((st.scopes s).isFunctionScope && (st.scopes s).callsSloppyEval) ||
    ((st.scopes s).isBlockScope && (st.scopes s).isDecl && (st.scopes s).callsSloppyEval)

def asoDropHeap (st : AState) (s : Nat) : AState :=
  if (st.scopes s).numHeap = MIN_CONTEXT_SLOTS && !(mustHaveContext st s) then
    updScope st s (fun sc => { sc with numHeap := 0 })
  else st

def allocateScopeOwn (fuel : Nat) (st : AState) (s : Nat) : AState :=
  asoDropHeap (allocateNPLocals fuel (asoDeclPhase st s) s) s

-- Scope::AllocateVariablesRecursively (scopes.cc:1603-1644): children first,
-- then this scope.
mutual
def allocateVariablesRecursively (fuel : Nat) : STree → AState → AState
  | .node s kids, st => allocateScopeOwn fuel (allocateVariablesList fuel kids st) s
def allocateVariablesList (fuel : Nat) : STreeList → AState → AState
  | .snil, st => st
  | .scons t ts, st => allocateVariablesList fuel ts (allocateVariablesRecursively fuel t st)
end

-- ## The resolver entry points (scopes.cc:1339-1392)

/-- Scope::ResolveTo (scopes.cc:1352-1377): mark maybe-assigned for
assignment targets and bind the proxy. Modelled from the spec (4.F): binding
records the variable on the proxy; no use flag is set. -/
def resolveTo (st : AState) (proxy v : Nat) : AState :=
  let st1 :=
    if (st.proxies proxy).isAssigned then
      updVar st v (fun va => { va with maybeAssigned := true })
    else st
  updProxy st1 proxy (fun p => { p with boundTo := some v })

/-- Scope::ResolveVariable (scopes.cc:1339-1350). -/
def resolveVariable (fuel : Nat) (st : AState) (s proxy : Nat) : AState :=
  if (st.proxies proxy).boundTo.isSome then st
  else
    match lookupRecursive fuel st s proxy true none with
    | (none, st1) => st1
    | (some v, st1) => resolveTo st1 proxy v

-- Scope::ResolveVariablesRecursively (scopes.cc:1379-1392).
mutual
def resolveVariablesRecursively (fuel : Nat) : STree → AState → AState
  | .node s kids, st =>
    resolveVariablesList fuel kids
      ((st.scopes s).unresolved.foldl (fun acc p => resolveVariable fuel acc s p) st)
def resolveVariablesList (fuel : Nat) : STreeList → AState → AState
  | .snil, st => st
  | .scons t ts, st => resolveVariablesList fuel ts (resolveVariablesRecursively fuel t st)
end

/-- DeclarationScope::AllocateVariables (scopes.cc:895-900) without the
ScopeInfo serialization step (which only writes the serialized descriptor):
propagate scope info, resolve, then allocate. -/
def allocateVariables (fuel : Nat) (t : STree) (st : AState) : AState :=
  allocateVariablesRecursively fuel t
    (resolveVariablesRecursively fuel t (propagateScopeInfo t st))

theorem allocModFold_scopes (s : Nat) (i0 : Int) (L : List Nat) (st : AState) :
    (allocModFold s i0 L st).scopes = st.scopes := by
  unfold allocModFold
  induction L generalizing st with
  | nil => rfl
  | cons n L2 ih =>
    simp only [List.foldl_cons]
    rcases h : lookupLocal st s n with - | v
    · exact ih st
    · exact ih (allocateTo st v .MODULE i0 none)

theorem allocModFold_keeps (s : Nat) (i0 : Int) (L : List Nat) (st : AState) (v : Nat)
    (h : (st.vars v).location = .MODULE ∧ (st.vars v).index = i0) :
    ((allocModFold s i0 L st).vars v).location = .MODULE ∧
    ((allocModFold s i0 L st).vars v).index = i0 := by
  unfold allocModFold
  induction L generalizing st with
  | nil => exact h
  | cons n L2 ih =>
    simp only [List.foldl_cons]
    rcases hl : lookupLocal st s n with - | v2
    · exact ih st h
    · refine ih (allocateTo st v2 .MODULE i0 none) ?_
      by_cases hv : v = v2
      · subst hv
        simp [allocateTo, updVar]
      · simpa [allocateTo, updVar, hv] using h

theorem allocModFold_mem (s : Nat) (i0 : Int) (L : List Nat) (st : AState) (n v : Nat)
    (hn : n ∈ L) (hv : lookupLocal st s n = some v) :
    ((allocModFold s i0 L st).vars v).location = .MODULE ∧
    ((allocModFold s i0 L st).vars v).index = i0 := by
  induction L generalizing st with
  | nil => simp at hn
  | cons n2 L2 ih =>
    rcases List.mem_cons.mp hn with he | hmem
    · subst he
      show ((List.foldl _ st (n :: L2)).vars v).location = _ ∧ _
      unfold allocModFold
      simp only [List.foldl_cons]
      rcases hl : lookupLocal st s n with - | v2
      · exact absurd hv (by rw [hl]; simp)
      · have hvv : v2 = v := by
          rw [hl] at hv
          exact (Option.some.injEq _ _ ▸ hv : v2 = v)
        subst hvv
        have hkeep := allocModFold_keeps s i0 L2 (allocateTo st v2 .MODULE i0 none) v2
          (by simp [allocateTo, updVar])
        unfold allocModFold at hkeep
        exact hkeep
    · show ((List.foldl _ st (n2 :: L2)).vars v).location = _ ∧ _
      unfold allocModFold
      simp only [List.foldl_cons]
      rcases hl : lookupLocal st s n2 with - | v2
      · have := ih st hmem hv
        unfold allocModFold at this
        exact this
      · have hv2 : lookupLocal (allocateTo st v2 .MODULE i0 none) s n = some v := hv
        have := ih (allocateTo st v2 .MODULE i0 none) hmem hv2
        unfold allocModFold at this
        exact this

theorem allocModFold_frame (s : Nat) (i0 : Int) (L : List Nat) (st : AState) (v : Nat)
    (h : ∀ n ∈ L, lookupLocal st s n ≠ some v) :
    (allocModFold s i0 L st).vars v = st.vars v := by
  unfold allocModFold
  induction L generalizing st with
  | nil => rfl
  | cons n2 L2 ih =>
    simp only [List.foldl_cons]
    rcases hl : lookupLocal st s n2 with - | v2
    · exact ih st (fun n hn => h n (List.mem_cons_of_mem n2 hn))
    · have hv2 : v2 ≠ v := by
        intro he
        exact h n2 (List.mem_cons_self n2 L2) (he ▸ hl)
      have harg : ∀ n ∈ L2, lookupLocal (allocateTo st v2 .MODULE i0 none) s n ≠ some v :=
        fun n hn => h n (List.mem_cons_of_mem n2 hn)
      rw [ih _ harg]
      simp [allocateTo, updVar, Ne.symm hv2]

/-- The literal statement of claim C2 at a module scope: every export gets a
MODULE location with a distinct index per export; every import gets a MODULE
location with one shared index. -/
def c2Statement (st : AState) (s : Nat) : Prop :=
  (∀ n ∈ (st.scopes s).regularExports, ∀ v, lookupLocal st s n = some v →
      ((allocateModuleVariables st s).vars v).location = .MODULE) ∧
  (∀ n1 ∈ (st.scopes s).regularExports, ∀ n2 ∈ (st.scopes s).regularExports,
      ∀ v1 v2, lookupLocal st s n1 = some v1 → lookupLocal st s n2 = some v2 → v1 ≠ v2 →
      ((allocateModuleVariables st s).vars v1).index
        ≠ ((allocateModuleVariables st s).vars v2).index) ∧
  (∀ n ∈ (st.scopes s).regularImports, ∀ v, lookupLocal st s n = some v →
      ((allocateModuleVariables st s).vars v).location = .MODULE) ∧
  (∃ i : Int, ∀ n ∈ (st.scopes s).regularImports, ∀ v, lookupLocal st s n = some v →
      ((allocateModuleVariables st s).vars v).index = i)

/-- A module scope with two regular exports a (var 0) and b (var 1): the
allocator gives both MODULE index 0, so export indices are not distinct. -/
def c2xState : AState :=
  { vars := fun i =>
      if i = 0 then { vname := 1, mode := .LET, scope := some 0 }
      else { vname := 2, mode := .LET, scope := some 0 }
    scopes := fun _ =>
      { stype := .MODULE, isDecl := true, strict := true,
        varMap := [(1, 0), (2, 1)], locals := [0, 1], regularExports := [1, 2] }
    proxies := fun _ => { pname := 0 }
    nextVar := 5 }

theorem claim2_counterexample : ¬ c2Statement c2xState 0 := by
  intro h
  exact (h.2.1 1 (by decide) 2 (by decide) 0 1 (by decide) (by decide) (by decide)) (by decide)

/-- C2 (amended): when the allocator processes a module scope, every regular
export's variable is assigned MODULE location with the single index 0 (not a
distinct index per export), and every regular import's variable whose map
entry is not also hit by an export name is assigned MODULE location with the
shared placeholder index 42. -/
theorem claim2_amended (st : AState) (s : Nat) :
    (∀ n ∈ (st.scopes s).regularExports, ∀ v, lookupLocal st s n = some v →
        ((allocateModuleVariables st s).vars v).location = .MODULE ∧
        ((allocateModuleVariables st s).vars v).index = 0) ∧
    (∀ n ∈ (st.scopes s).regularImports,
      (∀ n2 ∈ (st.scopes s).regularExports, lookupLocal st s n2 ≠ lookupLocal st s n) →
      ∀ v, lookupLocal st s n = some v →
        ((allocateModuleVariables st s).vars v).location = .MODULE ∧
        ((allocateModuleVariables st s).vars v).index = 42) := by
  have hsc : (allocModFold s 42 (st.scopes s).regularImports st).scopes = st.scopes :=
    allocModFold_scopes s 42 (st.scopes s).regularImports st
  constructor
  · intro n hn v hv
    unfold allocateModuleVariables
    apply allocModFold_mem
    · show n ∈ ((allocModFold s 42 (st.scopes s).regularImports st).scopes s).regularExports
      rw [hsc]
      exact hn
    · show vmLookup
        (((allocModFold s 42 (st.scopes s).regularImports st)).scopes s).varMap n = some v
      rw [hsc]
      exact hv
  · intro n hn hsep v hv
    unfold allocateModuleVariables
    have h42 := allocModFold_mem s 42 (st.scopes s).regularImports st n v hn hv
    have hframe : (allocModFold s 0
        (((allocModFold s 42 (st.scopes s).regularImports st).scopes s).regularExports)
        (allocModFold s 42 (st.scopes s).regularImports st)).vars v
        = (allocModFold s 42 (st.scopes s).regularImports st).vars v := by
      apply allocModFold_frame
      intro n2 hn2
      show vmLookup
        (((allocModFold s 42 (st.scopes s).regularImports st)).scopes s).varMap n2 ≠ some v
      rw [hsc]
      rw [hsc] at hn2
      exact fun he => hsep n2 hn2 (he.trans hv.symm)
    rw [hframe]
    exact h42

/-- Concrete module for the C2 witness: import c (var 2) and export a (var 0). -/
def c2wState : AState :=
  { vars := fun i =>
      if i = 0 then { vname := 1, mode := .LET, scope := some 0 }
      else { vname := 3, mode := .CONST, scope := some 0 }
    scopes := fun _ =>
      { stype := .MODULE, isDecl := true, strict := true,
        varMap := [(1, 0), (3, 2)], locals := [0, 2],
        regularImports := [3], regularExports := [1] }
    proxies := fun _ => { pname := 0 }
    nextVar := 5 }

theorem claim2_witness :
    (((allocateModuleVariables c2wState 0).vars 0).location = .MODULE ∧
     ((allocateModuleVariables c2wState 0).vars 0).index = 0) ∧
    (((allocateModuleVariables c2wState 0).vars 2).location = .MODULE ∧
     ((allocateModuleVariables c2wState 0).vars 2).index = 42) :=
  ⟨(claim2_amended c2wState 0).1 1 (by decide) 0 (by decide),
   (claim2_amended c2wState 0).2 3 (by decide) (by decide) 2 (by decide)⟩

-- ## Shape preservation across the allocator
-- The allocator writes only slot counters, the nullable declaration-scope
-- variable fields, and the variables' location/index/flags; everything else is
-- frozen. `ScopeCore` / `VarCore` project the frozen parts.

structure ScopeCore where
  stype : ScopeType
  isDecl : Bool
  strict : Bool
  callsEval : Bool
  innerEval : Bool
  forceCtx : Bool
  isDebugEvaluate : Bool
  isArrow : Bool
  hasThisDecl : Bool
  hasSimpleParams : Bool
  hasArgumentsParam : Bool
  outer : Option Nat
  inner : List Nat
  varMap : List (Nat × Nat)
  locals : List Nat
  params : List Nat
  receiver : Option Nat
  functionVar : Option Nat
  regularImports : List Nat
  regularExports : List Nat
deriving DecidableEq

def scopeCore (sc : SScope) : ScopeCore :=
  { stype := sc.stype, isDecl := sc.isDecl, strict := sc.strict,
    callsEval := sc.callsEval, innerEval := sc.innerEval, forceCtx := sc.forceCtx,
    isDebugEvaluate := sc.isDebugEvaluate, isArrow := sc.isArrow,
    hasThisDecl := sc.hasThisDecl, hasSimpleParams := sc.hasSimpleParams,
    hasArgumentsParam := sc.hasArgumentsParam, outer := sc.outer, inner := sc.inner,
    varMap := sc.varMap, locals := sc.locals, params := sc.params,
    receiver := sc.receiver, functionVar := sc.functionVar,
    regularImports := sc.regularImports, regularExports := sc.regularExports }

structure VarCore where
  vname : Nat
  nameEmpty : Bool
  mode : VariableMode
  kind : VariableKind
  scope : Option Nat
deriving DecidableEq

def varCore (va : Var) : VarCore :=
  { vname := va.vname, nameEmpty := va.nameEmpty, mode := va.mode,
    kind := va.kind, scope := va.scope }

/-- What the allocation phase preserves: all scope cores, all variable cores,
and variables already marked used stay used. -/
structure AllocPres (st0 st : AState) : Prop where
  score : ∀ j, scopeCore (st.scopes j) = scopeCore (st0.scopes j)
  vcore : ∀ v, varCore (st.vars v) = varCore (st0.vars v)
  usedMono : ∀ v, (st0.vars v).isUsed = true → (st.vars v).isUsed = true

theorem AllocPres.rfl (st : AState) : AllocPres st st :=
  ⟨fun _ => Eq.refl _, fun _ => Eq.refl _, fun _ h => h⟩

theorem allocPres_trans {st0 st1 st2 : AState}
    (a : AllocPres st0 st1) (b : AllocPres st1 st2) : AllocPres st0 st2 :=
  ⟨fun j => (b.score j).trans (a.score j),
   fun v => (b.vcore v).trans (a.vcore v),
   fun v h => b.usedMono v (a.usedMono v h)⟩

theorem allocPres_updVar {st0 st : AState} (h : AllocPres st0 st) {i : Nat} {f : Var → Var}
    (hf : ∀ x, varCore (f x) = varCore x)
    (hu : ∀ x, x.isUsed = true → (f x).isUsed = true) :
    AllocPres st0 (updVar st i f) := by
  refine ⟨fun j => h.score j, fun v => ?_, fun v hv => ?_⟩
  · show varCore (if v = i then f (st.vars v) else st.vars v) = _
    by_cases hvi : v = i
    · simp only [hvi, if_pos rfl]
      exact (hf (st.vars i)).trans (h.vcore i)
    · simp only [if_neg hvi]
      exact h.vcore v
  · show (if v = i then f (st.vars v) else st.vars v).isUsed = true
    by_cases hvi : v = i
    · simp only [hvi, if_pos rfl]
      exact hu (st.vars i) (h.usedMono i (hvi ▸ hv))
    · simp only [if_neg hvi]
      exact h.usedMono v hv

theorem allocPres_updScope {st0 st : AState} (h : AllocPres st0 st) {i : Nat}
    {g : SScope → SScope} (hg : ∀ x, scopeCore (g x) = scopeCore x) :
    AllocPres st0 (updScope st i g) := by
  refine ⟨fun j => ?_, fun v => h.vcore v, fun v hv => h.usedMono v hv⟩
  show scopeCore (if j = i then g (st.scopes j) else st.scopes j) = _
  by_cases hj : j = i
  · simp only [hj, if_pos rfl]
    exact (hg (st.scopes i)).trans (h.score i)
  · simp only [if_neg hj]
    exact h.score j

theorem allocPres_allocateTo {st0 st : AState} (h : AllocPres st0 st)
    (v : Nat) (loc : VariableLocation) (idx : Int) (a : Option Nat) :
    AllocPres st0 (allocateTo st v loc idx a) := by
  refine allocPres_updVar h ?_ ?_
  · intro x
    rfl
  · intro x hx
    exact hx

theorem allocPres_mustAllocate {st0 st : AState} (h : AllocPres st0 st) (s v : Nat) :
    AllocPres st0 (mustAllocate st s v).2 := by
  unfold mustAllocate
  dsimp only
  split
  · split
    · refine allocPres_updVar (allocPres_updVar h ?_ ?_) ?_ ?_
      · intro x
        rfl
      · intro x hx
        rfl
      · intro x
        rfl
      · intro x hx
        exact hx
    · refine allocPres_updVar h ?_ ?_
      · intro x
        rfl
      · intro x hx
        rfl
  · exact h

theorem allocPres_allocateStackSlot {st0 st : AState} (h : AllocPres st0 st)
    (fuel s v : Nat) : AllocPres st0 (allocateStackSlot fuel st s v) := by
  unfold allocateStackSlot
  rcases closureTargetForStack fuel st s with - | d
  · exact h
  · refine allocPres_updScope (allocPres_allocateTo h v _ _ _) ?_
    intro x
    rfl

theorem allocPres_allocateHeapSlot {st0 st : AState} (h : AllocPres st0 st)
    (s v : Nat) : AllocPres st0 (allocateHeapSlot st s v) := by
  refine allocPres_updScope (allocPres_allocateTo h v _ _ _) ?_
  intro x
  rfl

theorem allocPres_allocateParameter {st0 st : AState} (h : AllocPres st0 st)
    (s v : Nat) (idx : Int) : AllocPres st0 (allocateParameter st s v idx) := by
  unfold allocateParameter
  have h1 := allocPres_mustAllocate h s v
  dsimp only
  split
  · split
    · split
      · exact allocPres_allocateHeapSlot h1 s v
      · exact h1
    · split
      · exact allocPres_allocateTo h1 v _ _ _
      · exact h1
  · exact h1

theorem allocPres_foldl {A : Type} {st0 : AState} (g : AState → A → AState)
    (hg : ∀ (st : AState) (a : A), AllocPres st0 st → AllocPres st0 (g st a))
    (L : List A) (st : AState) (h : AllocPres st0 st) :
    AllocPres st0 (L.foldl g st) := by
  induction L generalizing st with
  | nil => exact h
  | cons a L2 ih => exact ih (g st a) (hg st a h)

theorem allocPres_apArgumentsDecision {st0 st : AState} (h : AllocPres st0 st)
    (s : Nat) : AllocPres st0 (apArgumentsDecision st s).2 := by
  unfold apArgumentsDecision
  rcases (st.scopes s).argumentsVar with - | a
  · exact h
  · have h1 := allocPres_mustAllocate h s a
    dsimp only
    split
    · exact h1
    · dsimp only
      refine allocPres_updScope h1 ?_
      intro x
      rfl

theorem allocPres_apFold {st0 st : AState} (h : AllocPres st0 st)
    (s : Nat) (b : Bool) : AllocPres st0 (apFold s b st) := by
  unfold apFold
  refine allocPres_foldl _ ?_ _ _ h
  intro st3 pair h3
  dsimp only
  cases b with
  | true =>
    rw [if_pos rfl]
    refine allocPres_allocateParameter (allocPres_updVar h3 ?_ ?_) s pair.2 _
    · intro x
      rfl
    · intro x hx
      exact hx
  | false =>
    rw [if_neg (by simp)]
    exact allocPres_allocateParameter h3 s pair.2 _

theorem allocPres_allocateParameterLocals {st0 st : AState} (h : AllocPres st0 st)
    (s : Nat) : AllocPres st0 (allocateParameterLocals st s) :=
  allocPres_apFold (allocPres_apArgumentsDecision h s) s _

theorem allocPres_allocateReceiver {st0 st : AState} (h : AllocPres st0 st)
    (s : Nat) : AllocPres st0 (allocateReceiver st s) := by
  unfold allocateReceiver
  split
  · rcases (st.scopes s).receiver with - | r
    · exact h
    · exact allocPres_allocateParameter h s r _
  · exact h

theorem allocPres_allocateNonParameterLocal {st0 st : AState} (h : AllocPres st0 st)
    (fuel s v : Nat) : AllocPres st0 (allocateNonParameterLocal fuel st s v) := by
  unfold allocateNonParameterLocal
  split
  · have h1 := allocPres_mustAllocate h s v
    dsimp only
    split
    · split
      · exact allocPres_allocateHeapSlot h1 s v
      · exact allocPres_allocateStackSlot h1 fuel s v
    · exact h1
  · exact h

theorem allocPres_alFunctionVar {st0 st : AState} (h : AllocPres st0 st)
    (fuel s : Nat) : AllocPres st0 (alFunctionVar fuel st s) := by
  unfold alFunctionVar
  rcases (st.scopes s).functionVar with - | f
  · exact h
  · exact allocPres_allocateNonParameterLocal h fuel s f

theorem allocPres_alNewTarget {st0 st : AState} (h : AllocPres st0 st)
    (s : Nat) : AllocPres st0 (alNewTarget st s) := by
  unfold alNewTarget
  rcases (st.scopes s).newTarget with - | nt
  · exact h
  · have h1 := allocPres_mustAllocate h s nt
    dsimp only
    split
    · refine allocPres_updScope h1 ?_
      intro x
      rfl
    · exact h1

theorem allocPres_alThisFunction {st0 st : AState} (h : AllocPres st0 st)
    (s : Nat) : AllocPres st0 (alThisFunction st s) := by
  unfold alThisFunction
  rcases (st.scopes s).thisFunction with - | tf
  · exact h
  · have h1 := allocPres_mustAllocate h s tf
    dsimp only
    split
    · refine allocPres_updScope h1 ?_
      intro x
      rfl
    · exact h1

theorem allocPres_allocateLocals {st0 st : AState} (h : AllocPres st0 st)
    (fuel s : Nat) : AllocPres st0 (allocateLocals fuel st s) :=
  allocPres_alThisFunction (allocPres_alNewTarget (allocPres_alFunctionVar h fuel s) s) s

theorem allocPres_allocateNPLocals {st0 st : AState} (h : AllocPres st0 st)
    (fuel s : Nat) : AllocPres st0 (allocateNPLocals fuel st s) := by
  unfold allocateNPLocals
  dsimp only
  have h1 : AllocPres st0 ((st.scopes s).locals.foldl
      (fun acc v => allocateNonParameterLocal fuel acc s v) st) :=
    allocPres_foldl _ (fun st2 v h2 => allocPres_allocateNonParameterLocal h2 fuel s v) _ _ h
  split
  · exact allocPres_allocateLocals h1 fuel s
  · exact h1

theorem allocPres_allocModFold {st0 st : AState} (h : AllocPres st0 st)
    (s : Nat) (i0 : Int) (L : List Nat) : AllocPres st0 (allocModFold s i0 L st) := by
  unfold allocModFold
  refine allocPres_foldl _ ?_ _ _ h
  intro st2 n h2
  rcases lookupLocal st2 s n with - | v
  · exact h2
  · exact allocPres_allocateTo h2 v _ _ _

theorem allocPres_allocateModuleVariables {st0 st : AState} (h : AllocPres st0 st)
    (s : Nat) : AllocPres st0 (allocateModuleVariables st s) :=
  allocPres_allocModFold (allocPres_allocModFold h s 42 _) s 0 _

theorem allocPres_asoDeclPhase {st0 st : AState} (h : AllocPres st0 st)
    (s : Nat) : AllocPres st0 (asoDeclPhase st s) := by
  unfold asoDeclPhase
  split
  · refine allocPres_allocateReceiver ?_ s
    split
    · exact allocPres_allocateModuleVariables h s
    · split
      · exact allocPres_allocateParameterLocals h s
      · exact h
  · exact h

theorem allocPres_asoDropHeap {st0 st : AState} (h : AllocPres st0 st)
    (s : Nat) : AllocPres st0 (asoDropHeap st s) := by
  unfold asoDropHeap
  split
  · refine allocPres_updScope h ?_
    intro x
    rfl
  · exact h

theorem allocPres_allocateScopeOwn {st0 st : AState} (h : AllocPres st0 st)
    (fuel s : Nat) : AllocPres st0 (allocateScopeOwn fuel st s) :=
  allocPres_asoDropHeap (allocPres_allocateNPLocals (allocPres_asoDeclPhase h s) fuel s) s

mutual
theorem allocPres_allocateVariablesRecursively {st0 : AState} (fuel : Nat) :
    ∀ (t : STree) (st : AState), AllocPres st0 st →
      AllocPres st0 (allocateVariablesRecursively fuel t st)
  | .node s kids, st, h =>
    allocPres_allocateScopeOwn
      (allocPres_allocateVariablesList fuel kids st h) fuel s
theorem allocPres_allocateVariablesList {st0 : AState} (fuel : Nat) :
    ∀ (ts : STreeList) (st : AState), AllocPres st0 st →
      AllocPres st0 (allocateVariablesList fuel ts st)
  | .snil, _, h => h
  | .scons t ts, st, h =>
    allocPres_allocateVariablesList fuel ts _
      (allocPres_allocateVariablesRecursively fuel t st h)
end

-- Frozen-field accessors derived from AllocPres.

theorem AllocPres.forceCtx_eq {st0 st : AState} (h : AllocPres st0 st) (j : Nat) :
    (st.scopes j).forceCtx = (st0.scopes j).forceCtx :=
  congrArg ScopeCore.forceCtx (h.score j)

theorem AllocPres.stype_eq {st0 st : AState} (h : AllocPres st0 st) (j : Nat) :
    (st.scopes j).stype = (st0.scopes j).stype :=
  congrArg ScopeCore.stype (h.score j)

theorem AllocPres.locals_eq {st0 st : AState} (h : AllocPres st0 st) (j : Nat) :
    (st.scopes j).locals = (st0.scopes j).locals :=
  congrArg ScopeCore.locals (h.score j)

theorem AllocPres.params_eq {st0 st : AState} (h : AllocPres st0 st) (j : Nat) :
    (st.scopes j).params = (st0.scopes j).params :=
  congrArg ScopeCore.params (h.score j)

theorem AllocPres.receiver_eq {st0 st : AState} (h : AllocPres st0 st) (j : Nat) :
    (st.scopes j).receiver = (st0.scopes j).receiver :=
  congrArg ScopeCore.receiver (h.score j)

theorem AllocPres.functionVar_eq {st0 st : AState} (h : AllocPres st0 st) (j : Nat) :
    (st.scopes j).functionVar = (st0.scopes j).functionVar :=
  congrArg ScopeCore.functionVar (h.score j)

theorem AllocPres.mode_eq {st0 st : AState} (h : AllocPres st0 st) (v : Nat) :
    (st.vars v).mode = (st0.vars v).mode :=
  congrArg VarCore.mode (h.vcore v)

theorem AllocPres.scope_eq {st0 st : AState} (h : AllocPres st0 st) (v : Nat) :
    (st.vars v).scope = (st0.vars v).scope :=
  congrArg VarCore.scope (h.vcore v)

-- Small evaluation facts about the primitive allocation steps.

theorem allocateTo_loc (st : AState) (v : Nat) (loc : VariableLocation) (idx : Int)
    (a : Option Nat) (w : Nat) :
    ((allocateTo st v loc idx a).vars w).location =
      if w = v then loc else (st.vars w).location := by
  unfold allocateTo
  rw [updVar_vars]
  by_cases hw : w = v <;> simp [hw]

theorem mustAllocate_loc (st : AState) (s v w : Nat) :
    (((mustAllocate st s v).2).vars w).location = (st.vars w).location := by
  unfold mustAllocate
  dsimp only
  split
  · split
    · by_cases hw : w = v <;> simp [hw]
    · by_cases hw : w = v <;> simp [hw]
  · rfl

/-- Scope::MustAllocateInContext is false for TEMPORARY variables when the
scope has not forced context allocation, stated across allocator-preserved
states. -/
theorem mustAllocateInContext_temporary {st0 st : AState} (h : AllocPres st0 st)
    (s v : Nat) (hmode : (st0.vars v).mode = .TEMPORARY)
    (hfc : (st0.scopes s).forceCtx = false) :
    mustAllocateInContext st s v = false := by
  unfold mustAllocateInContext
  dsimp only
  rw [AllocPres.forceCtx_eq h s, hfc, AllocPres.mode_eq h v, hmode]
  simp

theorem snd_mem_of_mem_enumFrom {A : Type} :
    ∀ (L : List A) (k : Nat) (p : Nat × A), p ∈ L.enumFrom k → p.2 ∈ L := by
  intro L
  induction L with
  | nil =>
    intro k p hp
    simp [List.enumFrom] at hp
  | cons a L2 ih =>
    intro k p hp
    rw [List.enumFrom] at hp
    rcases List.mem_cons.mp hp with h1 | h1
    · rw [h1]
      exact List.mem_cons_self a L2
    · exact List.mem_cons_of_mem a (ih (k + 1) p h1)

theorem snd_mem_of_mem_enum {A : Type} (L : List A) (p : Nat × A)
    (hp : p ∈ L.enum) : p.2 ∈ L :=
  snd_mem_of_mem_enumFrom L 0 p hp

-- ## C8: TEMPORARY variables and context allocation

/-- The positions at scope s from which the allocator can pick up variable v:
the non-parameter locals, the parameters, the receiver and the function
variable. -/
def starOwned (st : AState) (s v : Nat) : Prop :=
  v ∈ (st.scopes s).locals ∨ v ∈ (st.scopes s).params ∨
    (st.scopes s).receiver = some v ∨ (st.scopes s).functionVar = some v

/-- The C8 hypothesis bundle: vstar is TEMPORARY and no scope holding it has
forced context allocation. -/
def TempOwn (st0 : AState) (vstar : Nat) : Prop :=
  (st0.vars vstar).mode = .TEMPORARY ∧
    ∀ s, starOwned st0 s vstar → (st0.scopes s).forceCtx = false

/-- The C8 invariant carried through the allocator. -/
def C8Inv (st0 : AState) (vstar : Nat) (st : AState) : Prop :=
  AllocPres st0 st ∧ (st.vars vstar).location ≠ .CONTEXT

theorem c8_foldl {A : Type} {st0 : AState} {vstar : Nat} (g : AState → A → AState)
    (L : List A)
    (hg : ∀ (st : AState) (a : A), a ∈ L → C8Inv st0 vstar st → C8Inv st0 vstar (g st a)) :
    ∀ st, C8Inv st0 vstar st → C8Inv st0 vstar (L.foldl g st) := by
  induction L with
  | nil => exact fun st h => h
  | cons a L2 ih =>
    intro st h
    exact ih (fun st2 b hb2 h2 => hg st2 b (List.mem_cons_of_mem a hb2) h2)
      (g st a) (hg st a (List.mem_cons_self a L2) h)

theorem c8_mustAllocate {st0 : AState} {vstar : Nat} {st : AState}
    (h : C8Inv st0 vstar st) (s v : Nat) : C8Inv st0 vstar (mustAllocate st s v).2 :=
  ⟨allocPres_mustAllocate h.1 s v, by rw [mustAllocate_loc]; exact h.2⟩

theorem c8_allocateTo {st0 : AState} {vstar : Nat} {st : AState}
    (h : C8Inv st0 vstar st) (v : Nat) (loc : VariableLocation) (idx : Int)
    (a : Option Nat) (hloc : loc ≠ .CONTEXT) :
    C8Inv st0 vstar (allocateTo st v loc idx a) := by
  refine ⟨allocPres_allocateTo h.1 v loc idx a, ?_⟩
  rw [allocateTo_loc]
  split
  · exact hloc
  · exact h.2

theorem c8_allocateStackSlot {st0 : AState} {vstar : Nat} {st : AState}
    (h : C8Inv st0 vstar st) (fuel s v : Nat) :
    C8Inv st0 vstar (allocateStackSlot fuel st s v) := by
  obtain ⟨hp, hl⟩ := h
  unfold allocateStackSlot
  rcases closureTargetForStack fuel st s with - | d
  · exact ⟨hp, hl⟩
  · refine ⟨allocPres_updScope (allocPres_allocateTo hp v _ _ _) (fun x => rfl), ?_⟩
    show ((allocateTo st v .LOCAL ((st.scopes d).numStack : Int) (some d)).vars vstar).location
      ≠ .CONTEXT
    rw [allocateTo_loc]
    split
    · exact fun hc => VariableLocation.noConfusion hc
    · exact hl

theorem c8_allocateHeapSlot {st0 : AState} {vstar : Nat} {st : AState}
    (h : C8Inv st0 vstar st) (s v : Nat) (hne : v = vstar → False) :
    C8Inv st0 vstar (allocateHeapSlot st s v) := by
  refine ⟨allocPres_allocateHeapSlot h.1 s v, ?_⟩
  show ((allocateTo st v .CONTEXT ((st.scopes s).numHeap : Int) (some s)).vars vstar).location
    ≠ .CONTEXT
  rw [allocateTo_loc]
  rw [if_neg (fun hv => hne hv.symm)]
  exact h.2

theorem c8_allocateParameter {st0 : AState} {vstar : Nat} {st : AState}
    (hb : TempOwn st0 vstar) (h : C8Inv st0 vstar st) (s v : Nat) (idx : Int)
    (hso : v = vstar → starOwned st0 s vstar) :
    C8Inv st0 vstar (allocateParameter st s v idx) := by
  have h1 : C8Inv st0 vstar (mustAllocate st s v).2 := c8_mustAllocate h s v
  unfold allocateParameter
  dsimp only
  by_cases hm : (mustAllocate st s v).1 = true
  · rw [if_pos hm]
    by_cases hctx : mustAllocateInContext (mustAllocate st s v).2 s v = true
    · rw [if_pos hctx]
      by_cases hun : ((mustAllocate st s v).2.vars v).isUnallocated = true
      · rw [if_pos hun]
        refine c8_allocateHeapSlot h1 s v ?_
        intro hveq
        subst hveq
        rw [mustAllocateInContext_temporary h1.1 s v hb.1 (hb.2 s (hso rfl))] at hctx
        exact Bool.false_ne_true hctx
      · rw [if_neg hun]
        exact h1
    · rw [if_neg hctx]
      by_cases hun : ((mustAllocate st s v).2.vars v).isUnallocated = true
      · rw [if_pos hun]
        exact c8_allocateTo h1 v .PARAMETER idx none (fun hc => VariableLocation.noConfusion hc)
      · rw [if_neg hun]
        exact h1
  · rw [if_neg hm]
    exact h1

theorem c8_apArgumentsDecision {st0 : AState} {vstar : Nat} {st : AState}
    (h : C8Inv st0 vstar st) (s : Nat) : C8Inv st0 vstar (apArgumentsDecision st s).2 := by
  unfold apArgumentsDecision
  rcases (st.scopes s).argumentsVar with - | a
  · exact h
  · have h1 := c8_mustAllocate h s a
    dsimp only
    split
    · exact h1
    · dsimp only
      exact ⟨allocPres_updScope h1.1 (fun x => rfl), by rw [updScope_vars]; exact h1.2⟩

theorem c8_apFold {st0 : AState} {vstar : Nat} (hb : TempOwn st0 vstar) {st : AState}
    (h : C8Inv st0 vstar st) (s : Nat) (b : Bool) : C8Inv st0 vstar (apFold s b st) := by
  unfold apFold
  refine c8_foldl _ _ ?_ st h
  intro st3 pair hmem h3
  dsimp only
  have hso : pair.2 = vstar → starOwned st0 s vstar := by
    intro he
    have hp2 : pair.2 ∈ (st.scopes s).params :=
      snd_mem_of_mem_enum _ _ (List.mem_reverse.mp hmem)
    rw [AllocPres.params_eq h.1 s] at hp2
    rw [he] at hp2
    exact Or.inr (Or.inl hp2)
  cases b with
  | true =>
    rw [if_pos rfl]
    refine c8_allocateParameter hb ?_ s pair.2 _ hso
    refine ⟨allocPres_updVar h3.1 (fun x => rfl) (fun x hx => hx), ?_⟩
    rw [updVar_vars]
    by_cases hv : vstar = pair.2
    · rw [if_pos hv]
      exact h3.2
    · rw [if_neg hv]
      exact h3.2
  | false =>
    rw [if_neg (by simp)]
    exact c8_allocateParameter hb h3 s pair.2 _ hso

theorem c8_allocateParameterLocals {st0 : AState} {vstar : Nat} (hb : TempOwn st0 vstar)
    {st : AState} (h : C8Inv st0 vstar st) (s : Nat) :
    C8Inv st0 vstar (allocateParameterLocals st s) := by
  unfold allocateParameterLocals
  exact c8_apFold hb (c8_apArgumentsDecision h s) s _

theorem c8_allocateReceiver {st0 : AState} {vstar : Nat} (hb : TempOwn st0 vstar)
    {st : AState} (h : C8Inv st0 vstar st) (s : Nat) :
    C8Inv st0 vstar (allocateReceiver st s) := by
  unfold allocateReceiver
  split
  · rcases hr : (st.scopes s).receiver with - | r
    · exact h
    · refine c8_allocateParameter hb h s r _ ?_
      intro hveq
      refine Or.inr (Or.inr (Or.inl ?_))
      rw [← AllocPres.receiver_eq h.1 s, hr, hveq]
  · exact h

theorem c8_allocateNonParameterLocal {st0 : AState} {vstar : Nat} (hb : TempOwn st0 vstar)
    {st : AState} (h : C8Inv st0 vstar st) (fuel s v : Nat)
    (hso : v = vstar → starOwned st0 s vstar) :
    C8Inv st0 vstar (allocateNonParameterLocal fuel st s v) := by
  unfold allocateNonParameterLocal
  split
  · have h1 := c8_mustAllocate h s v
    dsimp only
    by_cases hm : (mustAllocate st s v).1 = true
    · rw [if_pos hm]
      by_cases hctx : mustAllocateInContext (mustAllocate st s v).2 s v = true
      · rw [if_pos hctx]
        refine c8_allocateHeapSlot h1 s v ?_
        intro hveq
        subst hveq
        rw [mustAllocateInContext_temporary h1.1 s v hb.1 (hb.2 s (hso rfl))] at hctx
        exact Bool.false_ne_true hctx
      · rw [if_neg hctx]
        exact c8_allocateStackSlot h1 fuel s v
    · rw [if_neg hm]
      exact h1
  · exact h

theorem c8_alFunctionVar {st0 : AState} {vstar : Nat} (hb : TempOwn st0 vstar)
    {st : AState} (h : C8Inv st0 vstar st) (fuel s : Nat) :
    C8Inv st0 vstar (alFunctionVar fuel st s) := by
  unfold alFunctionVar
  rcases hf : (st.scopes s).functionVar with - | f
  · exact h
  · refine c8_allocateNonParameterLocal hb h fuel s f ?_
    intro hveq
    refine Or.inr (Or.inr (Or.inr ?_))
    rw [← AllocPres.functionVar_eq h.1 s, hf, hveq]

theorem c8_alNewTarget {st0 : AState} {vstar : Nat} {st : AState}
    (h : C8Inv st0 vstar st) (s : Nat) : C8Inv st0 vstar (alNewTarget st s) := by
  unfold alNewTarget
  rcases (st.scopes s).newTarget with - | nt
  · exact h
  · have h1 := c8_mustAllocate h s nt
    dsimp only
    split
    · exact ⟨allocPres_updScope h1.1 (fun x => rfl), by rw [updScope_vars]; exact h1.2⟩
    · exact h1

theorem c8_alThisFunction {st0 : AState} {vstar : Nat} {st : AState}
    (h : C8Inv st0 vstar st) (s : Nat) : C8Inv st0 vstar (alThisFunction st s) := by
  unfold alThisFunction
  rcases (st.scopes s).thisFunction with - | tf
  · exact h
  · have h1 := c8_mustAllocate h s tf
    dsimp only
    split
    · exact ⟨allocPres_updScope h1.1 (fun x => rfl), by rw [updScope_vars]; exact h1.2⟩
    · exact h1

theorem c8_allocateLocals {st0 : AState} {vstar : Nat} (hb : TempOwn st0 vstar)
    {st : AState} (h : C8Inv st0 vstar st) (fuel s : Nat) :
    C8Inv st0 vstar (allocateLocals fuel st s) :=
  c8_alThisFunction (c8_alNewTarget (c8_alFunctionVar hb h fuel s) s) s

theorem c8_allocateNPLocals {st0 : AState} {vstar : Nat} (hb : TempOwn st0 vstar)
    {st : AState} (h : C8Inv st0 vstar st) (fuel s : Nat) :
    C8Inv st0 vstar (allocateNPLocals fuel st s) := by
  unfold allocateNPLocals
  dsimp only
  have h1 : C8Inv st0 vstar ((st.scopes s).locals.foldl
      (fun acc v => allocateNonParameterLocal fuel acc s v) st) := by
    refine c8_foldl _ _ ?_ st h
    intro st3 v hmem h3
    refine c8_allocateNonParameterLocal hb h3 fuel s v ?_
    intro hveq
    rw [AllocPres.locals_eq h.1 s] at hmem
    rw [hveq] at hmem
    exact Or.inl hmem
  split
  · exact c8_allocateLocals hb h1 fuel s
  · exact h1

theorem c8_allocModFold {st0 : AState} {vstar : Nat} {st : AState}
    (h : C8Inv st0 vstar st) (s : Nat) (i0 : Int) (L : List Nat) :
    C8Inv st0 vstar (allocModFold s i0 L st) := by
  unfold allocModFold
  refine c8_foldl _ _ ?_ st h
  intro st2 n hmem h2
  rcases lookupLocal st2 s n with - | v
  · exact h2
  · exact c8_allocateTo h2 v .MODULE i0 none (fun hc => VariableLocation.noConfusion hc)

theorem c8_allocateModuleVariables {st0 : AState} {vstar : Nat} {st : AState}
    (h : C8Inv st0 vstar st) (s : Nat) : C8Inv st0 vstar (allocateModuleVariables st s) :=
  c8_allocModFold (c8_allocModFold h s 42 _) s 0 _

theorem c8_asoDeclPhase {st0 : AState} {vstar : Nat} (hb : TempOwn st0 vstar)
    {st : AState} (h : C8Inv st0 vstar st) (s : Nat) :
    C8Inv st0 vstar (asoDeclPhase st s) := by
  unfold asoDeclPhase
  split
  · refine c8_allocateReceiver hb ?_ s
    split
    · exact c8_allocateModuleVariables h s
    · split
      · exact c8_allocateParameterLocals hb h s
      · exact h
  · exact h

theorem c8_asoDropHeap {st0 : AState} {vstar : Nat} {st : AState}
    (h : C8Inv st0 vstar st) (s : Nat) : C8Inv st0 vstar (asoDropHeap st s) := by
  unfold asoDropHeap
  split
  · exact ⟨allocPres_updScope h.1 (fun x => rfl), by rw [updScope_vars]; exact h.2⟩
  · exact h

theorem c8_allocateScopeOwn {st0 : AState} {vstar : Nat} (hb : TempOwn st0 vstar)
    {st : AState} (h : C8Inv st0 vstar st) (fuel s : Nat) :
    C8Inv st0 vstar (allocateScopeOwn fuel st s) :=
  c8_asoDropHeap (c8_allocateNPLocals hb (c8_asoDeclPhase hb h s) fuel s) s

mutual
theorem c8_allocateVariablesRecursively {st0 : AState} {vstar : Nat}
    (hb : TempOwn st0 vstar) (fuel : Nat) :
    ∀ (t : STree) (st : AState), C8Inv st0 vstar st →
      C8Inv st0 vstar (allocateVariablesRecursively fuel t st)
  | .node s kids, st, h =>
    c8_allocateScopeOwn hb (c8_allocateVariablesList hb fuel kids st h) fuel s
theorem c8_allocateVariablesList {st0 : AState} {vstar : Nat}
    (hb : TempOwn st0 vstar) (fuel : Nat) :
    ∀ (ts : STreeList) (st : AState), C8Inv st0 vstar st →
      C8Inv st0 vstar (allocateVariablesList fuel ts st)
  | .snil, _, h => h
  | .scons t ts, st, h =>
    c8_allocateVariablesList hb fuel ts _
      (c8_allocateVariablesRecursively hb fuel t st h)
end

/-- C8: for a variable vstar with mode TEMPORARY whose holding scopes have
not forced context allocation, MustAllocateInContext returns false at any
non-forcing scope, and vstar never receives a CONTEXT location during
Scope::AllocateVariablesRecursively on any scope tree. -/
theorem claim8_temporary_never_context (fuel : Nat) (t : STree) (st : AState)
    (sstar vstar : Nat)
    (hmode : (st.vars vstar).mode = .TEMPORARY)
    (hforce : ∀ s, starOwned st s vstar → (st.scopes s).forceCtx = false)
    (hfstar : (st.scopes sstar).forceCtx = false)
    (hloc : (st.vars vstar).location ≠ .CONTEXT) :
    mustAllocateInContext st sstar vstar = false ∧
      ((allocateVariablesRecursively fuel t st).vars vstar).location ≠ .CONTEXT := by
  have hb : TempOwn st vstar := ⟨hmode, hforce⟩
  constructor
  · exact mustAllocateInContext_temporary (AllocPres.rfl st) sstar vstar hmode hfstar
  · exact (c8_allocateVariablesRecursively hb fuel t st ⟨AllocPres.rfl st, hloc⟩).2

/-- Concrete function scope owning one TEMPORARY variable for the C8 witness. -/
def c8wState : AState :=
  { vars := fun i =>
      if i = 1 then { vname := 5, mode := .TEMPORARY, scope := some 0, isUsed := true }
      else { vname := 0, mode := .VAR }
    scopes := fun _ =>
      { stype := .FUNCTION, isDecl := true, varMap := [(5, 1)], locals := [1] }
    proxies := fun _ => { pname := 0 }
    nextVar := 2 }

theorem claim8_witness :
    mustAllocateInContext c8wState 0 1 = false ∧
      ((allocateVariablesRecursively 4 (STree.node 0 STreeList.snil) c8wState).vars 1).location
        ≠ .CONTEXT :=
  claim8_temporary_never_context 4 (STree.node 0 STreeList.snil) c8wState 0 1 (by decide)
    (fun s hs => rfl) (by decide) (by decide)

-- ## C7: slot-index density

/-- Stack slot density at scope s: the LOCAL indices drawn from s's
num_stack_slots counter are exactly [0, num_stack_slots). -/
def StackSlotsOK (st : AState) (s : Nat) : Prop :=
  (∀ v, (st.vars v).location = .LOCAL → (st.vars v).allocScope = some s →
    ∃ n : Nat, n < (st.scopes s).numStack ∧ (st.vars v).index = (n : Int)) ∧
  (∀ n : Nat, n < (st.scopes s).numStack →
    ∃ v, (st.vars v).location = .LOCAL ∧ (st.vars v).allocScope = some s ∧
      (st.vars v).index = (n : Int))

/-- Heap slot density at scope s: num_heap_slots is 0 (with no context slots)
or at least MIN_CONTEXT_SLOTS with the CONTEXT indices drawn from s exactly
[MIN_CONTEXT_SLOTS, num_heap_slots). -/
def HeapSlotsOK (st : AState) (s : Nat) : Prop :=
  ((st.scopes s).numHeap = 0 ∧
    ∀ v, ¬ ((st.vars v).location = .CONTEXT ∧ (st.vars v).allocScope = some s)) ∨
  (MIN_CONTEXT_SLOTS ≤ (st.scopes s).numHeap ∧
    (∀ v, (st.vars v).location = .CONTEXT → (st.vars v).allocScope = some s →
      ∃ n : Nat, MIN_CONTEXT_SLOTS ≤ n ∧ n < (st.scopes s).numHeap ∧
        (st.vars v).index = (n : Int)) ∧
    (∀ n : Nat, MIN_CONTEXT_SLOTS ≤ n → n < (st.scopes s).numHeap →
      ∃ v, (st.vars v).location = .CONTEXT ∧ (st.vars v).allocScope = some s ∧
        (st.vars v).index = (n : Int)))

def C7Inv (st : AState) : Prop := ∀ s, StackSlotsOK st s ∧ HeapSlotsOK st s

/-- Variable w's allocation-relevant fields unchanged between two states. -/
def locFrozen (st st' : AState) (w : Nat) : Prop :=
  ((st'.vars w).location = (st.vars w).location) ∧
  ((st'.vars w).index = (st.vars w).index) ∧
  ((st'.vars w).allocScope = (st.vars w).allocScope)

theorem locFrozen_refl (st : AState) (w : Nat) : locFrozen st st w := ⟨rfl, rfl, rfl⟩

theorem locFrozen_trans {st1 st2 st3 : AState} {w : Nat}
    (a : locFrozen st1 st2 w) (b : locFrozen st2 st3 w) : locFrozen st1 st3 w :=
  ⟨b.1.trans a.1, b.2.1.trans a.2.1, b.2.2.trans a.2.2⟩

theorem allocateTo_scopes (st : AState) (v : Nat) (loc : VariableLocation) (idx : Int)
    (a : Option Nat) : (allocateTo st v loc idx a).scopes = st.scopes := rfl

theorem allocateTo_vars_ne (st : AState) (v : Nat) (loc : VariableLocation) (idx : Int)
    (a : Option Nat) (w : Nat) (hw : w ≠ v) :
    (allocateTo st v loc idx a).vars w = st.vars w := by
  unfold allocateTo
  rw [updVar_vars, if_neg hw]

theorem mustAllocate_scopes (st : AState) (s v : Nat) :
    ((mustAllocate st s v).2).scopes = st.scopes := by
  unfold mustAllocate
  dsimp only
  split
  · split
    · rfl
    · rfl
  · rfl

theorem mustAllocate_locFrozen (st : AState) (s v w : Nat) :
    locFrozen st (mustAllocate st s v).2 w := by
  unfold mustAllocate
  dsimp only
  split
  · split
    · by_cases hw : w = v <;> exact ⟨by simp [hw], by simp [hw], by simp [hw]⟩
    · by_cases hw : w = v <;> exact ⟨by simp [hw], by simp [hw], by simp [hw]⟩
  · exact locFrozen_refl st w

theorem c7_transfer {st st' : AState}
    (hv : ∀ w, locFrozen st st' w)
    (hs : ∀ j, (st'.scopes j).numStack = (st.scopes j).numStack ∧
      (st'.scopes j).numHeap = (st.scopes j).numHeap)
    (hinv : C7Inv st) : C7Inv st' := by
  intro s
  obtain ⟨⟨sb, ss⟩, hh⟩ := hinv s
  refine ⟨⟨?_, ?_⟩, ?_⟩
  · intro v hl ha
    obtain ⟨hL, hI, hA⟩ := hv v
    obtain ⟨n, hn, hni⟩ := sb v (by rw [← hL]; exact hl) (by rw [← hA]; exact ha)
    exact ⟨n, by rw [(hs s).1]; exact hn, by rw [hI]; exact hni⟩
  · intro n hn
    obtain ⟨v, h1, h2, h3⟩ := ss n (by rw [← (hs s).1]; exact hn)
    obtain ⟨hL, hI, hA⟩ := hv v
    exact ⟨v, hL.trans h1, hA.trans h2, hI.trans h3⟩
  · rcases hh with ⟨h0, hno⟩ | ⟨hge, hb, hsj⟩
    · left
      refine ⟨by rw [(hs s).2]; exact h0, ?_⟩
      rintro v ⟨hc, ha⟩
      obtain ⟨hL, hI, hA⟩ := hv v
      exact hno v ⟨hL.symm.trans hc, hA.symm.trans ha⟩
    · right
      refine ⟨by rw [(hs s).2]; exact hge, ?_, ?_⟩
      · intro v hc ha
        obtain ⟨hL, hI, hA⟩ := hv v
        obtain ⟨n, q1, q2, q3⟩ := hb v (by rw [← hL]; exact hc) (by rw [← hA]; exact ha)
        exact ⟨n, q1, by rw [(hs s).2]; exact q2, by rw [hI]; exact q3⟩
      · intro n q1 q2
        obtain ⟨v, r1, r2, r3⟩ := hsj n q1 (by rw [← (hs s).2]; exact q2)
        obtain ⟨hL, hI, hA⟩ := hv v
        exact ⟨v, hL.trans r1, hA.trans r2, hI.trans r3⟩

theorem c7_allocateStackSlot {st : AState} (hinv : C7Inv st) (fuel s v : Nat)
    (hun : (st.vars v).location = .UNALLOCATED) :
    C7Inv (allocateStackSlot fuel st s v) ∧
      (∀ j, ((allocateStackSlot fuel st s v).scopes j).numHeap = (st.scopes j).numHeap) ∧
      (∀ w, w ≠ v → (allocateStackSlot fuel st s v).vars w = st.vars w) := by
  unfold allocateStackSlot
  rcases hct : closureTargetForStack fuel st s with - | d
  · exact ⟨hinv, fun j => rfl, fun w hw => rfl⟩
  · set st' := updScope (allocateTo st v .LOCAL ((st.scopes d).numStack : Int) (some d)) d
      (fun sc => { sc with numStack := sc.numStack + 1 }) with hst'
    have hvw : ∀ w, w ≠ v → st'.vars w = st.vars w := by
      intro w hw
      rw [hst']
      show (allocateTo st v .LOCAL ((st.scopes d).numStack : Int) (some d)).vars w = st.vars w
      exact allocateTo_vars_ne st v _ _ _ w hw
    have hlv : (st'.vars v).location = .LOCAL := by
      rw [hst']
      simp [allocateTo]
    have hiv : (st'.vars v).index = ((st.scopes d).numStack : Int) := by
      rw [hst']
      simp [allocateTo]
    have hav : (st'.vars v).allocScope = some d := by
      rw [hst']
      simp [allocateTo]
    have hns : ∀ j, (st'.scopes j).numStack =
        if j = d then (st.scopes d).numStack + 1 else (st.scopes j).numStack := by
      intro j
      rw [hst', updScope_scopes]
      by_cases hj : j = d
      · subst hj
        rw [if_pos rfl, if_pos rfl]
        rfl
      · rw [if_neg hj, if_neg hj]
        rfl
    have hnh : ∀ j, (st'.scopes j).numHeap = (st.scopes j).numHeap := by
      intro j
      rw [hst', updScope_scopes]
      by_cases hj : j = d
      · subst hj
        rw [if_pos rfl]
        rfl
      · rw [if_neg hj]
        rfl
    refine ⟨?_, hnh, hvw⟩
    intro s'
    obtain ⟨⟨sb, ss⟩, hh⟩ := hinv s'
    refine ⟨⟨?_, ?_⟩, ?_⟩
    · intro w hl ha
      by_cases hw : w = v
      · subst hw
        have hds : d = s' := by
          rw [hav] at ha
          exact Option.some.inj ha
        refine ⟨(st.scopes d).numStack, ?_, hiv⟩
        rw [hns s', if_pos hds.symm]
        exact Nat.lt_succ_self _
      · rw [hvw w hw] at hl ha ⊢
        obtain ⟨n, hn, hni⟩ := sb w hl ha
        refine ⟨n, ?_, hni⟩
        rw [hns s']
        by_cases hs' : s' = d
        · subst hs'
          rw [if_pos rfl]
          exact Nat.lt_succ_of_lt hn
        · rw [if_neg hs']
          exact hn
    · intro n hn
      rw [hns s'] at hn
      by_cases hs' : s' = d
      · subst hs'
        rw [if_pos rfl] at hn
        rcases Nat.lt_succ_iff_lt_or_eq.mp hn with h1 | h1
        · obtain ⟨w, q1, q2, q3⟩ := ss n h1
          have hw : w ≠ v := by
            intro he
            rw [he, hun] at q1
            exact VariableLocation.noConfusion q1
          exact ⟨w, by rw [hvw w hw]; exact q1, by rw [hvw w hw]; exact q2,
            by rw [hvw w hw]; exact q3⟩
        · refine ⟨v, hlv, hav, ?_⟩
          rw [hiv, h1]
      · rw [if_neg hs'] at hn
        obtain ⟨w, q1, q2, q3⟩ := ss n hn
        have hw : w ≠ v := by
          intro he
          rw [he, hun] at q1
          exact VariableLocation.noConfusion q1
        exact ⟨w, by rw [hvw w hw]; exact q1, by rw [hvw w hw]; exact q2,
          by rw [hvw w hw]; exact q3⟩
    · rcases hh with ⟨h0, hno⟩ | ⟨hge, hb, hsj⟩
      · left
        refine ⟨by rw [hnh s']; exact h0, ?_⟩
        rintro w ⟨hc, ha⟩
        by_cases hw : w = v
        · subst hw
          rw [hlv] at hc
          exact VariableLocation.noConfusion hc
        · rw [hvw w hw] at hc ha
          exact hno w ⟨hc, ha⟩
      · right
        refine ⟨by rw [hnh s']; exact hge, ?_, ?_⟩
        · intro w hc ha
          by_cases hw : w = v
          · subst hw
            rw [hlv] at hc
            exact VariableLocation.noConfusion hc
          · rw [hvw w hw] at hc ha ⊢
            obtain ⟨n, q1, q2, q3⟩ := hb w hc ha
            exact ⟨n, q1, by rw [hnh s']; exact q2, q3⟩
        · intro n q1 q2
          rw [hnh s'] at q2
          obtain ⟨w, r1, r2, r3⟩ := hsj n q1 q2
          have hw : w ≠ v := by
            intro he
            rw [he, hun] at r1
            exact VariableLocation.noConfusion r1
          exact ⟨w, by rw [hvw w hw]; exact r1, by rw [hvw w hw]; exact r2,
            by rw [hvw w hw]; exact r3⟩

theorem c7_allocateHeapSlot {st : AState} (hinv : C7Inv st) (s v : Nat)
    (hun : (st.vars v).location = .UNALLOCATED)
    (hge : MIN_CONTEXT_SLOTS ≤ (st.scopes s).numHeap) :
    C7Inv (allocateHeapSlot st s v) ∧
      (∀ j, j ≠ s → ((allocateHeapSlot st s v).scopes j).numHeap = (st.scopes j).numHeap) ∧
      MIN_CONTEXT_SLOTS ≤ ((allocateHeapSlot st s v).scopes s).numHeap ∧
      (∀ w, w ≠ v → (allocateHeapSlot st s v).vars w = st.vars w) := by
  unfold allocateHeapSlot
  set st' := updScope (allocateTo st v .CONTEXT ((st.scopes s).numHeap : Int) (some s)) s
    (fun sc => { sc with numHeap := sc.numHeap + 1 }) with hst'
  have hvw : ∀ w, w ≠ v → st'.vars w = st.vars w := by
    intro w hw
    rw [hst']
    show (allocateTo st v .CONTEXT ((st.scopes s).numHeap : Int) (some s)).vars w = st.vars w
    exact allocateTo_vars_ne st v _ _ _ w hw
  have hlv : (st'.vars v).location = .CONTEXT := by
    rw [hst']
    simp [allocateTo]
  have hiv : (st'.vars v).index = ((st.scopes s).numHeap : Int) := by
    rw [hst']
    simp [allocateTo]
  have hav : (st'.vars v).allocScope = some s := by
    rw [hst']
    simp [allocateTo]
  have hns : ∀ j, (st'.scopes j).numStack = (st.scopes j).numStack := by
    intro j
    rw [hst', updScope_scopes]
    by_cases hj : j = s
    · subst hj
      rw [if_pos rfl]
      rfl
    · rw [if_neg hj]
      rfl
  have hnh : ∀ j, (st'.scopes j).numHeap =
      if j = s then (st.scopes s).numHeap + 1 else (st.scopes j).numHeap := by
    intro j
    rw [hst', updScope_scopes]
    by_cases hj : j = s
    · subst hj
      rw [if_pos rfl, if_pos rfl]
      rfl
    · rw [if_neg hj, if_neg hj]
      rfl
  have hinv' : C7Inv st' := by
    intro s'
    obtain ⟨⟨sb, ss⟩, hh⟩ := hinv s'
    refine ⟨⟨?_, ?_⟩, ?_⟩
    · intro w hl ha
      by_cases hw : w = v
      · subst hw
        rw [hlv] at hl
        exact absurd hl (fun hc => VariableLocation.noConfusion hc)
      · rw [hvw w hw] at hl ha ⊢
        obtain ⟨n, hn, hni⟩ := sb w hl ha
        exact ⟨n, by rw [hns s']; exact hn, hni⟩
    · intro n hn
      rw [hns s'] at hn
      obtain ⟨w, q1, q2, q3⟩ := ss n hn
      have hw : w ≠ v := by
        intro he
        rw [he, hun] at q1
        exact VariableLocation.noConfusion q1
      exact ⟨w, by rw [hvw w hw]; exact q1, by rw [hvw w hw]; exact q2,
        by rw [hvw w hw]; exact q3⟩
    · by_cases hs' : s' = s
      · subst hs'
        rcases hh with ⟨h0, hno⟩ | ⟨hge2, hb, hsj⟩
        · rw [h0] at hge
          exact absurd hge (by decide)
        · right
          refine ⟨?_, ?_, ?_⟩
          · rw [hnh s', if_pos rfl]
            exact Nat.le_succ_of_le hge2
          · intro w hc ha
            by_cases hw : w = v
            · subst hw
              refine ⟨(st.scopes s').numHeap, hge2, ?_, hiv⟩
              rw [hnh s', if_pos rfl]
              exact Nat.lt_succ_self _
            · rw [hvw w hw] at hc ha ⊢
              obtain ⟨n, q1, q2, q3⟩ := hb w hc ha
              refine ⟨n, q1, ?_, q3⟩
              rw [hnh s', if_pos rfl]
              exact Nat.lt_succ_of_lt q2
          · intro n q1 q2
            rw [hnh s', if_pos rfl] at q2
            rcases Nat.lt_succ_iff_lt_or_eq.mp q2 with h1 | h1
            · obtain ⟨w, r1, r2, r3⟩ := hsj n q1 h1
              have hw : w ≠ v := by
                intro he
                rw [he, hun] at r1
                exact VariableLocation.noConfusion r1
              exact ⟨w, by rw [hvw w hw]; exact r1, by rw [hvw w hw]; exact r2,
                by rw [hvw w hw]; exact r3⟩
            · refine ⟨v, hlv, hav, ?_⟩
              rw [hiv, h1]
      · rcases hh with ⟨h0, hno⟩ | ⟨hge2, hb, hsj⟩
        · left
          refine ⟨by rw [hnh s', if_neg hs']; exact h0, ?_⟩
          rintro w ⟨hc, ha⟩
          by_cases hw : w = v
          · subst hw
            rw [hav] at ha
            exact hs' (Option.some.inj ha).symm
          · rw [hvw w hw] at hc ha
            exact hno w ⟨hc, ha⟩
        · right
          refine ⟨by rw [hnh s', if_neg hs']; exact hge2, ?_, ?_⟩
          · intro w hc ha
            by_cases hw : w = v
            · subst hw
              rw [hav] at ha
              exact absurd (Option.some.inj ha).symm hs'
            · rw [hvw w hw] at hc ha ⊢
              obtain ⟨n, q1, q2, q3⟩ := hb w hc ha
              exact ⟨n, q1, by rw [hnh s', if_neg hs']; exact q2, q3⟩
          · intro n q1 q2
            rw [hnh s', if_neg hs'] at q2
            obtain ⟨w, r1, r2, r3⟩ := hsj n q1 q2
            have hw : w ≠ v := by
              intro he
              rw [he, hun] at r1
              exact VariableLocation.noConfusion r1
            exact ⟨w, by rw [hvw w hw]; exact r1, by rw [hvw w hw]; exact r2,
              by rw [hvw w hw]; exact r3⟩
  refine ⟨hinv', ?_, ?_, hvw⟩
  · intro j hj
    rw [hnh j, if_neg hj]
  · rw [hnh s, if_pos rfl]
    exact Nat.le_succ_of_le hge

theorem c7_allocateTo_uncounted {st : AState} (hinv : C7Inv st) (v : Nat)
    (loc : VariableLocation) (idx : Int)
    (hpreL : (st.vars v).location ≠ .LOCAL) (hpreC : (st.vars v).location ≠ .CONTEXT)
    (hl : loc ≠ .LOCAL) (hc : loc ≠ .CONTEXT) :
    C7Inv (allocateTo st v loc idx none) := by
  set st' := allocateTo st v loc idx none with hst'
  have hvw : ∀ w, w ≠ v → st'.vars w = st.vars w := by
    intro w hw
    rw [hst']
    exact allocateTo_vars_ne st v _ _ _ w hw
  have hlv : (st'.vars v).location = loc := by
    rw [hst']
    simp [allocateTo]
  have hsc : st'.scopes = st.scopes := by
    rw [hst']
    exact allocateTo_scopes st v loc idx none
  intro s'
  obtain ⟨⟨sb, ss⟩, hh⟩ := hinv s'
  refine ⟨⟨?_, ?_⟩, ?_⟩
  · intro w hwl ha
    by_cases hw : w = v
    · subst hw
      rw [hlv] at hwl
      exact absurd hwl hl
    · rw [hvw w hw] at hwl ha ⊢
      obtain ⟨n, hn, hni⟩ := sb w hwl ha
      exact ⟨n, by rw [hsc]; exact hn, hni⟩
  · intro n hn
    rw [hsc] at hn
    obtain ⟨w, q1, q2, q3⟩ := ss n hn
    have hw : w ≠ v := by
      intro he
      rw [he] at q1
      exact hpreL q1
    exact ⟨w, by rw [hvw w hw]; exact q1, by rw [hvw w hw]; exact q2,
      by rw [hvw w hw]; exact q3⟩
  · rcases hh with ⟨h0, hno⟩ | ⟨hge, hb, hsj⟩
    · left
      refine ⟨by rw [hsc]; exact h0, ?_⟩
      rintro w ⟨hcw, ha⟩
      by_cases hw : w = v
      · subst hw
        rw [hlv] at hcw
        exact hc hcw
      · rw [hvw w hw] at hcw ha
        exact hno w ⟨hcw, ha⟩
    · right
      refine ⟨by rw [hsc]; exact hge, ?_, ?_⟩
      · intro w hcw ha
        by_cases hw : w = v
        · subst hw
          rw [hlv] at hcw
          exact absurd hcw hc
        · rw [hvw w hw] at hcw ha ⊢
          obtain ⟨n, q1, q2, q3⟩ := hb w hcw ha
          exact ⟨n, q1, by rw [hsc]; exact q2, q3⟩
      · intro n q1 q2
        rw [hsc] at q2
        obtain ⟨w, r1, r2, r3⟩ := hsj n q1 q2
        have hw : w ≠ v := by
          intro he
          rw [he] at r1
          exact hpreC r1
        exact ⟨w, by rw [hvw w hw]; exact r1, by rw [hvw w hw]; exact r2,
          by rw [hvw w hw]; exact r3⟩

theorem c7_asoDropHeap {st : AState} (hinv : C7Inv st) (s : Nat) :
    C7Inv (asoDropHeap st s) ∧
      (∀ j, j ≠ s → ((asoDropHeap st s).scopes j).numHeap = (st.scopes j).numHeap) ∧
      (∀ w, (asoDropHeap st s).vars w = st.vars w) := by
  unfold asoDropHeap
  split
  · rename_i hcond
    simp only [Bool.and_eq_true, decide_eq_true_eq] at hcond
    have hmin : (st.scopes s).numHeap = MIN_CONTEXT_SLOTS := hcond.1
    have hnh : ∀ j, ((updScope st s (fun sc => { sc with numHeap := 0 })).scopes j).numHeap =
        if j = s then 0 else (st.scopes j).numHeap := by
      intro j
      rw [updScope_scopes]
      by_cases hj : j = s
      · subst hj
        rw [if_pos rfl, if_pos rfl]
      · rw [if_neg hj, if_neg hj]
    have hns : ∀ j, ((updScope st s (fun sc => { sc with numHeap := 0 })).scopes j).numStack =
        (st.scopes j).numStack := by
      intro j
      rw [updScope_scopes]
      by_cases hj : j = s
      · subst hj
        rw [if_pos rfl]
      · rw [if_neg hj]
    refine ⟨?_, fun j hj => by rw [hnh j, if_neg hj], fun w => rfl⟩
    intro s'
    obtain ⟨⟨sb, ss⟩, hh⟩ := hinv s'
    refine ⟨⟨?_, ?_⟩, ?_⟩
    · intro w hwl ha
      obtain ⟨n, hn, hni⟩ := sb w hwl ha
      exact ⟨n, by rw [hns s']; exact hn, hni⟩
    · intro n hn
      rw [hns s'] at hn
      exact ss n hn
    · by_cases hs' : s' = s
      · subst hs'
        left
        refine ⟨by rw [hnh s', if_pos rfl], ?_⟩
        rintro w ⟨hcw, ha⟩
        rcases hh with ⟨h0, hno⟩ | ⟨hge, hb, hsj⟩
        · exact hno w ⟨hcw, ha⟩
        · obtain ⟨n, q1, q2, q3⟩ := hb w hcw ha
          rw [hmin] at q2
          exact absurd q1 (Nat.not_le_of_lt q2)
      · rcases hh with ⟨h0, hno⟩ | ⟨hge, hb, hsj⟩
        · left
          exact ⟨by rw [hnh s', if_neg hs']; exact h0, hno⟩
        · right
          refine ⟨by rw [hnh s', if_neg hs']; exact hge, ?_, ?_⟩
          · intro w hcw ha
            obtain ⟨n, q1, q2, q3⟩ := hb w hcw ha
            exact ⟨n, q1, by rw [hnh s', if_neg hs']; exact q2, q3⟩
          · intro n q1 q2
            rw [hnh s', if_neg hs'] at q2
            exact hsj n q1 q2
  · exact ⟨hinv, fun j hj => rfl, fun w => rfl⟩

-- The per-phase transition record for the scope being visited.

structure PhaseOut (st0 : AState) (s : Nat) (stIn stOut : AState) : Prop where
  inv : C7Inv stOut
  sheap : MIN_CONTEXT_SLOTS ≤ (stIn.scopes s).numHeap →
    MIN_CONTEXT_SLOTS ≤ (stOut.scopes s).numHeap
  heapFrame : ∀ j, j ≠ s → (stOut.scopes j).numHeap = (stIn.scopes j).numHeap
  varFrame : ∀ w, (st0.vars w).scope ≠ some s → locFrozen stIn stOut w

theorem PhaseOut.comp {st0 : AState} {s : Nat} {st1 st2 st3 : AState}
    (a : PhaseOut st0 s st1 st2) (b : PhaseOut st0 s st2 st3) : PhaseOut st0 s st1 st3 :=
  ⟨b.inv, fun h => b.sheap (a.sheap h),
   fun j hj => (b.heapFrame j hj).trans (a.heapFrame j hj),
   fun w hw => locFrozen_trans (a.varFrame w hw) (b.varFrame w hw)⟩

theorem phaseOut_id {st0 : AState} {s : Nat} {st : AState} (hinv : C7Inv st) :
    PhaseOut st0 s st st :=
  ⟨hinv, fun h => h, fun j hj => rfl, fun w hw => locFrozen_refl st w⟩

theorem phaseOut_ofFrozenCnt {st0 : AState} {s : Nat} {stIn stOut : AState}
    (hv : ∀ w, locFrozen stIn stOut w)
    (hs : ∀ j, (stOut.scopes j).numStack = (stIn.scopes j).numStack ∧
      (stOut.scopes j).numHeap = (stIn.scopes j).numHeap)
    (hinv : C7Inv stIn) : PhaseOut st0 s stIn stOut :=
  ⟨c7_transfer hv hs hinv, fun h => by rw [(hs s).2]; exact h,
   fun j hj => (hs j).2, fun w hw => hv w⟩

theorem AllocPres.varMap_eq {st0 st : AState} (h : AllocPres st0 st) (j : Nat) :
    (st.scopes j).varMap = (st0.scopes j).varMap :=
  congrArg ScopeCore.varMap (h.score j)

theorem AllocPres.imports_eq {st0 st : AState} (h : AllocPres st0 st) (j : Nat) :
    (st.scopes j).regularImports = (st0.scopes j).regularImports :=
  congrArg ScopeCore.regularImports (h.score j)

theorem AllocPres.exports_eq {st0 st : AState} (h : AllocPres st0 st) (j : Nat) :
    (st.scopes j).regularExports = (st0.scopes j).regularExports :=
  congrArg ScopeCore.regularExports (h.score j)

theorem locFrozen_of_eq {st st' : AState} {w : Nat} (h : st'.vars w = st.vars w) :
    locFrozen st st' w :=
  ⟨by rw [h], by rw [h], by rw [h]⟩

theorem c7ph_mustAllocate {st0 : AState} {s : Nat} {stIn : AState} (hinv : C7Inv stIn)
    (v : Nat) : PhaseOut st0 s stIn (mustAllocate stIn s v).2 :=
  phaseOut_ofFrozenCnt (fun w => mustAllocate_locFrozen stIn s v w)
    (fun j => by rw [mustAllocate_scopes]; exact ⟨rfl, rfl⟩) hinv

theorem c7ph_allocateStackSlot {st0 : AState} {s : Nat} {stIn : AState} (hinv : C7Inv stIn)
    (fuel v : Nat) (hun : (stIn.vars v).location = .UNALLOCATED)
    (hsc0 : (st0.vars v).scope = some s) :
    PhaseOut st0 s stIn (allocateStackSlot fuel stIn s v) := by
  obtain ⟨hi, hh, hf⟩ := c7_allocateStackSlot hinv fuel s v hun
  exact ⟨hi, fun h => by rw [hh s]; exact h, fun j hj => hh j,
    fun w hw => locFrozen_of_eq (hf w (fun he => hw (he ▸ hsc0)))⟩

theorem c7ph_allocateHeapSlot {st0 : AState} {s : Nat} {stIn : AState} (hinv : C7Inv stIn)
    (v : Nat) (hun : (stIn.vars v).location = .UNALLOCATED)
    (hge : MIN_CONTEXT_SLOTS ≤ (stIn.scopes s).numHeap)
    (hsc0 : (st0.vars v).scope = some s) :
    PhaseOut st0 s stIn (allocateHeapSlot stIn s v) := by
  obtain ⟨hi, hframe, hge2, hf⟩ := c7_allocateHeapSlot hinv s v hun hge
  exact ⟨hi, fun h => hge2, hframe,
    fun w hw => locFrozen_of_eq (hf w (fun he => hw (he ▸ hsc0)))⟩

theorem c7ph_allocateTo_uncounted {st0 : AState} {s : Nat} {stIn : AState}
    (hinv : C7Inv stIn) (v : Nat) (loc : VariableLocation) (idx : Int)
    (hpreL : (stIn.vars v).location ≠ .LOCAL) (hpreC : (stIn.vars v).location ≠ .CONTEXT)
    (hl : loc ≠ .LOCAL) (hc : loc ≠ .CONTEXT) (hsc0 : (st0.vars v).scope = some s) :
    PhaseOut st0 s stIn (allocateTo stIn v loc idx none) :=
  ⟨c7_allocateTo_uncounted hinv v loc idx hpreL hpreC hl hc,
   fun h => by rw [allocateTo_scopes]; exact h,
   fun j hj => by rw [allocateTo_scopes],
   fun w hw => locFrozen_of_eq (allocateTo_vars_ne stIn v loc idx none w
     (fun he => hw (he ▸ hsc0)))⟩

theorem phaseOut_updScopeCnt {st0 : AState} {s : Nat} {stIn : AState} (hinv : C7Inv stIn)
    (i : Nat) (g : SScope → SScope)
    (hgs : ∀ x, (g x).numStack = x.numStack) (hgh : ∀ x, (g x).numHeap = x.numHeap) :
    PhaseOut st0 s stIn (updScope stIn i g) := by
  refine phaseOut_ofFrozenCnt (fun w => locFrozen_of_eq rfl) ?_ hinv
  intro j
  rw [updScope_scopes]
  by_cases hj : j = i
  · rw [if_pos hj]
    exact ⟨hgs _, hgh _⟩
  · rw [if_neg hj]
    exact ⟨rfl, rfl⟩

theorem phaseOut_updVarLoc {st0 : AState} {s : Nat} {stIn : AState} (hinv : C7Inv stIn)
    (i : Nat) (f : Var → Var)
    (hf : ∀ x, (f x).location = x.location ∧ (f x).index = x.index ∧
      (f x).allocScope = x.allocScope) :
    PhaseOut st0 s stIn (updVar stIn i f) := by
  refine phaseOut_ofFrozenCnt ?_ (fun j => ⟨rfl, rfl⟩) hinv
  intro w
  by_cases hw : w = i
  · subst hw
    refine ⟨?_, ?_, ?_⟩ <;> rw [updVar_vars, if_pos rfl]
    · exact (hf _).1
    · exact (hf _).2.1
    · exact (hf _).2.2
  · exact locFrozen_of_eq (by rw [updVar_vars, if_neg hw])

theorem c7ph_allocateParameter {st0 : AState} {s : Nat} {stIn : AState} (hinv : C7Inv stIn)
    (hge : MIN_CONTEXT_SLOTS ≤ (stIn.scopes s).numHeap) (v : Nat) (idx : Int)
    (hsc0 : (st0.vars v).scope = some s) :
    PhaseOut st0 s stIn (allocateParameter stIn s v idx) := by
  have P1 : PhaseOut st0 s stIn (mustAllocate stIn s v).2 := c7ph_mustAllocate hinv v
  have hge1 : MIN_CONTEXT_SLOTS ≤ ((mustAllocate stIn s v).2.scopes s).numHeap := P1.sheap hge
  unfold allocateParameter
  dsimp only
  by_cases hm : (mustAllocate stIn s v).1 = true
  · rw [if_pos hm]
    by_cases hctx : mustAllocateInContext (mustAllocate stIn s v).2 s v = true
    · rw [if_pos hctx]
      by_cases hun : ((mustAllocate stIn s v).2.vars v).isUnallocated = true
      · rw [if_pos hun]
        have hun2 : ((mustAllocate stIn s v).2.vars v).location = .UNALLOCATED := by
          simpa [Var.isUnallocated] using hun
        exact P1.comp (c7ph_allocateHeapSlot P1.inv v hun2 hge1 hsc0)
      · rw [if_neg hun]
        exact P1
    · rw [if_neg hctx]
      by_cases hun : ((mustAllocate stIn s v).2.vars v).isUnallocated = true
      · rw [if_pos hun]
        have hun2 : ((mustAllocate stIn s v).2.vars v).location = .UNALLOCATED := by
          simpa [Var.isUnallocated] using hun
        refine P1.comp (c7ph_allocateTo_uncounted P1.inv v .PARAMETER idx ?_ ?_
          (by decide) (by decide) hsc0)
        · rw [hun2]
          decide
        · rw [hun2]
          decide
      · rw [if_neg hun]
        exact P1
  · rw [if_neg hm]
    exact P1

theorem c7ph_foldl {st0 : AState} {s : Nat} {A : Type} (g : AState → A → AState)
    (L : List A)
    (hg : ∀ (st : AState) (a : A), a ∈ L → AllocPres st0 st → C7Inv st →
      MIN_CONTEXT_SLOTS ≤ (st.scopes s).numHeap →
      PhaseOut st0 s st (g st a) ∧ AllocPres st0 (g st a)) :
    ∀ st, AllocPres st0 st → C7Inv st → MIN_CONTEXT_SLOTS ≤ (st.scopes s).numHeap →
      PhaseOut st0 s st (L.foldl g st) ∧ AllocPres st0 (L.foldl g st) := by
  induction L with
  | nil => exact fun st hp hi hge => ⟨phaseOut_id hi, hp⟩
  | cons a L2 ih =>
    intro st hp hi hge
    obtain ⟨P1, hp1⟩ := hg st a (List.mem_cons_self a L2) hp hi hge
    obtain ⟨P2, hp2⟩ := ih (fun st2 b hb2 => hg st2 b (List.mem_cons_of_mem a hb2))
      (g st a) hp1 P1.inv (P1.sheap hge)
    exact ⟨P1.comp P2, hp2⟩

theorem c7ph_apArgumentsDecision {st0 : AState} {s : Nat} {stIn : AState}
    (hinv : C7Inv stIn) : PhaseOut st0 s stIn (apArgumentsDecision stIn s).2 := by
  unfold apArgumentsDecision
  rcases (stIn.scopes s).argumentsVar with - | a
  · exact phaseOut_id hinv
  · have P1 : PhaseOut st0 s stIn (mustAllocate stIn s a).2 := c7ph_mustAllocate hinv a
    dsimp only
    split
    · exact P1
    · dsimp only
      exact P1.comp (phaseOut_updScopeCnt P1.inv s _ (fun x => rfl) (fun x => rfl))

theorem c7ph_apFold {st0 : AState} {s : Nat}
    (hself : ∀ v, starOwned st0 s v → (st0.vars v).scope = some s) {stIn : AState}
    (hpres : AllocPres st0 stIn) (hinv : C7Inv stIn)
    (hge : MIN_CONTEXT_SLOTS ≤ (stIn.scopes s).numHeap) (b : Bool) :
    PhaseOut st0 s stIn (apFold s b stIn) ∧ AllocPres st0 (apFold s b stIn) := by
  unfold apFold
  refine c7ph_foldl _ _ ?_ stIn hpres hinv hge
  intro st3 pair hmem hp3 hi3 hg3
  dsimp only
  have hsc0 : (st0.vars pair.2).scope = some s := by
    have hp2 : pair.2 ∈ (stIn.scopes s).params :=
      snd_mem_of_mem_enum _ _ (List.mem_reverse.mp hmem)
    rw [AllocPres.params_eq hpres s] at hp2
    exact hself pair.2 (Or.inr (Or.inl hp2))
  cases b with
  | true =>
    rw [if_pos rfl]
    have P0 : PhaseOut st0 s st3
        (updVar st3 pair.2 (fun va => { va with forceCtx := true })) :=
      phaseOut_updVarLoc hi3 pair.2 _ (fun x => ⟨rfl, rfl, rfl⟩)
    have hp0 : AllocPres st0 (updVar st3 pair.2 (fun va => { va with forceCtx := true })) :=
      allocPres_updVar hp3 (fun x => rfl) (fun x hx => hx)
    refine ⟨P0.comp (c7ph_allocateParameter P0.inv (P0.sheap hg3) pair.2 _ hsc0), ?_⟩
    exact allocPres_allocateParameter hp0 s pair.2 _
  | false =>
    rw [if_neg (by simp)]
    exact ⟨c7ph_allocateParameter hi3 hg3 pair.2 _ hsc0,
      allocPres_allocateParameter hp3 s pair.2 _⟩

theorem c7ph_allocateParameterLocals {st0 : AState} {s : Nat}
    (hself : ∀ v, starOwned st0 s v → (st0.vars v).scope = some s) {stIn : AState}
    (hpres : AllocPres st0 stIn) (hinv : C7Inv stIn)
    (hge : MIN_CONTEXT_SLOTS ≤ (stIn.scopes s).numHeap) :
    PhaseOut st0 s stIn (allocateParameterLocals stIn s) ∧
      AllocPres st0 (allocateParameterLocals stIn s) := by
  unfold allocateParameterLocals
  have hp1 : AllocPres st0 (apArgumentsDecision stIn s).2 :=
    allocPres_apArgumentsDecision hpres s
  have P1 : PhaseOut st0 s stIn (apArgumentsDecision stIn s).2 :=
    c7ph_apArgumentsDecision hinv
  obtain ⟨P2, hp2⟩ := c7ph_apFold hself hp1 P1.inv (P1.sheap hge)
    (apArgumentsDecision stIn s).1
  exact ⟨P1.comp P2, hp2⟩

theorem c7ph_allocateReceiver {st0 : AState} {s : Nat}
    (hself : ∀ v, starOwned st0 s v → (st0.vars v).scope = some s) {stIn : AState}
    (hpres : AllocPres st0 stIn) (hinv : C7Inv stIn)
    (hge : MIN_CONTEXT_SLOTS ≤ (stIn.scopes s).numHeap) :
    PhaseOut st0 s stIn (allocateReceiver stIn s) := by
  unfold allocateReceiver
  split
  · rcases hr : (stIn.scopes s).receiver with - | r
    · exact phaseOut_id hinv
    · refine c7ph_allocateParameter hinv hge r _ ?_
      have hr0 : (st0.scopes s).receiver = some r := by
        rw [← AllocPres.receiver_eq hpres s]
        exact hr
      exact hself r (Or.inr (Or.inr (Or.inl hr0)))
  · exact phaseOut_id hinv

theorem c7ph_allocateNonParameterLocal {st0 : AState} {s : Nat} {stIn : AState}
    (hinv : C7Inv stIn) (hge : MIN_CONTEXT_SLOTS ≤ (stIn.scopes s).numHeap)
    (fuel v : Nat) (hsc0 : (st0.vars v).scope = some s) :
    PhaseOut st0 s stIn (allocateNonParameterLocal fuel stIn s v) := by
  unfold allocateNonParameterLocal
  split
  · rename_i hun
    have hun2 : (stIn.vars v).location = .UNALLOCATED := by
      simpa [Var.isUnallocated] using hun
    have P1 : PhaseOut st0 s stIn (mustAllocate stIn s v).2 := c7ph_mustAllocate hinv v
    have hun3 : ((mustAllocate stIn s v).2.vars v).location = .UNALLOCATED := by
      rw [(mustAllocate_locFrozen stIn s v v).1]
      exact hun2
    dsimp only
    by_cases hm : (mustAllocate stIn s v).1 = true
    · rw [if_pos hm]
      by_cases hctx : mustAllocateInContext (mustAllocate stIn s v).2 s v = true
      · rw [if_pos hctx]
        exact P1.comp (c7ph_allocateHeapSlot P1.inv v hun3 (P1.sheap hge) hsc0)
      · rw [if_neg hctx]
        exact P1.comp (c7ph_allocateStackSlot P1.inv fuel v hun3 hsc0)
    · rw [if_neg hm]
      exact P1
  · exact phaseOut_id hinv

theorem c7ph_alFunctionVar {st0 : AState} {s : Nat}
    (hself : ∀ v, starOwned st0 s v → (st0.vars v).scope = some s) {stIn : AState}
    (hpres : AllocPres st0 stIn) (hinv : C7Inv stIn)
    (hge : MIN_CONTEXT_SLOTS ≤ (stIn.scopes s).numHeap) (fuel : Nat) :
    PhaseOut st0 s stIn (alFunctionVar fuel stIn s) := by
  unfold alFunctionVar
  rcases hf : (stIn.scopes s).functionVar with - | f
  · exact phaseOut_id hinv
  · refine c7ph_allocateNonParameterLocal hinv hge fuel f ?_
    have hf0 : (st0.scopes s).functionVar = some f := by
      rw [← AllocPres.functionVar_eq hpres s]
      exact hf
    exact hself f (Or.inr (Or.inr (Or.inr hf0)))

theorem c7ph_alNewTarget {st0 : AState} {s : Nat} {stIn : AState} (hinv : C7Inv stIn) :
    PhaseOut st0 s stIn (alNewTarget stIn s) := by
  unfold alNewTarget
  rcases (stIn.scopes s).newTarget with - | nt
  · exact phaseOut_id hinv
  · have P1 : PhaseOut st0 s stIn (mustAllocate stIn s nt).2 := c7ph_mustAllocate hinv nt
    dsimp only
    split
    · exact P1.comp (phaseOut_updScopeCnt P1.inv s _ (fun x => rfl) (fun x => rfl))
    · exact P1

theorem c7ph_alThisFunction {st0 : AState} {s : Nat} {stIn : AState} (hinv : C7Inv stIn) :
    PhaseOut st0 s stIn (alThisFunction stIn s) := by
  unfold alThisFunction
  rcases (stIn.scopes s).thisFunction with - | tf
  · exact phaseOut_id hinv
  · have P1 : PhaseOut st0 s stIn (mustAllocate stIn s tf).2 := c7ph_mustAllocate hinv tf
    dsimp only
    split
    · exact P1.comp (phaseOut_updScopeCnt P1.inv s _ (fun x => rfl) (fun x => rfl))
    · exact P1

theorem c7ph_allocateLocals {st0 : AState} {s : Nat}
    (hself : ∀ v, starOwned st0 s v → (st0.vars v).scope = some s) {stIn : AState}
    (hpres : AllocPres st0 stIn) (hinv : C7Inv stIn)
    (hge : MIN_CONTEXT_SLOTS ≤ (stIn.scopes s).numHeap) (fuel : Nat) :
    PhaseOut st0 s stIn (allocateLocals fuel stIn s) := by
  unfold allocateLocals
  have P1 : PhaseOut st0 s stIn (alFunctionVar fuel stIn s) :=
    c7ph_alFunctionVar hself hpres hinv hge fuel
  have P2 : PhaseOut st0 s (alFunctionVar fuel stIn s)
      (alNewTarget (alFunctionVar fuel stIn s) s) := c7ph_alNewTarget P1.inv
  exact (P1.comp P2).comp (c7ph_alThisFunction (P1.comp P2).inv)

theorem c7ph_allocateNPLocals {st0 : AState} {s : Nat}
    (hself : ∀ v, starOwned st0 s v → (st0.vars v).scope = some s) {stIn : AState}
    (hpres : AllocPres st0 stIn) (hinv : C7Inv stIn)
    (hge : MIN_CONTEXT_SLOTS ≤ (stIn.scopes s).numHeap) (fuel : Nat) :
    PhaseOut st0 s stIn (allocateNPLocals fuel stIn s) := by
  unfold allocateNPLocals
  dsimp only
  have H : PhaseOut st0 s stIn ((stIn.scopes s).locals.foldl
        (fun acc v => allocateNonParameterLocal fuel acc s v) stIn) ∧
      AllocPres st0 ((stIn.scopes s).locals.foldl
        (fun acc v => allocateNonParameterLocal fuel acc s v) stIn) := by
    refine c7ph_foldl _ _ ?_ stIn hpres hinv hge
    intro st3 v hmem hp3 hi3 hg3
    have hsc0 : (st0.vars v).scope = some s := by
      rw [AllocPres.locals_eq hpres s] at hmem
      exact hself v (Or.inl hmem)
    exact ⟨c7ph_allocateNonParameterLocal hi3 hg3 fuel v hsc0,
      allocPres_allocateNonParameterLocal hp3 fuel s v⟩
  split
  · exact H.1.comp (c7ph_allocateLocals hself H.2 H.1.inv (H.1.sheap hge) fuel)
  · exact H.1

theorem c7ph_allocModFold {st0 : AState} {s : Nat} (i0 : Int) (L : List Nat) :
    ∀ (stIn : AState), C7Inv stIn →
      (∀ n, n ∈ L → ∀ v, lookupLocal stIn s n = some v →
        ((stIn.vars v).location = .UNALLOCATED ∨ (stIn.vars v).location = .MODULE) ∧
          (st0.vars v).scope = some s) →
      PhaseOut st0 s stIn (allocModFold s i0 L stIn) ∧
        (∀ w, ((allocModFold s i0 L stIn).vars w).location = (stIn.vars w).location ∨
          ((allocModFold s i0 L stIn).vars w).location = .MODULE) ∧
        ((allocModFold s i0 L stIn).scopes = stIn.scopes) := by
  induction L with
  | nil =>
    intro stIn hinv hpre
    exact ⟨phaseOut_id hinv, fun w => Or.inl rfl, rfl⟩
  | cons n L2 ih =>
    intro stIn hinv hpre
    rcases hlk : lookupLocal stIn s n with - | v
    · have hstep : allocModFold s i0 (n :: L2) stIn = allocModFold s i0 L2 stIn := by
        unfold allocModFold
        rw [List.foldl_cons, hlk]
      rw [hstep]
      exact ih stIn hinv (fun n2 h2 => hpre n2 (List.mem_cons_of_mem n h2))
    · have hpn := hpre n (List.mem_cons_self n L2) v hlk
      set st1 := allocateTo stIn v .MODULE i0 none with hst1
      have P1 : PhaseOut st0 s stIn st1 := by
        rw [hst1]
        refine c7ph_allocateTo_uncounted hinv v .MODULE i0 ?_ ?_ (by decide) (by decide) hpn.2
        · rcases hpn.1 with h | h <;> rw [h] <;> decide
        · rcases hpn.1 with h | h <;> rw [h] <;> decide
      have hsc1 : st1.scopes = stIn.scopes := by
        rw [hst1]
        exact allocateTo_scopes stIn v .MODULE i0 none
      have hstep : allocModFold s i0 (n :: L2) stIn = allocModFold s i0 L2 st1 := by
        unfold allocModFold
        rw [List.foldl_cons, hlk, hst1]
      rw [hstep]
      have hpre1 : ∀ n2, n2 ∈ L2 → ∀ v2, lookupLocal st1 s n2 = some v2 →
          ((st1.vars v2).location = .UNALLOCATED ∨ (st1.vars v2).location = .MODULE) ∧
            (st0.vars v2).scope = some s := by
        intro n2 h2 v2 hlk2
        have hlk2b : lookupLocal stIn s n2 = some v2 := by
          rw [← hlk2]
          unfold lookupLocal
          rw [hsc1]
        have hp2 := hpre n2 (List.mem_cons_of_mem n h2) v2 hlk2b
        refine ⟨?_, hp2.2⟩
        by_cases hv2 : v2 = v
        · subst hv2
          right
          rw [hst1]
          simp [allocateTo]
        · rw [hst1, allocateTo_vars_ne stIn v .MODULE i0 none v2 hv2]
          exact hp2.1
      obtain ⟨P2, hloc2, hsc2⟩ := ih st1 P1.inv hpre1
      refine ⟨P1.comp P2, ?_, ?_⟩
      · intro w
        rcases hloc2 w with h | h
        · by_cases hw : w = v
          · subst hw
            right
            rw [h, hst1]
            simp [allocateTo]
          · left
            rw [h, hst1, allocateTo_vars_ne stIn v .MODULE i0 none w hw]
        · exact Or.inr h
      · rw [hsc2, hsc1]

theorem c7ph_allocateModuleVariables {st0 : AState} {s : Nat} {stIn : AState}
    (hpres : AllocPres st0 stIn) (hinv : C7Inv stIn)
    (himpPre : ∀ n, (n ∈ (st0.scopes s).regularImports ∨ n ∈ (st0.scopes s).regularExports) →
      ∀ v, vmLookup (st0.scopes s).varMap n = some v →
        (st0.vars v).scope = some s ∧ (stIn.vars v).location = .UNALLOCATED) :
    PhaseOut st0 s stIn (allocateModuleVariables stIn s) := by
  unfold allocateModuleVariables
  dsimp only
  have hlk0 : ∀ n v, lookupLocal stIn s n = some v → vmLookup (st0.scopes s).varMap n = some v := by
    intro n v h
    rw [← AllocPres.varMap_eq hpres s]
    exact h
  have hpreImp : ∀ n, n ∈ (stIn.scopes s).regularImports → ∀ v,
      lookupLocal stIn s n = some v →
      ((stIn.vars v).location = .UNALLOCATED ∨ (stIn.vars v).location = .MODULE) ∧
        (st0.vars v).scope = some s := by
    intro n hn v hlk
    have hn0 : n ∈ (st0.scopes s).regularImports := by
      rw [← AllocPres.imports_eq hpres s]
      exact hn
    have h0 := himpPre n (Or.inl hn0) v (hlk0 n v hlk)
    exact ⟨Or.inl h0.2, h0.1⟩
  obtain ⟨P1, hloc1, hsc1⟩ :=
    c7ph_allocModFold 42 (stIn.scopes s).regularImports stIn hinv hpreImp
  rw [hsc1]
  have hpreExp : ∀ n, n ∈ (stIn.scopes s).regularExports → ∀ v,
      lookupLocal (allocModFold s 42 (stIn.scopes s).regularImports stIn) s n = some v →
      (((allocModFold s 42 (stIn.scopes s).regularImports stIn).vars v).location =
          .UNALLOCATED ∨
        ((allocModFold s 42 (stIn.scopes s).regularImports stIn).vars v).location =
          .MODULE) ∧
        (st0.vars v).scope = some s := by
    intro n hn v hlk
    have hlkIn : lookupLocal stIn s n = some v := by
      rw [← hlk]
      unfold lookupLocal
      rw [hsc1]
    have hn0 : n ∈ (st0.scopes s).regularExports := by
      rw [← AllocPres.exports_eq hpres s]
      exact hn
    have h0 := himpPre n (Or.inr hn0) v (hlk0 n v hlkIn)
    refine ⟨?_, h0.1⟩
    rcases hloc1 v with h | h
    · left
      rw [h]
      exact h0.2
    · right
      exact h
  obtain ⟨P2, hloc2, hsc2⟩ := c7ph_allocModFold 0 (stIn.scopes s).regularExports
    (allocModFold s 42 (stIn.scopes s).regularImports stIn) P1.inv hpreExp
  exact P1.comp P2

theorem c7ph_asoDeclPhase {st0 : AState} {s : Nat}
    (hself : ∀ v, starOwned st0 s v → (st0.vars v).scope = some s) {stIn : AState}
    (hpres : AllocPres st0 stIn) (hinv : C7Inv stIn)
    (hge : MIN_CONTEXT_SLOTS ≤ (stIn.scopes s).numHeap)
    (himpPre : (st0.scopes s).stype = .MODULE →
      ∀ n, (n ∈ (st0.scopes s).regularImports ∨ n ∈ (st0.scopes s).regularExports) →
      ∀ v, vmLookup (st0.scopes s).varMap n = some v →
        (st0.vars v).scope = some s ∧ (stIn.vars v).location = .UNALLOCATED) :
    PhaseOut st0 s stIn (asoDeclPhase stIn s) := by
  unfold asoDeclPhase
  split
  · by_cases hmod : (stIn.scopes s).isModuleScope = true
    · rw [if_pos hmod]
      have hmod0 : (st0.scopes s).stype = .MODULE := by
        have hmod2 : (stIn.scopes s).stype = .MODULE := by
          simpa [SScope.isModuleScope] using hmod
        rw [← AllocPres.stype_eq hpres s]
        exact hmod2
      have P1 : PhaseOut st0 s stIn (allocateModuleVariables stIn s) :=
        c7ph_allocateModuleVariables hpres hinv (himpPre hmod0)
      have hp1 : AllocPres st0 (allocateModuleVariables stIn s) :=
        allocPres_allocateModuleVariables hpres s
      exact P1.comp (c7ph_allocateReceiver hself hp1 P1.inv (P1.sheap hge))
    · rw [if_neg hmod]
      by_cases hfun : (stIn.scopes s).isFunctionScope = true
      · rw [if_pos hfun]
        obtain ⟨P1, hp1⟩ := c7ph_allocateParameterLocals hself hpres hinv hge
        exact P1.comp (c7ph_allocateReceiver hself hp1 P1.inv (P1.sheap hge))
      · rw [if_neg hfun]
        exact c7ph_allocateReceiver hself hpres hinv hge
  · exact phaseOut_id hinv

theorem c7_visitScope {st0 : AState} {s : Nat}
    (hself : ∀ v, starOwned st0 s v → (st0.vars v).scope = some s) {stIn : AState}
    (hpres : AllocPres st0 stIn) (hinv : C7Inv stIn)
    (hge : MIN_CONTEXT_SLOTS ≤ (stIn.scopes s).numHeap)
    (himpPre : (st0.scopes s).stype = .MODULE →
      ∀ n, (n ∈ (st0.scopes s).regularImports ∨ n ∈ (st0.scopes s).regularExports) →
      ∀ v, vmLookup (st0.scopes s).varMap n = some v →
        (st0.vars v).scope = some s ∧ (stIn.vars v).location = .UNALLOCATED)
    (fuel : Nat) :
    C7Inv (allocateScopeOwn fuel stIn s) ∧
      (∀ j, j ≠ s → ((allocateScopeOwn fuel stIn s).scopes j).numHeap =
        (stIn.scopes j).numHeap) ∧
      (∀ w, (st0.vars w).scope ≠ some s → locFrozen stIn (allocateScopeOwn fuel stIn s) w) := by
  unfold allocateScopeOwn
  have P1 : PhaseOut st0 s stIn (asoDeclPhase stIn s) :=
    c7ph_asoDeclPhase hself hpres hinv hge himpPre
  have hp1 : AllocPres st0 (asoDeclPhase stIn s) := allocPres_asoDeclPhase hpres s
  have P2 : PhaseOut st0 s (asoDeclPhase stIn s)
      (allocateNPLocals fuel (asoDeclPhase stIn s) s) :=
    c7ph_allocateNPLocals hself hp1 P1.inv (P1.sheap hge) fuel
  have P12 := P1.comp P2
  obtain ⟨hi3, hf3, hv3⟩ := c7_asoDropHeap P12.inv s
  refine ⟨hi3, ?_, ?_⟩
  · intro j hj
    rw [hf3 j hj]
    exact P12.heapFrame j hj
  · intro w hw
    exact locFrozen_trans (P12.varFrame w hw) (locFrozen_of_eq (hv3 w))

mutual
theorem c7_tree {st0 : AState}
    (hown : ∀ s v, starOwned st0 s v → (st0.vars v).scope = some s)
    (himp0 : ∀ m, (st0.scopes m).stype = .MODULE → ∀ n,
      (n ∈ (st0.scopes m).regularImports ∨ n ∈ (st0.scopes m).regularExports) →
      ∀ v, vmLookup (st0.scopes m).varMap n = some v →
        (st0.vars v).scope = some m ∧ (st0.vars v).location = .UNALLOCATED)
    (fuel : Nat) :
    ∀ (t : STree) (st : AState), AllocPres st0 st → C7Inv st →
      (treeNodes t).Nodup →
      (∀ j, j ∈ treeNodes t → (st.scopes j).numHeap = MIN_CONTEXT_SLOTS) →
      (∀ w m2, (st0.vars w).scope = some m2 → m2 ∈ treeNodes t → locFrozen st0 st w) →
      C7Inv (allocateVariablesRecursively fuel t st) ∧
        AllocPres st0 (allocateVariablesRecursively fuel t st) ∧
        (∀ j, ¬ j ∈ treeNodes t →
          ((allocateVariablesRecursively fuel t st).scopes j).numHeap =
            (st.scopes j).numHeap) ∧
        (∀ w, (∀ m2, (st0.vars w).scope = some m2 → ¬ m2 ∈ treeNodes t) →
          locFrozen st (allocateVariablesRecursively fuel t st) w)
  | .node s kids, st, hpres, hinv, hnd, hmin, hfroz => by
    simp only [allocateVariablesRecursively]
    simp only [treeNodes] at hnd hmin hfroz ⊢
    have hnds : ¬ s ∈ treeNodesList kids := (List.nodup_cons.mp hnd).1
    have hndk : (treeNodesList kids).Nodup := (List.nodup_cons.mp hnd).2
    obtain ⟨hiK, hpK, hhK, hvK⟩ := c7_treeList hown himp0 fuel kids st hpres hinv hndk
      (fun j hj => hmin j (List.mem_cons_of_mem s hj))
      (fun w m2 hw hm2 => hfroz w m2 hw (List.mem_cons_of_mem s hm2))
    have hminS : ((allocateVariablesList fuel kids st).scopes s).numHeap =
        MIN_CONTEXT_SLOTS := by
      rw [hhK s hnds]
      exact hmin s (List.mem_cons_self s (treeNodesList kids))
    have himpPre : (st0.scopes s).stype = .MODULE →
        ∀ n, (n ∈ (st0.scopes s).regularImports ∨ n ∈ (st0.scopes s).regularExports) →
        ∀ v, vmLookup (st0.scopes s).varMap n = some v →
          (st0.vars v).scope = some s ∧
            ((allocateVariablesList fuel kids st).vars v).location = .UNALLOCATED := by
      intro hm n hn v hlk
      have h0 := himp0 s hm n hn v hlk
      refine ⟨h0.1, ?_⟩
      have f1 : locFrozen st0 st v :=
        hfroz v s h0.1 (List.mem_cons_self s (treeNodesList kids))
      have f2 : locFrozen st (allocateVariablesList fuel kids st) v := by
        refine hvK v ?_
        intro m2 hm2
        rw [h0.1] at hm2
        cases Option.some.inj hm2
        exact hnds
      have f12 := locFrozen_trans f1 f2
      rw [f12.1]
      exact h0.2
    obtain ⟨hiV, hhV, hvV⟩ := c7_visitScope (fun v hv => hown s v hv) hpK hiK
      (Nat.le_of_eq hminS.symm) himpPre fuel
    refine ⟨hiV, allocPres_allocateScopeOwn hpK fuel s, ?_, ?_⟩
    · intro j hj
      have hj1 : j ≠ s := fun he => hj (he ▸ List.mem_cons_self s (treeNodesList kids))
      have hj2 : ¬ j ∈ treeNodesList kids := fun hm => hj (List.mem_cons_of_mem s hm)
      rw [hhV j hj1]
      exact hhK j hj2
    · intro w hw
      have hw1 : ∀ m2, (st0.vars w).scope = some m2 → ¬ m2 ∈ treeNodesList kids :=
        fun m2 hm hmem => hw m2 hm (List.mem_cons_of_mem s hmem)
      have hw2 : (st0.vars w).scope ≠ some s :=
        fun he => hw s he (List.mem_cons_self s (treeNodesList kids))
      exact locFrozen_trans (hvK w hw1) (hvV w hw2)
theorem c7_treeList {st0 : AState}
    (hown : ∀ s v, starOwned st0 s v → (st0.vars v).scope = some s)
    (himp0 : ∀ m, (st0.scopes m).stype = .MODULE → ∀ n,
      (n ∈ (st0.scopes m).regularImports ∨ n ∈ (st0.scopes m).regularExports) →
      ∀ v, vmLookup (st0.scopes m).varMap n = some v →
        (st0.vars v).scope = some m ∧ (st0.vars v).location = .UNALLOCATED)
    (fuel : Nat) :
    ∀ (ts : STreeList) (st : AState), AllocPres st0 st → C7Inv st →
      (treeNodesList ts).Nodup →
      (∀ j, j ∈ treeNodesList ts → (st.scopes j).numHeap = MIN_CONTEXT_SLOTS) →
      (∀ w m2, (st0.vars w).scope = some m2 → m2 ∈ treeNodesList ts → locFrozen st0 st w) →
      C7Inv (allocateVariablesList fuel ts st) ∧
        AllocPres st0 (allocateVariablesList fuel ts st) ∧
        (∀ j, ¬ j ∈ treeNodesList ts →
          ((allocateVariablesList fuel ts st).scopes j).numHeap = (st.scopes j).numHeap) ∧
        (∀ w, (∀ m2, (st0.vars w).scope = some m2 → ¬ m2 ∈ treeNodesList ts) →
          locFrozen st (allocateVariablesList fuel ts st) w)
  | .snil, st, hpres, hinv, hnd, hmin, hfroz => by
    exact ⟨hinv, hpres, fun j hj => rfl, fun w hw => locFrozen_refl st w⟩
  | .scons t ts, st, hpres, hinv, hnd, hmin, hfroz => by
    simp only [allocateVariablesList]
    simp only [treeNodesList] at hnd hmin hfroz ⊢
    have hnd3 := List.nodup_append.mp hnd
    obtain ⟨hiT, hpT, hhT, hvT⟩ := c7_tree hown himp0 fuel t st hpres hinv hnd3.1
      (fun j hj => hmin j (List.mem_append_left _ hj))
      (fun w m2 hw hm2 => hfroz w m2 hw (List.mem_append_left _ hm2))
    have hminL : ∀ j, j ∈ treeNodesList ts →
        ((allocateVariablesRecursively fuel t st).scopes j).numHeap =
          MIN_CONTEXT_SLOTS := by
      intro j hj
      have hj1 : ¬ j ∈ treeNodes t := fun hm => hnd3.2.2 hm hj
      rw [hhT j hj1]
      exact hmin j (List.mem_append_right _ hj)
    have hfrozL : ∀ w m2, (st0.vars w).scope = some m2 → m2 ∈ treeNodesList ts →
        locFrozen st0 (allocateVariablesRecursively fuel t st) w := by
      intro w m2 hw hm2
      have f1 : locFrozen st0 st w := hfroz w m2 hw (List.mem_append_right _ hm2)
      have f2 : locFrozen st (allocateVariablesRecursively fuel t st) w := by
        refine hvT w ?_
        intro m3 hm3
        rw [hw] at hm3
        cases Option.some.inj hm3
        exact fun hmem => hnd3.2.2 hmem hm2
      exact locFrozen_trans f1 f2
    obtain ⟨hiL, hpL, hhL, hvL⟩ := c7_treeList hown himp0 fuel ts
      (allocateVariablesRecursively fuel t st) hpT hiT hnd3.2.1 hminL hfrozL
    refine ⟨hiL, hpL, ?_, ?_⟩
    · intro j hj
      have hj1 : ¬ j ∈ treeNodes t := fun hm => hj (List.mem_append_left _ hm)
      have hj2 : ¬ j ∈ treeNodesList ts := fun hm => hj (List.mem_append_right _ hm)
      rw [hhL j hj2]
      exact hhT j hj1
    · intro w hw
      have hw1 : ∀ m2, (st0.vars w).scope = some m2 → ¬ m2 ∈ treeNodes t :=
        fun m2 hm hmem => hw m2 hm (List.mem_append_left _ hmem)
      have hw2 : ∀ m2, (st0.vars w).scope = some m2 → ¬ m2 ∈ treeNodesList ts :=
        fun m2 hm hmem => hw m2 hm (List.mem_append_right _ hmem)
      exact locFrozen_trans (hvT w hw1) (hvL w hw2)
end

/-- C7: after Scope::AllocateVariablesRecursively on a scope tree (no scope
repeated; counters at their construction-time values num_stack_slots = 0 and
num_heap_slots = MIN_CONTEXT_SLOTS; no variable yet carries a slot; variables
reachable from a scope's local/parameter/receiver/function-variable slots
belong to that scope, and module import/export entries resolve to unallocated
variables of the module scope), every scope s satisfies slot density: the
stack-slot indices drawn from s are exactly [0, num_stack_slots), and
num_heap_slots is 0 (with no context slot drawn from s) or at least
MIN_CONTEXT_SLOTS with the context-slot indices drawn from s exactly
[MIN_CONTEXT_SLOTS, num_heap_slots). -/
theorem claim7_slot_density (fuel : Nat) (t : STree) (st : AState)
    (hstack : ∀ j, (st.scopes j).numStack = 0)
    (hheap : ∀ j, (st.scopes j).numHeap = MIN_CONTEXT_SLOTS)
    (halloc : ∀ v, (st.vars v).allocScope = none)
    (hnd : (treeNodes t).Nodup)
    (hown : ∀ s v, starOwned st s v → (st.vars v).scope = some s)
    (himp : ∀ m, (st.scopes m).stype = .MODULE → ∀ n,
      (n ∈ (st.scopes m).regularImports ∨ n ∈ (st.scopes m).regularExports) →
      ∀ v, vmLookup (st.scopes m).varMap n = some v →
        (st.vars v).scope = some m ∧ (st.vars v).location = .UNALLOCATED) :
    C7Inv (allocateVariablesRecursively fuel t st) := by
  have hinv0 : C7Inv st := by
    intro s
    refine ⟨⟨?_, ?_⟩, ?_⟩
    · intro v hl ha
      rw [halloc v] at ha
      exact Option.noConfusion ha
    · intro n hn
      rw [hstack s] at hn
      exact absurd hn (Nat.not_lt_zero n)
    · right
      refine ⟨Nat.le_of_eq (hheap s).symm, ?_, ?_⟩
      · intro v hc ha
        rw [halloc v] at ha
        exact Option.noConfusion ha
      · intro n h1 h2
        rw [hheap s] at h2
        exact absurd h1 (Nat.not_le_of_lt h2)
  exact (c7_tree hown himp fuel t st (AllocPres.rfl st) hinv0 hnd
    (fun j hj => hheap j) (fun w m2 hw hm => locFrozen_refl st w)).1

/-- Concrete function scope with one used VAR local for the C7 witness. -/
def c7wState : AState :=
  { vars := fun _ => { vname := 5, mode := .VAR, scope := some 0, isUsed := true }
    scopes := fun i =>
      if i = 0 then { stype := .FUNCTION, isDecl := true, varMap := [(5, 1)], locals := [1] }
      else { stype := .BLOCK }
    proxies := fun _ => { pname := 0 }
    nextVar := 2 }

theorem claim7_witness :
    C7Inv (allocateVariablesRecursively 4 (STree.node 0 STreeList.snil) c7wState) := by
  refine claim7_slot_density 4 (STree.node 0 STreeList.snil) c7wState ?_ ?_ ?_ ?_ ?_ ?_
  · intro j
    by_cases hj : j = 0 <;> simp [c7wState, hj]
  · intro j
    by_cases hj : j = 0 <;> simp [c7wState, hj, MIN_CONTEXT_SLOTS]
  · intro v
    rfl
  · decide
  · intro s v hv
    by_cases hs : s = 0
    · subst hs
      rfl
    · exfalso
      rcases hv with h | h | h | h <;> simp [c7wState, hs] at h
  · intro m hm
    by_cases hm0 : m = 0 <;> simp [c7wState, hm0] at hm

-- ## C1: allocation status iff used and not a global-object property

/-- A variable reachable from the analyzed scope tree, at a given state: via
a scope's local/parameter lists, its receiver or function variable, its
variable map, or one of its unresolved proxies' bindings. -/
def reachableVar (st : AState) (t : STree) (v : Nat) : Prop :=
  ∃ s, s ∈ treeNodes t ∧
    (v ∈ (st.scopes s).locals ∨ v ∈ (st.scopes s).params ∨
     (st.scopes s).receiver = some v ∨ (st.scopes s).functionVar = some v ∨
     (∃ n, vmLookup (st.scopes s).varMap n = some v) ∨
     (∃ p, p ∈ (st.scopes s).unresolved ∧ (st.proxies p).boundTo = some v))

/-- The literal statement of claim C1: after the AllocateVariables pipeline,
every reachable variable is allocated iff it is used and not a global-object
property. -/
def c1Statement (fuel : Nat) (t : STree) (st : AState) : Prop :=
  ∀ v, reachableVar (allocateVariables fuel t st) t v →
    (((allocateVariables fuel t st).vars v).location ≠ .UNALLOCATED ↔
      (((allocateVariables fuel t st).vars v).isUsed = true ∧
        isGlobalObjectProperty (allocateVariables fuel t st) v = false))

def c1xTree : STree := STree.node 0 (STreeList.scons (STree.node 1 STreeList.snil) STreeList.snil)

/-- Function scope 0 declaring x (variable 0), with scope 1 inside holding an
unresolved proxy for x: resolution through the with scope creates a DYNAMIC
non-local (variable 1) with LOOKUP location and is_used still false. -/
def c1xState : AState :=
  { vars := fun _ => { vname := 5, mode := .VAR, scope := some 0 }
    scopes := fun i =>
      if i = 0 then
        { stype := .FUNCTION, isDecl := true, varMap := [(5, 0)], locals := [0], inner := [1] }
      else { stype := .WITH, outer := some 0, unresolved := [0] }
    proxies := fun _ => { pname := 5 }
    nextVar := 1 }

theorem claim1_counterexample : ¬ c1Statement 4 c1xTree c1xState := by
  intro H
  have h := H 1 ⟨1, by decide,
    Or.inr (Or.inr (Or.inr (Or.inr (Or.inr ⟨0, by decide, by decide⟩))))⟩
  have h2 := h.mp (by decide)
  exact absurd h2.1 (by decide)

-- Frames for the PropagateScopeInfo phase: it writes only asm_function.

theorem asmStep_proj {A : Type} (f : SScope → A)
    (hf : ∀ sc, f { sc with asmFunction := true } = f sc)
    (p c : Nat) (st : AState) (j : Nat) :
    f ((asmStep p c st).scopes j) = f (st.scopes j) := by
  unfold asmStep
  split
  · rw [updScope_scopes]
    by_cases hj : j = c
    · rw [if_pos hj]
      exact hf _
    · rw [if_neg hj]
  · rfl

theorem asmStep_state (p c : Nat) (st : AState) :
    (asmStep p c st).vars = st.vars ∧ (asmStep p c st).proxies = st.proxies ∧
      (asmStep p c st).nextVar = st.nextVar := by
  unfold asmStep
  split
  · exact ⟨rfl, rfl, rfl⟩
  · exact ⟨rfl, rfl, rfl⟩

mutual
theorem propagate_state : ∀ (t : STree) (st : AState),
    (propagateScopeInfo t st).vars = st.vars ∧
      (propagateScopeInfo t st).proxies = st.proxies ∧
      (propagateScopeInfo t st).nextVar = st.nextVar
  | .node s kids, st => propagateInner_state s kids st
theorem propagateInner_state : ∀ (parent : Nat) (ts : STreeList) (st : AState),
    (propagateInner parent ts st).vars = st.vars ∧
      (propagateInner parent ts st).proxies = st.proxies ∧
      (propagateInner parent ts st).nextVar = st.nextVar
  | _, .snil, st => ⟨rfl, rfl, rfl⟩
  | parent, .scons t ts, st => by
    simp only [propagateInner]
    have h1 := propagate_state t st
    have h2 := asmStep_state parent t.rootId (propagateScopeInfo t st)
    have h3 := propagateInner_state parent ts
      (asmStep parent t.rootId (propagateScopeInfo t st))
    exact ⟨h3.1.trans (h2.1.trans h1.1), h3.2.1.trans (h2.2.1.trans h1.2.1),
      h3.2.2.trans (h2.2.2.trans h1.2.2)⟩
end

mutual
theorem propagate_proj {A : Type} (f : SScope → A)
    (hf : ∀ sc, f { sc with asmFunction := true } = f sc) :
    ∀ (t : STree) (st : AState) (j : Nat),
      f ((propagateScopeInfo t st).scopes j) = f (st.scopes j)
  | .node s kids, st, j => propagateInner_proj f hf s kids st j
theorem propagateInner_proj {A : Type} (f : SScope → A)
    (hf : ∀ sc, f { sc with asmFunction := true } = f sc) :
    ∀ (parent : Nat) (ts : STreeList) (st : AState) (j : Nat),
      f ((propagateInner parent ts st).scopes j) = f (st.scopes j)
  | _, .snil, st, j => rfl
  | parent, .scons t ts, st, j => by
    simp only [propagateInner]
    have h3 := propagateInner_proj f hf parent ts
      (asmStep parent t.rootId (propagateScopeInfo t st)) j
    have h2 := asmStep_proj f hf parent t.rootId (propagateScopeInfo t st) j
    have h1 := propagate_proj f hf t st j
    exact h3.trans (h2.trans h1)
end

-- Frames for the resolution phase: LookupRecursive and ResolveTo only mark
-- usage flags on existing variables, create fresh dynamic non-locals, and
-- append fresh entries to variable maps.

/-- The variable fields the resolver never changes on pre-existing variables. -/
def resVarEq (st st' : AState) (w : Nat) : Prop :=
  (st'.vars w).nameEmpty = (st.vars w).nameEmpty ∧
  (st'.vars w).mode = (st.vars w).mode ∧
  (st'.vars w).kind = (st.vars w).kind ∧
  (st'.vars w).scope = (st.vars w).scope ∧
  (st'.vars w).location = (st.vars w).location

theorem resVarEq_refl (st : AState) (w : Nat) : resVarEq st st w :=
  ⟨rfl, rfl, rfl, rfl, rfl⟩

theorem resVarEq_trans {st1 st2 st3 : AState} {w : Nat}
    (a : resVarEq st1 st2 w) (b : resVarEq st2 st3 w) : resVarEq st1 st3 w :=
  ⟨b.1.trans a.1, b.2.1.trans a.2.1, b.2.2.1.trans a.2.2.1,
   b.2.2.2.1.trans a.2.2.2.1, b.2.2.2.2.trans a.2.2.2.2⟩

/-- The scope fields the resolver never changes (it only appends to varMap
and leaves everything else alone). -/
def resScopeEq (st st' : AState) (j : Nat) : Prop :=
  (st'.scopes j).stype = (st.scopes j).stype ∧
  (st'.scopes j).isDecl = (st.scopes j).isDecl ∧
  (st'.scopes j).outer = (st.scopes j).outer ∧
  (st'.scopes j).locals = (st.scopes j).locals ∧
  (st'.scopes j).params = (st.scopes j).params ∧
  (st'.scopes j).receiver = (st.scopes j).receiver ∧
  (st'.scopes j).functionVar = (st.scopes j).functionVar ∧
  (st'.scopes j).argumentsVar = (st.scopes j).argumentsVar ∧
  (st'.scopes j).newTarget = (st.scopes j).newTarget ∧
  (st'.scopes j).thisFunction = (st.scopes j).thisFunction ∧
  (st'.scopes j).isDebugEvaluate = (st.scopes j).isDebugEvaluate ∧
  (st'.scopes j).hasThisDecl = (st.scopes j).hasThisDecl

theorem resScopeEq_refl (st : AState) (j : Nat) : resScopeEq st st j :=
  ⟨rfl, rfl, rfl, rfl, rfl, rfl, rfl, rfl, rfl, rfl, rfl, rfl⟩

theorem resScopeEq_trans {st1 st2 st3 : AState} {j : Nat}
    (a : resScopeEq st1 st2 j) (b : resScopeEq st2 st3 j) : resScopeEq st1 st3 j :=
  ⟨b.1.trans a.1, b.2.1.trans a.2.1, b.2.2.1.trans a.2.2.1, b.2.2.2.1.trans a.2.2.2.1,
   b.2.2.2.2.1.trans a.2.2.2.2.1, b.2.2.2.2.2.1.trans a.2.2.2.2.2.1,
   b.2.2.2.2.2.2.1.trans a.2.2.2.2.2.2.1, b.2.2.2.2.2.2.2.1.trans a.2.2.2.2.2.2.2.1,
   b.2.2.2.2.2.2.2.2.1.trans a.2.2.2.2.2.2.2.2.1,
   b.2.2.2.2.2.2.2.2.2.1.trans a.2.2.2.2.2.2.2.2.2.1,
   b.2.2.2.2.2.2.2.2.2.2.1.trans a.2.2.2.2.2.2.2.2.2.2.1,
   b.2.2.2.2.2.2.2.2.2.2.2.trans a.2.2.2.2.2.2.2.2.2.2.2⟩

theorem resScopeEq_locals {st st' : AState} {j : Nat} (h : resScopeEq st st' j) :
    (st'.scopes j).locals = (st.scopes j).locals := h.2.2.2.1

theorem resScopeEq_params {st st' : AState} {j : Nat} (h : resScopeEq st st' j) :
    (st'.scopes j).params = (st.scopes j).params := h.2.2.2.2.1

theorem resScopeEq_receiver {st st' : AState} {j : Nat} (h : resScopeEq st st' j) :
    (st'.scopes j).receiver = (st.scopes j).receiver := h.2.2.2.2.2.1

theorem resScopeEq_functionVar {st st' : AState} {j : Nat} (h : resScopeEq st st' j) :
    (st'.scopes j).functionVar = (st.scopes j).functionVar := h.2.2.2.2.2.2.1

theorem resScopeEq_argumentsVar {st st' : AState} {j : Nat} (h : resScopeEq st st' j) :
    (st'.scopes j).argumentsVar = (st.scopes j).argumentsVar := h.2.2.2.2.2.2.2.1

theorem resScopeEq_newTarget {st st' : AState} {j : Nat} (h : resScopeEq st st' j) :
    (st'.scopes j).newTarget = (st.scopes j).newTarget := h.2.2.2.2.2.2.2.2.1

theorem resScopeEq_thisFunction {st st' : AState} {j : Nat} (h : resScopeEq st st' j) :
    (st'.scopes j).thisFunction = (st.scopes j).thisFunction := h.2.2.2.2.2.2.2.2.2.1

theorem resScopeEq_dbg {st st' : AState} {j : Nat} (h : resScopeEq st st' j) :
    (st'.scopes j).isDebugEvaluate = (st.scopes j).isDebugEvaluate :=
  h.2.2.2.2.2.2.2.2.2.2.1

theorem resScopeEq_hasThisDecl {st st' : AState} {j : Nat} (h : resScopeEq st st' j) :
    (st'.scopes j).hasThisDecl = (st.scopes j).hasThisDecl :=
  h.2.2.2.2.2.2.2.2.2.2.2

theorem resScopeEq_stype {st st' : AState} {j : Nat} (h : resScopeEq st st' j) :
    (st'.scopes j).stype = (st.scopes j).stype := h.1

theorem resScopeEq_isDecl {st st' : AState} {j : Nat} (h : resScopeEq st st' j) :
    (st'.scopes j).isDecl = (st.scopes j).isDecl := h.2.1

theorem resScopeEq_outer {st st' : AState} {j : Nat} (h : resScopeEq st st' j) :
    (st'.scopes j).outer = (st.scopes j).outer := h.2.2.1

/-- Frame of a resolution step relative to the fixed baseline n0 (the variable
arena cursor at the start of resolution): variables below n0 keep their
non-flag fields, the cursor is monotone, non-varMap scope fields are frozen,
and any new map entry points at a fresh variable. -/
structure ResFrame (n0 : Nat) (st st' : AState) : Prop where
  mono : st.nextVar ≤ st'.nextVar
  vfr : ∀ w, w < n0 → resVarEq st st' w
  sfr : ∀ j, resScopeEq st st' j
  mapNew : ∀ j n v, vmLookup ((st'.scopes j).varMap) n = some v →
    vmLookup ((st.scopes j).varMap) n = some v ∨ n0 ≤ v

theorem resFrame_id {n0 : Nat} (st : AState) : ResFrame n0 st st :=
  ⟨Nat.le_refl _, fun w hw => resVarEq_refl st w, fun j => resScopeEq_refl st j,
   fun j n v h => Or.inl h⟩

theorem ResFrame.trans {n0 : Nat} {st1 st2 st3 : AState}
    (a : ResFrame n0 st1 st2) (b : ResFrame n0 st2 st3) : ResFrame n0 st1 st3 := by
  refine ⟨Nat.le_trans a.mono b.mono, fun w hw => resVarEq_trans (a.vfr w hw) (b.vfr w hw),
    fun j => resScopeEq_trans (a.sfr j) (b.sfr j), ?_⟩
  intro j n v h
  rcases b.mapNew j n v h with h2 | h2
  · exact a.mapNew j n v h2
  · exact Or.inr h2

theorem vmLookup_append_one (m : List (Nat × Nat)) (n v n' w : Nat)
    (h : vmLookup (m ++ [(n, v)]) n' = some w) : vmLookup m n' = some w ∨ w = v := by
  induction m with
  | nil =>
    right
    unfold vmLookup at h
    rw [List.nil_append] at h
    by_cases hn : n = n'
    · rw [List.find?_cons_of_pos _ (by simp [hn])] at h
      exact (Option.some.inj h).symm
    · rw [List.find?_cons_of_neg _ (by simp [hn])] at h
      simp [List.find?] at h
  | cons a m2 ih =>
    unfold vmLookup at h ⊢
    rw [List.cons_append] at h
    by_cases ha : a.1 = n'
    · rw [List.find?_cons_of_pos _ (by simp [ha])] at h ⊢
      exact Or.inl h
    · rw [List.find?_cons_of_neg _ (by simp [ha])] at h ⊢
      exact ih h

theorem resFrame_updVar {n0 : Nat} (st : AState) (i : Nat) (f : Var → Var)
    (hf : ∀ x, (f x).nameEmpty = x.nameEmpty ∧ (f x).mode = x.mode ∧
      (f x).kind = x.kind ∧ (f x).scope = x.scope ∧ (f x).location = x.location) :
    ResFrame n0 st (updVar st i f) := by
  refine ⟨Nat.le_refl _, ?_, fun j => resScopeEq_refl st j, fun j n v h => Or.inl h⟩
  intro w hw
  by_cases hwi : w = i
  · subst hwi
    refine ⟨?_, ?_, ?_, ?_, ?_⟩ <;> rw [updVar_vars, if_pos rfl]
    · exact (hf _).1
    · exact (hf _).2.1
    · exact (hf _).2.2.1
    · exact (hf _).2.2.2.1
    · exact (hf _).2.2.2.2
  · have he : (updVar st i f).vars w = st.vars w := by
      rw [updVar_vars, if_neg hwi]
    exact ⟨by rw [he], by rw [he], by rw [he], by rw [he], by rw [he]⟩

theorem resFrame_updProxy {n0 : Nat} (st : AState) (i : Nat) (f : Proxy → Proxy) :
    ResFrame n0 st (updProxy st i f) :=
  ⟨Nat.le_refl _, fun w hw => resVarEq_refl st w, fun j => resScopeEq_refl st j,
   fun j n v h => Or.inl h⟩

theorem vmDeclare_fst_none {st : AState} {s : Nat} {r : Option Nat} {n : Nat}
    {mode : VariableMode} {kind : VariableKind}
    (hlk : vmLookup ((st.scopes s).varMap) n = none) :
    (vmDeclare st s r n mode kind).1 = st.nextVar := by
  unfold vmDeclare
  rw [hlk]

theorem vmDeclare_fst_some {st : AState} {s : Nat} {r : Option Nat} {n : Nat}
    {mode : VariableMode} {kind : VariableKind} {v0 : Nat}
    (hlk : vmLookup ((st.scopes s).varMap) n = some v0) :
    (vmDeclare st s r n mode kind).1 = v0 ∧ (vmDeclare st s r n mode kind).2.1 = st := by
  unfold vmDeclare
  rw [hlk]
  exact ⟨rfl, rfl⟩

theorem vmDeclare_vars_ne (st : AState) (s : Nat) (r : Option Nat) (n : Nat)
    (mode : VariableMode) (kind : VariableKind) (w : Nat) (hw : w ≠ st.nextVar) :
    ((vmDeclare st s r n mode kind).2.1).vars w = st.vars w := by
  unfold vmDeclare
  rcases vmLookup ((st.scopes s).varMap) n with - | v0
  · simp [updScope, hw]
  · rfl

theorem vmDeclare_scopes_eq (st : AState) (s : Nat) (r : Option Nat) (n : Nat)
    (mode : VariableMode) (kind : VariableKind) (j : Nat) :
    ((vmDeclare st s r n mode kind).2.1).scopes j = st.scopes j ∨
      ((vmDeclare st s r n mode kind).2.1).scopes j =
        { st.scopes j with varMap := (st.scopes j).varMap ++ [(n, st.nextVar)] } := by
  unfold vmDeclare
  rcases vmLookup ((st.scopes s).varMap) n with - | v0
  · by_cases hj : j = s
    · right
      simp [updScope, hj]
    · left
      simp [updScope, hj]
  · exact Or.inl rfl

theorem vmDeclare_nextVar_le (st : AState) (s : Nat) (r : Option Nat) (n : Nat)
    (mode : VariableMode) (kind : VariableKind) :
    st.nextVar ≤ (vmDeclare st s r n mode kind).2.1.nextVar := by
  unfold vmDeclare
  rcases vmLookup ((st.scopes s).varMap) n with - | v0
  · exact Nat.le_succ _
  · exact Nat.le_refl _

theorem resFrame_vmDeclare {n0 : Nat} (st : AState) (s : Nat) (r : Option Nat) (n : Nat)
    (mode : VariableMode) (kind : VariableKind) (hn : n0 ≤ st.nextVar) :
    ResFrame n0 st (vmDeclare st s r n mode kind).2.1 := by
  refine ⟨vmDeclare_nextVar_le st s r n mode kind, ?_, ?_, ?_⟩
  · intro w hw
    have hwv : w ≠ st.nextVar := Nat.ne_of_lt (Nat.lt_of_lt_of_le hw hn)
    have he := vmDeclare_vars_ne st s r n mode kind w hwv
    exact ⟨by rw [he], by rw [he], by rw [he], by rw [he], by rw [he]⟩
  · intro j
    unfold resScopeEq
    rcases vmDeclare_scopes_eq st s r n mode kind j with he | he
    · rw [he]
      exact ⟨rfl, rfl, rfl, rfl, rfl, rfl, rfl, rfl, rfl, rfl, rfl, rfl⟩
    · rw [he]
      exact ⟨rfl, rfl, rfl, rfl, rfl, rfl, rfl, rfl, rfl, rfl, rfl, rfl⟩
  · intro j n2 v h
    rcases vmDeclare_scopes_eq st s r n mode kind j with he | he
    · rw [he] at h
      exact Or.inl h
    · rw [he] at h
      rcases vmLookup_append_one _ _ _ _ _ h with h2 | h2
      · exact Or.inl h2
      · subst h2
        exact Or.inr hn

theorem resFrame_allocateTo {n0 : Nat} (st : AState) (v : Nat)
    (loc : VariableLocation) (idx : Int) (a : Option Nat) (hfresh : n0 ≤ v) :
    ResFrame n0 st (allocateTo st v loc idx a) := by
  refine ⟨Nat.le_refl _, ?_, fun j => resScopeEq_refl st j, fun j n w h => Or.inl h⟩
  intro w hw
  have hwv : w ≠ v := Nat.ne_of_lt (Nat.lt_of_lt_of_le hw hfresh)
  have he := allocateTo_vars_ne st v loc idx a w hwv
  exact ⟨by rw [he], by rw [he], by rw [he], by rw [he], by rw [he]⟩

theorem resFrame_nonLocal {n0 : Nat} (st : AState) (s : Nat) (n : Nat)
    (mode : VariableMode) (hn : n0 ≤ st.nextVar)
    (hhit : ∀ v0, vmLookup ((st.scopes s).varMap) n = some v0 → n0 ≤ v0) :
    ResFrame n0 st (nonLocal st s n mode).2 := by
  unfold nonLocal
  dsimp only
  have hfr : ResFrame n0 st (vmDeclare st s none n mode .NORMAL).2.1 :=
    resFrame_vmDeclare st s none n mode .NORMAL hn
  refine hfr.trans (resFrame_allocateTo _ _ _ _ _ ?_)
  rcases hlk : vmLookup ((st.scopes s).varMap) n with - | v0
  · rw [vmDeclare_fst_none hlk]
    exact hn
  · rw [(vmDeclare_fst_some hlk).1]
    exact hhit v0 hlk

theorem resFrame_declareDynamicGlobal {n0 : Nat} (st : AState) (s : Nat) (n : Nat)
    (hn : n0 ≤ st.nextVar) : ResFrame n0 st (declareDynamicGlobal st s n).2 := by
  unfold declareDynamicGlobal
  exact resFrame_vmDeclare st s (some s) n .DYNAMIC_GLOBAL .NORMAL hn

theorem resFrame_lookupRecursive {n0 : Nat} :
    ∀ (fuel : Nat) (st : AState) (s proxy : Nat) (df : Bool) (oe : Option Nat),
      n0 ≤ st.nextVar → (∀ j, (st.scopes j).isDebugEvaluate = false) →
      ResFrame n0 st (lookupRecursive fuel st s proxy df oe).2
  | 0, st, s, proxy, df, oe, hn, hdbg => resFrame_id st
  | fuel + 1, st, s, proxy, df, oe, hn, hdbg => by
    simp only [lookupRecursive]
    rw [hdbg s, if_neg Bool.false_ne_true]
    rcases hlk : lookupLocal st s ((st.proxies proxy).pname) with - | v
    · have hlk2 : vmLookup ((st.scopes s).varMap) ((st.proxies proxy).pname) = none := hlk
      first
      | dsimp only
      | skip
      by_cases hfun : (st.scopes s).isFunctionScope = true
      · rw [if_pos hfun]
        rcases hlf : lookupFunctionVar st s ((st.proxies proxy).pname) with - | v
        · first
          | dsimp only
          | skip
          by_cases hoe : (st.scopes s).outer = oe
          · rw [if_pos hoe]
            cases df with
            | false => exact resFrame_id st
            | true =>
              first
              | dsimp only
              | skip
              exact resFrame_declareDynamicGlobal st s _ hn
          · rw [if_neg hoe]
            rcases hou : (st.scopes s).outer with - | os
            · exact resFrame_id st
            · first
              | dsimp only
              | skip
              have hrec := resFrame_lookupRecursive fuel st os proxy df oe hn hdbg
              cases hres : lookupRecursive fuel st os proxy df oe with
              | mk o st1 =>
                rw [hres] at hrec
                first
                | dsimp only
                | skip
                rcases o with - | v
                · exact hrec
                · first
                  | dsimp only
                  | skip
                  have F2 : ResFrame n0 st1 (if ((st.scopes s).isFunctionScope &&
                      !(st1.vars v).isDynamic) = true then
                        updVar st1 v (fun va => { va with forceCtx := true }) else st1) := by
                    split
                    · exact resFrame_updVar st1 v (fun va => { va with forceCtx := true })
                        (fun x => ⟨rfl, rfl, rfl, rfl, rfl⟩)
                    · exact resFrame_id st1
                  have F12 : ResFrame n0 st (if ((st.scopes s).isFunctionScope &&
                      !(st1.vars v).isDynamic) = true then
                        updVar st1 v (fun va => { va with forceCtx := true }) else st1) :=
                    hrec.trans F2
                  set st2 := if ((st.scopes s).isFunctionScope &&
                      !(st1.vars v).isDynamic) = true then
                        updVar st1 v (fun va => { va with forceCtx := true }) else st1 with hst2
                  have hmap2 : ∀ v0, vmLookup ((st2.scopes s).varMap)
                      ((st.proxies proxy).pname) = some v0 → n0 ≤ v0 := by
                    intro v0 h0
                    rcases F12.mapNew s _ v0 h0 with h1 | h1
                    · exact Option.noConfusion (hlk2.symm.trans h1)
                    · exact h1
                  split
                  · exact F12
                  · split
                    · have F3 : ResFrame n0 st2 (if (!(st2.vars v).isDynamic &&
                          (st2.vars v).isUnallocated) = true then
                            (if (st.proxies proxy).isAssigned = true then
                              updVar (updVar st2 v (fun va =>
                                { va with isUsed := true, forceCtx := true })) v
                                (fun va => { va with maybeAssigned := true })
                             else updVar st2 v (fun va =>
                                { va with isUsed := true, forceCtx := true }))
                          else st2) := by
                        split
                        · split
                          · exact (resFrame_updVar st2 v (fun va =>
                              { va with isUsed := true, forceCtx := true })
                              (fun x => ⟨rfl, rfl, rfl, rfl, rfl⟩)).trans
                              (resFrame_updVar _ v (fun va =>
                                { va with maybeAssigned := true })
                                (fun x => ⟨rfl, rfl, rfl, rfl, rfl⟩))
                          · exact resFrame_updVar st2 v (fun va =>
                              { va with isUsed := true, forceCtx := true })
                              (fun x => ⟨rfl, rfl, rfl, rfl, rfl⟩)
                        · exact resFrame_id st2
                      have F123 := F12.trans F3
                      set st3 := if (!(st2.vars v).isDynamic &&
                          (st2.vars v).isUnallocated) = true then
                            (if (st.proxies proxy).isAssigned = true then
                              updVar (updVar st2 v (fun va =>
                                { va with isUsed := true, forceCtx := true })) v
                                (fun va => { va with maybeAssigned := true })
                             else updVar st2 v (fun va =>
                                { va with isUsed := true, forceCtx := true }))
                          else st2 with hst3
                      refine F123.trans (resFrame_nonLocal st3 s _ _ ?_ ?_)
                      · exact Nat.le_trans hn F123.mono
                      · intro v0 h0
                        rcases F3.mapNew s _ v0 h0 with h1 | h1
                        · exact hmap2 v0 h1
                        · exact h1
                    · split
                      · split
                        · refine F12.trans (resFrame_nonLocal st2 s _ _ ?_ hmap2)
                          exact Nat.le_trans hn F12.mono
                        · split
                          · exact F12
                          · first
                            | dsimp only
                            | skip
                            have F4 : ResFrame n0 st2 (nonLocal st2 s
                                ((st.proxies proxy).pname) .DYNAMIC_LOCAL).2 :=
                              resFrame_nonLocal st2 s _ _
                                (Nat.le_trans hn F12.mono) hmap2
                            exact (F12.trans F4).trans
                              (resFrame_updVar _ _ (fun va =>
                                { va with localIfNotShadowed := some v })
                                (fun x => ⟨rfl, rfl, rfl, rfl, rfl⟩))
                      · exact F12
        · first
          | dsimp only
          | skip
          split
          · exact resFrame_nonLocal st s _ _ hn
              (fun v0 h0 => Option.noConfusion (hlk2.symm.trans h0))
          · exact resFrame_id st
      · rw [if_neg hfun]
        first
        | dsimp only
        | skip
        by_cases hoe : (st.scopes s).outer = oe
        · rw [if_pos hoe]
          cases df with
          | false => exact resFrame_id st
          | true =>
            first
            | dsimp only
            | skip
            exact resFrame_declareDynamicGlobal st s _ hn
        · rw [if_neg hoe]
          rcases hou : (st.scopes s).outer with - | os
          · exact resFrame_id st
          · first
            | dsimp only
            | skip
            have hrec := resFrame_lookupRecursive fuel st os proxy df oe hn hdbg
            cases hres : lookupRecursive fuel st os proxy df oe with
            | mk o st1 =>
              rw [hres] at hrec
              first
              | dsimp only
              | skip
              rcases o with - | v
              · exact hrec
              · first
                | dsimp only
                | skip
                have F2 : ResFrame n0 st1 (if ((st.scopes s).isFunctionScope &&
                    !(st1.vars v).isDynamic) = true then
                      updVar st1 v (fun va => { va with forceCtx := true }) else st1) := by
                  split
                  · exact resFrame_updVar st1 v (fun va => { va with forceCtx := true })
                      (fun x => ⟨rfl, rfl, rfl, rfl, rfl⟩)
                  · exact resFrame_id st1
                have F12 : ResFrame n0 st (if ((st.scopes s).isFunctionScope &&
                    !(st1.vars v).isDynamic) = true then
                      updVar st1 v (fun va => { va with forceCtx := true }) else st1) :=
                  hrec.trans F2
                set st2 := if ((st.scopes s).isFunctionScope &&
                    !(st1.vars v).isDynamic) = true then
                      updVar st1 v (fun va => { va with forceCtx := true }) else st1 with hst2
                have hmap2 : ∀ v0, vmLookup ((st2.scopes s).varMap)
                    ((st.proxies proxy).pname) = some v0 → n0 ≤ v0 := by
                  intro v0 h0
                  rcases F12.mapNew s _ v0 h0 with h1 | h1
                  · exact Option.noConfusion (hlk2.symm.trans h1)
                  · exact h1
                split
                · exact F12
                · split
                  · have F3 : ResFrame n0 st2 (if (!(st2.vars v).isDynamic &&
                        (st2.vars v).isUnallocated) = true then
                          (if (st.proxies proxy).isAssigned = true then
                            updVar (updVar st2 v (fun va =>
                              { va with isUsed := true, forceCtx := true })) v
                              (fun va => { va with maybeAssigned := true })
                           else updVar st2 v (fun va =>
                              { va with isUsed := true, forceCtx := true }))
                        else st2) := by
                      split
                      · split
                        · exact (resFrame_updVar st2 v (fun va =>
                            { va with isUsed := true, forceCtx := true })
                            (fun x => ⟨rfl, rfl, rfl, rfl, rfl⟩)).trans
                            (resFrame_updVar _ v (fun va =>
                              { va with maybeAssigned := true })
                              (fun x => ⟨rfl, rfl, rfl, rfl, rfl⟩))
                        · exact resFrame_updVar st2 v (fun va =>
                            { va with isUsed := true, forceCtx := true })
                            (fun x => ⟨rfl, rfl, rfl, rfl, rfl⟩)
                      · exact resFrame_id st2
                    have F123 := F12.trans F3
                    set st3 := if (!(st2.vars v).isDynamic &&
                        (st2.vars v).isUnallocated) = true then
                          (if (st.proxies proxy).isAssigned = true then
                            updVar (updVar st2 v (fun va =>
                              { va with isUsed := true, forceCtx := true })) v
                              (fun va => { va with maybeAssigned := true })
                           else updVar st2 v (fun va =>
                              { va with isUsed := true, forceCtx := true }))
                        else st2 with hst3
                    refine F123.trans (resFrame_nonLocal st3 s _ _ ?_ ?_)
                    · exact Nat.le_trans hn F123.mono
                    · intro v0 h0
                      rcases F3.mapNew s _ v0 h0 with h1 | h1
                      · exact hmap2 v0 h1
                      · exact h1
                  · split
                    · split
                      · refine F12.trans (resFrame_nonLocal st2 s _ _ ?_ hmap2)
                        exact Nat.le_trans hn F12.mono
                      · split
                        · exact F12
                        · first
                          | dsimp only
                          | skip
                          have F4 : ResFrame n0 st2 (nonLocal st2 s
                              ((st.proxies proxy).pname) .DYNAMIC_LOCAL).2 :=
                            resFrame_nonLocal st2 s _ _
                              (Nat.le_trans hn F12.mono) hmap2
                          exact (F12.trans F4).trans
                            (resFrame_updVar _ _ (fun va =>
                              { va with localIfNotShadowed := some v })
                              (fun x => ⟨rfl, rfl, rfl, rfl, rfl⟩))
                    · exact F12
    · exact resFrame_id st

theorem resFrame_resolveTo {n0 : Nat} (st : AState) (proxy v : Nat) :
    ResFrame n0 st (resolveTo st proxy v) := by
  unfold resolveTo
  dsimp only
  refine ResFrame.trans ?_ (resFrame_updProxy _ proxy _)
  split
  · exact resFrame_updVar st v (fun va => { va with maybeAssigned := true })
      (fun x => ⟨rfl, rfl, rfl, rfl, rfl⟩)
  · exact resFrame_id st

theorem resFrame_resolveVariable {n0 : Nat} (fuel : Nat) (st : AState) (s proxy : Nat)
    (hn : n0 ≤ st.nextVar) (hdbg : ∀ j, (st.scopes j).isDebugEvaluate = false) :
    ResFrame n0 st (resolveVariable fuel st s proxy) := by
  unfold resolveVariable
  split
  · exact resFrame_id st
  · have F1 := resFrame_lookupRecursive fuel st s proxy true none hn hdbg
    cases hres : lookupRecursive fuel st s proxy true none with
    | mk o st1 =>
      rw [hres] at F1
      first
      | dsimp only
      | skip
      rcases o with - | v
      · exact F1
      · first
        | dsimp only
        | skip
        exact F1.trans (resFrame_resolveTo st1 proxy v)

theorem resFrame_resolveFold {n0 : Nat} (fuel s : Nat) (L : List Nat) :
    ∀ st, n0 ≤ st.nextVar → (∀ j, (st.scopes j).isDebugEvaluate = false) →
      ResFrame n0 st (L.foldl (fun acc p => resolveVariable fuel acc s p) st) := by
  induction L with
  | nil => exact fun st hn hdbg => resFrame_id st
  | cons p L2 ih =>
    intro st hn hdbg
    rw [List.foldl_cons]
    have F1 : ResFrame n0 st (resolveVariable fuel st s p) :=
      resFrame_resolveVariable fuel st s p hn hdbg
    have hdbg1 : ∀ j, ((resolveVariable fuel st s p).scopes j).isDebugEvaluate = false := by
      intro j
      rw [resScopeEq_dbg (F1.sfr j)]
      exact hdbg j
    exact F1.trans (ih _ (Nat.le_trans hn F1.mono) hdbg1)

mutual
theorem resFrame_resolveRec {n0 : Nat} (fuel : Nat) :
    ∀ (t : STree) (st : AState), n0 ≤ st.nextVar →
      (∀ j, (st.scopes j).isDebugEvaluate = false) →
      ResFrame n0 st (resolveVariablesRecursively fuel t st)
  | .node s kids, st, hn, hdbg => by
    simp only [resolveVariablesRecursively]
    have F1 : ResFrame n0 st ((st.scopes s).unresolved.foldl
        (fun acc p => resolveVariable fuel acc s p) st) :=
      resFrame_resolveFold fuel s _ st hn hdbg
    have hdbg1 : ∀ j, (((st.scopes s).unresolved.foldl
        (fun acc p => resolveVariable fuel acc s p) st).scopes j).isDebugEvaluate = false := by
      intro j
      rw [resScopeEq_dbg (F1.sfr j)]
      exact hdbg j
    exact F1.trans (resFrame_resolveList fuel kids _ (Nat.le_trans hn F1.mono) hdbg1)
theorem resFrame_resolveList {n0 : Nat} (fuel : Nat) :
    ∀ (ts : STreeList) (st : AState), n0 ≤ st.nextVar →
      (∀ j, (st.scopes j).isDebugEvaluate = false) →
      ResFrame n0 st (resolveVariablesList fuel ts st)
  | .snil, st, hn, hdbg => resFrame_id st
  | .scons t ts, st, hn, hdbg => by
    simp only [resolveVariablesList]
    have F1 : ResFrame n0 st (resolveVariablesRecursively fuel t st) :=
      resFrame_resolveRec fuel t st hn hdbg
    have hdbg1 : ∀ j, ((resolveVariablesRecursively fuel t st).scopes j).isDebugEvaluate
        = false := by
      intro j
      rw [resScopeEq_dbg (F1.sfr j)]
      exact hdbg j
    exact F1.trans (resFrame_resolveList fuel ts _ (Nat.le_trans hn F1.mono) hdbg1)
end

theorem resFrame_propagate {n0 : Nat} (t : STree) (st : AState) :
    ResFrame n0 st (propagateScopeInfo t st) := by
  have hv := (propagate_state t st).1
  have hn := (propagate_state t st).2.2
  refine ⟨Nat.le_of_eq hn.symm, ?_, ?_, ?_⟩
  · intro w hw
    unfold resVarEq
    rw [hv]
    exact ⟨rfl, rfl, rfl, rfl, rfl⟩
  · intro j
    refine ⟨?_, ?_, ?_, ?_, ?_, ?_, ?_, ?_, ?_, ?_, ?_, ?_⟩
    · exact propagate_proj SScope.stype (fun sc => rfl) t st j
    · exact propagate_proj SScope.isDecl (fun sc => rfl) t st j
    · exact propagate_proj SScope.outer (fun sc => rfl) t st j
    · exact propagate_proj SScope.locals (fun sc => rfl) t st j
    · exact propagate_proj SScope.params (fun sc => rfl) t st j
    · exact propagate_proj SScope.receiver (fun sc => rfl) t st j
    · exact propagate_proj SScope.functionVar (fun sc => rfl) t st j
    · exact propagate_proj SScope.argumentsVar (fun sc => rfl) t st j
    · exact propagate_proj SScope.newTarget (fun sc => rfl) t st j
    · exact propagate_proj SScope.thisFunction (fun sc => rfl) t st j
    · exact propagate_proj SScope.isDebugEvaluate (fun sc => rfl) t st j
    · exact propagate_proj SScope.hasThisDecl (fun sc => rfl) t st j
  · intro j n v h
    rw [propagate_proj SScope.varMap (fun sc => rfl) t st j] at h
    exact Or.inl h

-- ## C1, amended: the allocator's per-variable guarantee
--
-- The allocation phase (everything after resolution) establishes, for every
-- variable it processes, that the variable is allocated iff it is used and
-- not a global-object property.  The reference state for the stable fields
-- (modes, scope links, the global-object test) is the post-resolution state.

/-- C1's per-variable postcondition: allocated iff used and not a
global-object property, with the global-object test evaluated at the
allocation-phase-stable reference state. -/
def ProcessedOK (stR st : AState) (v : Nat) : Prop :=
  (st.vars v).location ≠ .UNALLOCATED ↔
    ((st.vars v).isUsed = true ∧ isGlobalObjectProperty stR v = false)

/-- The condition under which Scope::MustAllocate marks the variable used
(scopes.cc:1436-1441), evaluated at a given state. -/
def mustCond (st : AState) (s v : Nat) : Bool :=
  ((st.vars v).isThisVar || !(st.vars v).nameEmpty) &&
    ((st.scopes s).innerEval || (st.scopes s).isCatchScope || (st.scopes s).isScriptScope)

/-- A variable fully processed at scope s: its allocation status matches the
used/global test, and (so that reprocessing at s is harmless) if MustAllocate
at s would mark it used, it already is. -/
def DoneOK (stR : AState) (s : Nat) (st : AState) (v : Nat) : Prop :=
  ProcessedOK stR st v ∧ (mustCond stR s v = true → (st.vars v).isUsed = true)

/-- A variable either not yet touched by the allocator or fully processed. -/
def PendOK (stR : AState) (s : Nat) (st : AState) (v : Nat) : Prop :=
  (st.vars v).location = .UNALLOCATED ∨ DoneOK stR s st v

theorem AllocPres.kind_eq {st0 st : AState} (h : AllocPres st0 st) (v : Nat) :
    (st.vars v).kind = (st0.vars v).kind :=
  congrArg VarCore.kind (h.vcore v)

theorem AllocPres.nameEmpty_eq {st0 st : AState} (h : AllocPres st0 st) (v : Nat) :
    (st.vars v).nameEmpty = (st0.vars v).nameEmpty :=
  congrArg VarCore.nameEmpty (h.vcore v)

theorem AllocPres.innerEval_eq {st0 st : AState} (h : AllocPres st0 st) (j : Nat) :
    (st.scopes j).innerEval = (st0.scopes j).innerEval :=
  congrArg ScopeCore.innerEval (h.score j)

theorem AllocPres.isDecl_eq {st0 st : AState} (h : AllocPres st0 st) (j : Nat) :
    (st.scopes j).isDecl = (st0.scopes j).isDecl :=
  congrArg ScopeCore.isDecl (h.score j)

theorem AllocPres.outer_eq {st0 st : AState} (h : AllocPres st0 st) (j : Nat) :
    (st.scopes j).outer = (st0.scopes j).outer :=
  congrArg ScopeCore.outer (h.score j)

theorem AllocPres.hasThisDecl_eq {st0 st : AState} (h : AllocPres st0 st) (j : Nat) :
    (st.scopes j).hasThisDecl = (st0.scopes j).hasThisDecl :=
  congrArg ScopeCore.hasThisDecl (h.score j)

theorem globalProp_stable {a b : AState} (h : AllocPres a b) (v : Nat) :
    isGlobalObjectProperty b v = isGlobalObjectProperty a v := by
  unfold isGlobalObjectProperty
  dsimp only
  rw [AllocPres.mode_eq h v, AllocPres.scope_eq h v]
  cases hx : (a.vars v).scope with
  | none => rfl
  | some s2 =>
    first | dsimp only | skip
    unfold SScope.isScriptScope
    rw [AllocPres.stype_eq h s2]

theorem mustCond_stable {a b : AState} (h : AllocPres a b) (s v : Nat) :
    mustCond b s v = mustCond a s v := by
  unfold mustCond Var.isThisVar SScope.isCatchScope SScope.isScriptScope
  rw [AllocPres.kind_eq h v, AllocPres.nameEmpty_eq h v, AllocPres.innerEval_eq h s,
    AllocPres.stype_eq h s]

theorem mustAllocate_vars_other (st : AState) (s v w : Nat) (hw : w ≠ v) :
    ((mustAllocate st s v).2).vars w = st.vars w := by
  unfold mustAllocate
  dsimp only
  split
  · split
    · simp [hw]
    · simp [hw]
  · rfl

theorem mustAllocate_used_v (st : AState) (s v : Nat) :
    (((mustAllocate st s v).2).vars v).isUsed = ((st.vars v).isUsed || mustCond st s v) := by
  unfold mustAllocate mustCond
  dsimp only
  split
  · rename_i hc
    rw [hc, Bool.or_true]
    split
    · simp
    · simp
  · rename_i hc
    rw [Bool.eq_false_iff.mpr hc, Bool.or_false]

theorem mustAllocate_m (st : AState) (s v : Nat) :
    (mustAllocate st s v).1 =
      (!(isGlobalObjectProperty (mustAllocate st s v).2 v) &&
        ((mustAllocate st s v).2.vars v).isUsed) := rfl

theorem allocateTo_used (st : AState) (v : Nat) (loc : VariableLocation) (idx : Int)
    (a : Option Nat) (w : Nat) :
    ((allocateTo st v loc idx a).vars w).isUsed = (st.vars w).isUsed := by
  unfold allocateTo
  rw [updVar_vars]
  by_cases hw : w = v <;> simp [hw]

theorem getDeclarationScope_congr (st st2 : AState)
    (h : ∀ j, (st2.scopes j).stype = (st.scopes j).stype ∧
      (st2.scopes j).isDecl = (st.scopes j).isDecl ∧
      (st2.scopes j).outer = (st.scopes j).outer) :
    ∀ (fuel s : Nat), getDeclarationScope fuel st2 s = getDeclarationScope fuel st s := by
  intro fuel
  induction fuel with
  | zero => intro s; rfl
  | succ n ih =>
    intro s
    unfold getDeclarationScope
    rw [(h s).2.1, (h s).2.2]
    split
    · rfl
    · cases hx : (st.scopes s).outer with
      | none => rfl
      | some o =>
        first | dsimp only | skip
        exact ih o

theorem closureTargetForStack_congr (st st2 : AState)
    (h : ∀ j, (st2.scopes j).stype = (st.scopes j).stype ∧
      (st2.scopes j).isDecl = (st.scopes j).isDecl ∧
      (st2.scopes j).outer = (st.scopes j).outer) :
    ∀ (fuel s : Nat), closureTargetForStack fuel st2 s = closureTargetForStack fuel st s := by
  intro fuel
  induction fuel with
  | zero => intro s; rfl
  | succ n ih =>
    intro s
    unfold closureTargetForStack SScope.isBlockScope
    rw [(h s).1, (h s).2.2]
    split
    · cases hx : (st.scopes s).outer with
      | none => rfl
      | some o =>
        first | dsimp only | skip
        rw [getDeclarationScope_congr st st2 h n o]
        cases hy : getDeclarationScope n st o with
        | none => rfl
        | some d =>
          first | dsimp only | skip
          exact ih d
    · rfl

theorem allocPres_triple {st0 st : AState} (h : AllocPres st0 st) :
    ∀ j, (st.scopes j).stype = (st0.scopes j).stype ∧
      (st.scopes j).isDecl = (st0.scopes j).isDecl ∧
      (st.scopes j).outer = (st0.scopes j).outer :=
  fun j => ⟨AllocPres.stype_eq h j, AllocPres.isDecl_eq h j, AllocPres.outer_eq h j⟩

/-- All the variable slots of a scope the allocator reads during its visit
(scopes.cc:1478-1588): the non-parameter locals, the parameters, the
receiver, the function variable, the arguments variable, new.target and
this-function. -/
def ownedExt (st : AState) (s v : Nat) : Prop :=
  v ∈ (st.scopes s).locals ∨ v ∈ (st.scopes s).params ∨
  (st.scopes s).receiver = some v ∨ (st.scopes s).functionVar = some v ∨
  (st.scopes s).argumentsVar = some v ∨ (st.scopes s).newTarget = some v ∨
  (st.scopes s).thisFunction = some v

/-- The slots that are unconditionally run through the allocation decision
during the visit of s: locals always (scopes.cc:1559-1567); parameters when
s is a function declaration scope (1615-1623); the receiver when s declared
`this` (1541-1546); the function variable of a declaration scope
(1569-1574). -/
def estOwned (st : AState) (s v : Nat) : Prop :=
  v ∈ (st.scopes s).locals ∨
  ((st.scopes s).isDecl = true ∧ (st.scopes s).isFunctionScope = true ∧
    v ∈ (st.scopes s).params) ∨
  ((st.scopes s).isDecl = true ∧ (st.scopes s).hasThisDecl = true ∧
    (st.scopes s).receiver = some v) ∨
  ((st.scopes s).isDecl = true ∧ (st.scopes s).functionVar = some v)

theorem estOwned_ownedExt {st : AState} {s v : Nat} (h : estOwned st s v) :
    ownedExt st s v := by
  rcases h with h | h | h | h
  · exact Or.inl h
  · exact Or.inr (Or.inl h.2.2)
  · exact Or.inr (Or.inr (Or.inl h.2.2))
  · exact Or.inr (Or.inr (Or.inr (Or.inl h.2)))

/-- Invariant of the allocation phase relative to the post-resolution state:
the frozen cores are preserved, used variables stay used, and the three
nullable declaration-scope slots only shrink (they are nulled when unused,
scopes.cc:1497, 1578-1586). -/
structure AllocInv (stR st : AState) : Prop where
  pres : AllocPres stR st
  argS : ∀ j, (st.scopes j).argumentsVar = (stR.scopes j).argumentsVar ∨
    (st.scopes j).argumentsVar = none
  ntS : ∀ j, (st.scopes j).newTarget = (stR.scopes j).newTarget ∨
    (st.scopes j).newTarget = none
  tfS : ∀ j, (st.scopes j).thisFunction = (stR.scopes j).thisFunction ∨
    (st.scopes j).thisFunction = none

theorem allocInv_refl (st : AState) : AllocInv st st :=
  ⟨AllocPres.rfl st, fun _ => Or.inl (Eq.refl _), fun _ => Or.inl (Eq.refl _),
   fun _ => Or.inl (Eq.refl _)⟩

/-- What one step of the visit of scope s guarantees: the invariant is kept,
only variables the scope owns are written, and the processing status of
every variable is preserved. -/
def VStep (stR : AState) (s : Nat) (st st2 : AState) : Prop :=
  AllocInv stR st2 ∧
  (∀ w, ¬ ownedExt stR s w → st2.vars w = st.vars w) ∧
  (∀ v, DoneOK stR s st v → DoneOK stR s st2 v) ∧
  (∀ v, PendOK stR s st v → PendOK stR s st2 v)

theorem vstep_refl {stR : AState} {s : Nat} {st : AState} (h : AllocInv stR st) :
    VStep stR s st st :=
  ⟨h, fun _ _ => Eq.refl _, fun _ hv => hv, fun _ hv => hv⟩

theorem vstep_trans {stR : AState} {s : Nat} {st1 st2 st3 : AState}
    (a : VStep stR s st1 st2) (b : VStep stR s st2 st3) : VStep stR s st1 st3 :=
  ⟨b.1, fun w hw => (b.2.1 w hw).trans (a.2.1 w hw),
   fun v hv => b.2.2.1 v (a.2.2.1 v hv), fun v hv => b.2.2.2 v (a.2.2.2 v hv)⟩

theorem doneOK_of_eqs {stR : AState} {s : Nat} {st st2 : AState} {v : Nat}
    (hl : (st2.vars v).location = (st.vars v).location)
    (hu : (st2.vars v).isUsed = (st.vars v).isUsed)
    (h : DoneOK stR s st v) : DoneOK stR s st2 v := by
  unfold DoneOK ProcessedOK at h ⊢
  rw [hl, hu]
  exact h

theorem pendOK_of_eqs {stR : AState} {s : Nat} {st st2 : AState} {v : Nat}
    (hl : (st2.vars v).location = (st.vars v).location)
    (hu : (st2.vars v).isUsed = (st.vars v).isUsed)
    (h : PendOK stR s st v) : PendOK stR s st2 v := by
  rcases h with h | h
  · exact Or.inl (hl.trans h)
  · exact Or.inr (doneOK_of_eqs hl hu h)

theorem pendOK_done {stR st : AState} {s v : Nat} (hpre : PendOK stR s st v)
    (hl : (st.vars v).location ≠ .UNALLOCATED) : DoneOK stR s st v := by
  rcases hpre with h | h
  · exact absurd h hl
  · exact h

theorem doneOK_of_allocated {stR : AState} {s : Nat} {st : AState} {v : Nat}
    (hl : (st.vars v).location ≠ .UNALLOCATED)
    (hu : (st.vars v).isUsed = true)
    (hg : isGlobalObjectProperty stR v = false) : DoneOK stR s st v := by
  unfold DoneOK ProcessedOK
  exact ⟨⟨fun _ => ⟨hu, hg⟩, fun _ => hl⟩, fun _ => hu⟩

theorem doneOK_mustAllocate {stR st : AState} (h : AllocPres stR st) (s v w : Nat)
    (hd : DoneOK stR s st v) : DoneOK stR s (mustAllocate st s w).2 v := by
  by_cases hw : v = w
  · subst hw
    have hloc := mustAllocate_loc st s v v
    have hused := mustAllocate_used_v st s v
    have hmc := mustCond_stable h s v
    constructor
    · unfold ProcessedOK
      rw [hloc, hused, hmc]
      cases hc : mustCond stR s v
      · rw [Bool.or_false]
        exact hd.1
      · rw [Bool.or_true]
        have h1 := hd.1
        unfold ProcessedOK at h1
        rw [hd.2 hc] at h1
        exact h1
    · intro hmcR
      rw [hused, hmc, hmcR, Bool.or_true]
  · have he := mustAllocate_vars_other st s w v hw
    exact doneOK_of_eqs (by rw [he]) (by rw [he]) hd

theorem pendOK_mustAllocate {stR st : AState} (h : AllocPres stR st) (s v w : Nat)
    (hd : PendOK stR s st v) : PendOK stR s (mustAllocate st s w).2 v := by
  rcases hd with hd | hd
  · exact Or.inl ((mustAllocate_loc st s w v).trans hd)
  · exact Or.inr (doneOK_mustAllocate h s v w hd)

theorem updScope_proj {A : Type} (st : AState) (i : Nat) (f : SScope → SScope)
    (g : SScope → A) (hf : ∀ sc, g (f sc) = g sc) (j : Nat) :
    g ((updScope st i f).scopes j) = g (st.scopes j) := by
  rw [updScope_scopes]
  by_cases hj : j = i
  · rw [if_pos hj]
    exact hf _
  · rw [if_neg hj]

theorem mem_enumFrom_of_mem {A : Type} :
    ∀ (L : List A) (k : Nat) (a : A), a ∈ L → ∃ i, (i, a) ∈ L.enumFrom k := by
  intro L
  induction L with
  | nil =>
    intro k a ha
    simp at ha
  | cons b L2 ih =>
    intro k a ha
    rcases List.mem_cons.mp ha with h1 | h1
    · refine ⟨k, ?_⟩
      rw [List.enumFrom, h1]
      exact List.mem_cons_self _ _
    · obtain ⟨i, hi⟩ := ih (k + 1) a h1
      refine ⟨i, ?_⟩
      rw [List.enumFrom]
      exact List.mem_cons_of_mem _ hi

theorem mem_enum_of_mem {A : Type} (L : List A) (a : A) (ha : a ∈ L) :
    ∃ i, (i, a) ∈ L.enum :=
  mem_enumFrom_of_mem L 0 a ha

theorem doneOK_notMust {stR st1 : AState} (hp1 : AllocPres stR st1) {s v : Nat}
    (hpre : PendOK stR s st1 v)
    (hsec : mustCond stR s v = true → (st1.vars v).isUsed = true)
    (hm2 : (!(isGlobalObjectProperty st1 v) && (st1.vars v).isUsed) = false) :
    DoneOK stR s st1 v := by
  rcases hpre with hun | hd
  · refine ⟨?_, hsec⟩
    unfold ProcessedOK
    constructor
    · intro hl
      exact absurd hun hl
    · rintro ⟨hu2, hg2⟩
      exfalso
      rw [hu2, Bool.and_true] at hm2
      cases hgx : isGlobalObjectProperty st1 v
      · rw [hgx] at hm2
        simp at hm2
      · have h3 := (globalProp_stable hp1 v).symm.trans hgx
        rw [hg2] at h3
        exact Bool.false_ne_true h3
  · exact hd

theorem doneOK_must {stR st1 st2 : AState} (hp1 : AllocPres stR st1) {s v : Nat}
    (hm1 : (!(isGlobalObjectProperty st1 v) && (st1.vars v).isUsed) = true)
    (hl2 : (st2.vars v).location ≠ .UNALLOCATED)
    (hu2 : (st2.vars v).isUsed = (st1.vars v).isUsed) :
    DoneOK stR s st2 v := by
  rw [Bool.and_eq_true] at hm1
  obtain ⟨hg, hu⟩ := hm1
  refine doneOK_of_allocated hl2 (hu2.trans hu) ?_
  rw [← globalProp_stable hp1 v]
  cases hgx : isGlobalObjectProperty st1 v
  · rfl
  · rw [hgx] at hg
    simp at hg

theorem doneOK_allocateParameter {stR st : AState} (h : AllocPres stR st) (s v : Nat)
    (idx : Int) (hpre : PendOK stR s st v) :
    DoneOK stR s (allocateParameter st s v idx) v := by
  have hp1 : AllocPres stR (mustAllocate st s v).2 := allocPres_mustAllocate h s v
  have hd1 : PendOK stR s (mustAllocate st s v).2 v := pendOK_mustAllocate h s v v hpre
  have hsec : mustCond stR s v = true → (((mustAllocate st s v).2).vars v).isUsed = true := by
    intro hmc
    rw [mustAllocate_used_v, mustCond_stable h s v, hmc, Bool.or_true]
  unfold allocateParameter
  first | dsimp only | skip
  split
  · rename_i hmb
    have hm1 : (!(isGlobalObjectProperty (mustAllocate st s v).2 v) &&
        (((mustAllocate st s v).2).vars v).isUsed) = true := by
      rw [← mustAllocate_m]
      exact hmb
    split
    · split
      · refine doneOK_must hp1 hm1 ?_ ?_
        · unfold allocateHeapSlot
          rw [updScope_vars, allocateTo_loc, if_pos rfl]
          decide
        · unfold allocateHeapSlot
          rw [updScope_vars, allocateTo_used]
      · rename_i hniu
        refine pendOK_done hd1 ?_
        simp [Var.isUnallocated] at hniu
        exact hniu
    · split
      · refine doneOK_must hp1 hm1 ?_ ?_
        · rw [allocateTo_loc, if_pos rfl]
          decide
        · rw [allocateTo_used]
      · rename_i hniu
        refine pendOK_done hd1 ?_
        simp [Var.isUnallocated] at hniu
        exact hniu
  · rename_i hmb
    refine doneOK_notMust hp1 hd1 hsec ?_
    rw [← mustAllocate_m]
    exact Bool.eq_false_iff.mpr hmb

theorem allocateParameter_vars_other (st : AState) (s v : Nat) (idx : Int) (w : Nat)
    (hw : w ≠ v) : (allocateParameter st s v idx).vars w = st.vars w := by
  have h1 := mustAllocate_vars_other st s v w hw
  unfold allocateParameter
  first | dsimp only | skip
  split
  · split
    · split
      · unfold allocateHeapSlot
        rw [updScope_vars, allocateTo_vars_ne _ _ _ _ _ w hw]
        exact h1
      · exact h1
    · split
      · rw [allocateTo_vars_ne _ _ _ _ _ w hw]
        exact h1
      · exact h1
  · exact h1

theorem allocateParameter_scopes_proj {A : Type} (g : SScope → A)
    (hg : ∀ sc, g { sc with numHeap := sc.numHeap + 1 } = g sc)
    (st : AState) (s v : Nat) (idx : Int) (j : Nat) :
    g ((allocateParameter st s v idx).scopes j) = g (st.scopes j) := by
  have h1 : ((mustAllocate st s v).2).scopes = st.scopes := mustAllocate_scopes st s v
  unfold allocateParameter
  first | dsimp only | skip
  split
  · split
    · split
      · unfold allocateHeapSlot
        rw [updScope_proj _ _ _ g hg j, allocateTo_scopes, h1]
      · rw [h1]
    · split
      · rw [allocateTo_scopes, h1]
      · rw [h1]
  · rw [h1]

theorem vstep_mustAllocate {stR st : AState} (h : AllocInv stR st) (s w : Nat)
    (hw : ownedExt stR s w) : VStep stR s st (mustAllocate st s w).2 := by
  refine ⟨⟨allocPres_mustAllocate h.pres s w, ?_, ?_, ?_⟩, ?_, ?_, ?_⟩
  · intro j
    rw [mustAllocate_scopes]
    exact h.argS j
  · intro j
    rw [mustAllocate_scopes]
    exact h.ntS j
  · intro j
    rw [mustAllocate_scopes]
    exact h.tfS j
  · intro u hu
    exact mustAllocate_vars_other st s w u (fun he => hu (by rw [he]; exact hw))
  · intro u hu
    exact doneOK_mustAllocate h.pres s u w hu
  · intro u hu
    exact pendOK_mustAllocate h.pres s u w hu

theorem vstep_allocateParameter {stR st : AState} (h : AllocInv stR st) (s v : Nat)
    (idx : Int) (hv : ownedExt stR s v) : VStep stR s st (allocateParameter st s v idx) := by
  have hfr : ∀ w, w ≠ v → (allocateParameter st s v idx).vars w = st.vars w :=
    fun w hw => allocateParameter_vars_other st s v idx w hw
  refine ⟨⟨allocPres_allocateParameter h.pres s v idx, ?_, ?_, ?_⟩, ?_, ?_, ?_⟩
  · intro j
    rw [allocateParameter_scopes_proj SScope.argumentsVar (fun sc => Eq.refl _) st s v idx j]
    exact h.argS j
  · intro j
    rw [allocateParameter_scopes_proj SScope.newTarget (fun sc => Eq.refl _) st s v idx j]
    exact h.ntS j
  · intro j
    rw [allocateParameter_scopes_proj SScope.thisFunction (fun sc => Eq.refl _) st s v idx j]
    exact h.tfS j
  · intro w hw
    exact hfr w (fun he => hw (by rw [he]; exact hv))
  · intro u hu
    by_cases huv : u = v
    · subst huv
      exact doneOK_allocateParameter h.pres s u idx (Or.inr hu)
    · exact doneOK_of_eqs (by rw [hfr u huv]) (by rw [hfr u huv]) hu
  · intro u hu
    by_cases huv : u = v
    · subst huv
      exact Or.inr (doneOK_allocateParameter h.pres s u idx hu)
    · exact pendOK_of_eqs (by rw [hfr u huv]) (by rw [hfr u huv]) hu

theorem doneOK_allocateNonParameterLocal {stR st : AState} (h : AllocPres stR st)
    (fuel s v : Nat) (hstk : (closureTargetForStack fuel stR s).isSome = true)
    (hpre : PendOK stR s st v) :
    DoneOK stR s (allocateNonParameterLocal fuel st s v) v := by
  have hp1 : AllocPres stR (mustAllocate st s v).2 := allocPres_mustAllocate h s v
  have hd1 : PendOK stR s (mustAllocate st s v).2 v := pendOK_mustAllocate h s v v hpre
  have hsec : mustCond stR s v = true → (((mustAllocate st s v).2).vars v).isUsed = true := by
    intro hmc
    rw [mustAllocate_used_v, mustCond_stable h s v, hmc, Bool.or_true]
  unfold allocateNonParameterLocal
  split
  · first | dsimp only | skip
    split
    · rename_i hmb
      have hm1 : (!(isGlobalObjectProperty (mustAllocate st s v).2 v) &&
          (((mustAllocate st s v).2).vars v).isUsed) = true := by
        rw [← mustAllocate_m]
        exact hmb
      split
      · refine doneOK_must hp1 hm1 ?_ ?_
        · unfold allocateHeapSlot
          rw [updScope_vars, allocateTo_loc, if_pos rfl]
          decide
        · unfold allocateHeapSlot
          rw [updScope_vars, allocateTo_used]
      · have hcg : closureTargetForStack fuel (mustAllocate st s v).2 s =
            closureTargetForStack fuel stR s :=
          closureTargetForStack_congr stR (mustAllocate st s v).2 (allocPres_triple hp1) fuel s
        obtain ⟨d, hd⟩ := Option.isSome_iff_exists.mp hstk
        unfold allocateStackSlot
        rw [hcg, hd]
        first | dsimp only | skip
        refine doneOK_must hp1 hm1 ?_ ?_
        · rw [updScope_vars, allocateTo_loc, if_pos rfl]
          decide
        · rw [updScope_vars, allocateTo_used]
    · rename_i hmb
      refine doneOK_notMust hp1 hd1 hsec ?_
      rw [← mustAllocate_m]
      exact Bool.eq_false_iff.mpr hmb
  · rename_i hniu
    refine pendOK_done hpre ?_
    simp [Var.isUnallocated] at hniu
    exact hniu

theorem allocateNonParameterLocal_vars_other (st : AState) (fuel s v w : Nat)
    (hw : w ≠ v) : (allocateNonParameterLocal fuel st s v).vars w = st.vars w := by
  have h1 := mustAllocate_vars_other st s v w hw
  unfold allocateNonParameterLocal
  split
  · first | dsimp only | skip
    split
    · split
      · unfold allocateHeapSlot
        rw [updScope_vars, allocateTo_vars_ne _ _ _ _ _ w hw]
        exact h1
      · unfold allocateStackSlot
        split
        · exact h1
        · rw [updScope_vars, allocateTo_vars_ne _ _ _ _ _ w hw]
          exact h1
    · exact h1
  · rfl

theorem allocateNonParameterLocal_scopes_proj {A : Type} (g : SScope → A)
    (hgh : ∀ sc, g { sc with numHeap := sc.numHeap + 1 } = g sc)
    (hgs : ∀ sc, g { sc with numStack := sc.numStack + 1 } = g sc)
    (st : AState) (fuel s v : Nat) (j : Nat) :
    g ((allocateNonParameterLocal fuel st s v).scopes j) = g (st.scopes j) := by
  have h1 : ((mustAllocate st s v).2).scopes = st.scopes := mustAllocate_scopes st s v
  unfold allocateNonParameterLocal
  split
  · first | dsimp only | skip
    split
    · split
      · unfold allocateHeapSlot
        rw [updScope_proj _ _ _ g hgh j, allocateTo_scopes, h1]
      · unfold allocateStackSlot
        split
        · rw [h1]
        · rw [updScope_proj _ _ _ g hgs j, allocateTo_scopes, h1]
    · rw [h1]
  · rfl

theorem vstep_allocateNonParameterLocal {stR st : AState} (h : AllocInv stR st)
    (fuel s v : Nat) (hstk : (closureTargetForStack fuel stR s).isSome = true)
    (hv : ownedExt stR s v) : VStep stR s st (allocateNonParameterLocal fuel st s v) := by
  have hfr : ∀ w, w ≠ v → (allocateNonParameterLocal fuel st s v).vars w = st.vars w :=
    fun w hw => allocateNonParameterLocal_vars_other st fuel s v w hw
  refine ⟨⟨allocPres_allocateNonParameterLocal h.pres fuel s v, ?_, ?_, ?_⟩, ?_, ?_, ?_⟩
  · intro j
    rw [allocateNonParameterLocal_scopes_proj SScope.argumentsVar (fun sc => Eq.refl _)
      (fun sc => Eq.refl _) st fuel s v j]
    exact h.argS j
  · intro j
    rw [allocateNonParameterLocal_scopes_proj SScope.newTarget (fun sc => Eq.refl _)
      (fun sc => Eq.refl _) st fuel s v j]
    exact h.ntS j
  · intro j
    rw [allocateNonParameterLocal_scopes_proj SScope.thisFunction (fun sc => Eq.refl _)
      (fun sc => Eq.refl _) st fuel s v j]
    exact h.tfS j
  · intro w hw
    exact hfr w (fun he => hw (by rw [he]; exact hv))
  · intro u hu
    by_cases huv : u = v
    · subst huv
      exact doneOK_allocateNonParameterLocal h.pres fuel s u hstk (Or.inr hu)
    · exact doneOK_of_eqs (by rw [hfr u huv]) (by rw [hfr u huv]) hu
  · intro u hu
    by_cases huv : u = v
    · subst huv
      exact Or.inr (doneOK_allocateNonParameterLocal h.pres fuel s u hstk hu)
    · exact pendOK_of_eqs (by rw [hfr u huv]) (by rw [hfr u huv]) hu

theorem vstep_updScopeKeep {stR st : AState} (h : AllocInv stR st) (s i : Nat)
    (f : SScope → SScope) (hc : ∀ sc, scopeCore (f sc) = scopeCore sc)
    (ha : ∀ sc, (f sc).argumentsVar = sc.argumentsVar)
    (hn : ∀ sc, (f sc).newTarget = sc.newTarget)
    (ht : ∀ sc, (f sc).thisFunction = sc.thisFunction) :
    VStep stR s st (updScope st i f) := by
  refine ⟨⟨allocPres_updScope h.pres hc, ?_, ?_, ?_⟩, fun w hw => Eq.refl _,
    fun u hu => doneOK_of_eqs (Eq.refl _) (Eq.refl _) hu,
    fun u hu => pendOK_of_eqs (Eq.refl _) (Eq.refl _) hu⟩
  · intro j
    rw [updScope_proj st i f SScope.argumentsVar ha j]
    exact h.argS j
  · intro j
    rw [updScope_proj st i f SScope.newTarget hn j]
    exact h.ntS j
  · intro j
    rw [updScope_proj st i f SScope.thisFunction ht j]
    exact h.tfS j

theorem vstep_nullArg {stR st : AState} (h : AllocInv stR st) (s i : Nat) :
    VStep stR s st (updScope st i (fun sc => { sc with argumentsVar := none })) := by
  refine ⟨⟨allocPres_updScope h.pres (fun sc => Eq.refl _), ?_, ?_, ?_⟩, fun w hw => Eq.refl _,
    fun u hu => doneOK_of_eqs (Eq.refl _) (Eq.refl _) hu,
    fun u hu => pendOK_of_eqs (Eq.refl _) (Eq.refl _) hu⟩
  · intro j
    rw [updScope_scopes]
    by_cases hj : j = i
    · rw [if_pos hj]
      exact Or.inr (Eq.refl _)
    · rw [if_neg hj]
      exact h.argS j
  · intro j
    rw [updScope_proj st i (fun sc => { sc with argumentsVar := none })
      SScope.newTarget (fun sc => Eq.refl _) j]
    exact h.ntS j
  · intro j
    rw [updScope_proj st i (fun sc => { sc with argumentsVar := none })
      SScope.thisFunction (fun sc => Eq.refl _) j]
    exact h.tfS j

theorem vstep_nullNT {stR st : AState} (h : AllocInv stR st) (s i : Nat) :
    VStep stR s st (updScope st i (fun sc => { sc with newTarget := none })) := by
  refine ⟨⟨allocPres_updScope h.pres (fun sc => Eq.refl _), ?_, ?_, ?_⟩, fun w hw => Eq.refl _,
    fun u hu => doneOK_of_eqs (Eq.refl _) (Eq.refl _) hu,
    fun u hu => pendOK_of_eqs (Eq.refl _) (Eq.refl _) hu⟩
  · intro j
    rw [updScope_proj st i (fun sc => { sc with newTarget := none })
      SScope.argumentsVar (fun sc => Eq.refl _) j]
    exact h.argS j
  · intro j
    rw [updScope_scopes]
    by_cases hj : j = i
    · rw [if_pos hj]
      exact Or.inr (Eq.refl _)
    · rw [if_neg hj]
      exact h.ntS j
  · intro j
    rw [updScope_proj st i (fun sc => { sc with newTarget := none })
      SScope.thisFunction (fun sc => Eq.refl _) j]
    exact h.tfS j

theorem vstep_nullTF {stR st : AState} (h : AllocInv stR st) (s i : Nat) :
    VStep stR s st (updScope st i (fun sc => { sc with thisFunction := none })) := by
  refine ⟨⟨allocPres_updScope h.pres (fun sc => Eq.refl _), ?_, ?_, ?_⟩, fun w hw => Eq.refl _,
    fun u hu => doneOK_of_eqs (Eq.refl _) (Eq.refl _) hu,
    fun u hu => pendOK_of_eqs (Eq.refl _) (Eq.refl _) hu⟩
  · intro j
    rw [updScope_proj st i (fun sc => { sc with thisFunction := none })
      SScope.argumentsVar (fun sc => Eq.refl _) j]
    exact h.argS j
  · intro j
    rw [updScope_proj st i (fun sc => { sc with thisFunction := none })
      SScope.newTarget (fun sc => Eq.refl _) j]
    exact h.ntS j
  · intro j
    rw [updScope_scopes]
    by_cases hj : j = i
    · rw [if_pos hj]
      exact Or.inr (Eq.refl _)
    · rw [if_neg hj]
      exact h.tfS j

theorem vstep_updVar_flags {stR st : AState} (h : AllocInv stR st) (s i : Nat)
    (f : Var → Var) (hcore : ∀ x, varCore (f x) = varCore x)
    (hused : ∀ x, (f x).isUsed = x.isUsed)
    (hloc : ∀ x, (f x).location = x.location)
    (hi : ownedExt stR s i) : VStep stR s st (updVar st i f) := by
  have hlocw : ∀ w, ((updVar st i f).vars w).location = (st.vars w).location := by
    intro w
    rw [updVar_vars]
    by_cases hw : w = i
    · rw [if_pos hw]
      exact hloc _
    · rw [if_neg hw]
  have husedw : ∀ w, ((updVar st i f).vars w).isUsed = (st.vars w).isUsed := by
    intro w
    rw [updVar_vars]
    by_cases hw : w = i
    · rw [if_pos hw]
      exact hused _
    · rw [if_neg hw]
  refine ⟨⟨allocPres_updVar h.pres hcore (fun x hx => (hused x).trans hx), ?_, ?_, ?_⟩,
    ?_, fun u hu => doneOK_of_eqs (hlocw u) (husedw u) hu,
    fun u hu => pendOK_of_eqs (hlocw u) (husedw u) hu⟩
  · intro j
    rw [updVar_scopes]
    exact h.argS j
  · intro j
    rw [updVar_scopes]
    exact h.ntS j
  · intro j
    rw [updVar_scopes]
    exact h.tfS j
  · intro w hw
    rw [updVar_vars, if_neg (fun he => hw (by rw [he]; exact hi))]

theorem vstep_fold {stR : AState} {s : Nat} {A : Type} (g : AState → A → AState)
    (tgt : A → Nat) (L : List A)
    (hstep : ∀ (st : AState) (a : A), a ∈ L → AllocInv stR st →
      VStep stR s st (g st a) ∧
      (PendOK stR s st (tgt a) → DoneOK stR s (g st a) (tgt a))) :
    ∀ st : AState, AllocInv stR st →
      VStep stR s st (L.foldl g st) ∧
      (∀ a, a ∈ L → PendOK stR s st (tgt a) → DoneOK stR s (L.foldl g st) (tgt a)) := by
  induction L with
  | nil =>
    intro st h
    refine ⟨vstep_refl h, ?_⟩
    intro a ha
    simp at ha
  | cons a L2 ih =>
    intro st h
    rw [List.foldl_cons]
    have h1 := hstep st a (List.mem_cons_self a L2) h
    have h2 := ih (fun st2 b hb hinv2 => hstep st2 b (List.mem_cons_of_mem a hb) hinv2)
      (g st a) h1.1.1
    refine ⟨vstep_trans h1.1 h2.1, ?_⟩
    intro b hb hp
    rcases List.mem_cons.mp hb with hba | hbL
    · subst hba
      exact h2.1.2.2.1 (tgt b) (h1.2 hp)
    · exact h2.2 b hbL (h1.1.2.2.2 (tgt b) hp)

theorem vstep_apArgumentsDecision {stR st : AState} (h : AllocInv stR st) (s : Nat) :
    VStep stR s st (apArgumentsDecision st s).2 := by
  unfold apArgumentsDecision
  cases hav : (st.scopes s).argumentsVar with
  | none => exact vstep_refl h
  | some a =>
    have howned : ownedExt stR s a := by
      rcases h.argS s with h2 | h2
      · rw [hav] at h2
        exact Or.inr (Or.inr (Or.inr (Or.inr (Or.inl h2.symm))))
      · rw [hav] at h2
        exact Option.noConfusion h2
    have h1 := vstep_mustAllocate h s a howned
    first | dsimp only | skip
    split
    · exact h1
    · exact vstep_trans h1 (vstep_nullArg h1.1 s s)

theorem vstep_apFold {stR : AState} {s : Nat} (us : Bool) (L : List (Nat × Nat))
    (hL : ∀ p, p ∈ L → p.2 ∈ (stR.scopes s).params) :
    ∀ st : AState, AllocInv stR st →
      VStep stR s st (L.foldl (fun acc pair =>
        allocateParameter
          (if us then updVar acc pair.2 (fun va => { va with forceCtx := true }) else acc)
          s pair.2 (pair.1 : Int)) st) ∧
      (∀ p, p ∈ L → PendOK stR s st p.2 → DoneOK stR s (L.foldl (fun acc pair =>
        allocateParameter
          (if us then updVar acc pair.2 (fun va => { va with forceCtx := true }) else acc)
          s pair.2 (pair.1 : Int)) st) p.2) := by
  refine vstep_fold _ Prod.snd L ?_
  intro st2 p hp hinv
  have howned : ownedExt stR s p.2 := Or.inr (Or.inl (hL p hp))
  have hstep1 : VStep stR s st2
      (if us then updVar st2 p.2 (fun va => { va with forceCtx := true }) else st2) := by
    cases us with
    | true =>
      rw [if_pos rfl]
      exact vstep_updVar_flags hinv s p.2 (fun va => { va with forceCtx := true })
        (fun x => Eq.refl _) (fun x => Eq.refl _) (fun x => Eq.refl _) howned
    | false =>
      rw [if_neg (by simp)]
      exact vstep_refl hinv
  refine ⟨vstep_trans hstep1 (vstep_allocateParameter hstep1.1 s p.2 _ howned), ?_⟩
  intro hpend
  exact doneOK_allocateParameter hstep1.1.pres s p.2 _ (hstep1.2.2.2 p.2 hpend)

theorem vstep_allocateParameterLocals {stR st : AState} (h : AllocInv stR st) (s : Nat) :
    VStep stR s st (allocateParameterLocals st s) ∧
    (∀ v, v ∈ (stR.scopes s).params → PendOK stR s st v →
      DoneOK stR s (allocateParameterLocals st s) v) := by
  unfold allocateParameterLocals
  have h1 := vstep_apArgumentsDecision h s
  unfold apFold
  have hparamsEq : (((apArgumentsDecision st s).2).scopes s).params = (stR.scopes s).params :=
    AllocPres.params_eq h1.1.pres s
  have hL : ∀ p, p ∈ ((((apArgumentsDecision st s).2).scopes s).params.enum.reverse) →
      p.2 ∈ (stR.scopes s).params := by
    intro p hp
    rw [← hparamsEq]
    exact snd_mem_of_mem_enum _ p (List.mem_reverse.mp hp)
  have h2 := vstep_apFold (apArgumentsDecision st s).1 _ hL (apArgumentsDecision st s).2 h1.1
  refine ⟨vstep_trans h1 h2.1, ?_⟩
  intro v hv hpend
  obtain ⟨i, hi⟩ := mem_enum_of_mem ((((apArgumentsDecision st s).2).scopes s).params) v
    (by rw [hparamsEq]; exact hv)
  have hpmem : ((i, v) : Nat × Nat) ∈
      ((((apArgumentsDecision st s).2).scopes s).params.enum.reverse) :=
    List.mem_reverse.mpr hi
  exact h2.2 (i, v) hpmem (h1.2.2.2 v hpend)

theorem vstep_allocateReceiver {stR st : AState} (h : AllocInv stR st) (s : Nat) :
    VStep stR s st (allocateReceiver st s) ∧
    (∀ v, (stR.scopes s).hasThisDecl = true → (stR.scopes s).receiver = some v →
      PendOK stR s st v → DoneOK stR s (allocateReceiver st s) v) := by
  unfold allocateReceiver
  rw [AllocPres.hasThisDecl_eq h.pres s, AllocPres.receiver_eq h.pres s]
  by_cases htd2 : (stR.scopes s).hasThisDecl = true
  · rw [if_pos htd2]
    cases hrc2 : (stR.scopes s).receiver with
    | none =>
      refine ⟨vstep_refl h, ?_⟩
      intro v htdx hrcx
      exact Option.noConfusion hrcx
    | some r =>
      first | dsimp only | skip
      have howned : ownedExt stR s r := Or.inr (Or.inr (Or.inl hrc2))
      refine ⟨vstep_allocateParameter h s r (-1) howned, ?_⟩
      intro v htdx hrcx hpend
      have hvr : r = v := Option.some.inj hrcx
      subst hvr
      exact doneOK_allocateParameter h.pres s r (-1) hpend
  · rw [if_neg htd2]
    refine ⟨vstep_refl h, ?_⟩
    intro v htdx hrcx hpend
    exact absurd htdx htd2

theorem vstep_alFunctionVar {stR st : AState} (h : AllocInv stR st) (fuel s : Nat)
    (hstk : (closureTargetForStack fuel stR s).isSome = true) :
    VStep stR s st (alFunctionVar fuel st s) ∧
    (∀ v, (stR.scopes s).functionVar = some v → PendOK stR s st v →
      DoneOK stR s (alFunctionVar fuel st s) v) := by
  unfold alFunctionVar
  rw [AllocPres.functionVar_eq h.pres s]
  cases hfv2 : (stR.scopes s).functionVar with
  | none =>
    refine ⟨vstep_refl h, ?_⟩
    intro v hx
    exact Option.noConfusion hx
  | some f =>
    first | dsimp only | skip
    have howned : ownedExt stR s f := Or.inr (Or.inr (Or.inr (Or.inl hfv2)))
    refine ⟨vstep_allocateNonParameterLocal h fuel s f hstk howned, ?_⟩
    intro v hx hpend
    have hvf : f = v := Option.some.inj hx
    subst hvf
    exact doneOK_allocateNonParameterLocal h.pres fuel s f hstk hpend

theorem vstep_alNewTarget {stR st : AState} (h : AllocInv stR st) (s : Nat) :
    VStep stR s st (alNewTarget st s) := by
  unfold alNewTarget
  cases hnt : (st.scopes s).newTarget with
  | none => exact vstep_refl h
  | some nt =>
    have howned : ownedExt stR s nt := by
      rcases h.ntS s with h2 | h2
      · rw [hnt] at h2
        exact Or.inr (Or.inr (Or.inr (Or.inr (Or.inr (Or.inl h2.symm)))))
      · rw [hnt] at h2
        exact Option.noConfusion h2
    have h1 := vstep_mustAllocate h s nt howned
    first | dsimp only | skip
    split
    · exact vstep_trans h1 (vstep_nullNT h1.1 s s)
    · exact h1

theorem vstep_alThisFunction {stR st : AState} (h : AllocInv stR st) (s : Nat) :
    VStep stR s st (alThisFunction st s) := by
  unfold alThisFunction
  cases htf : (st.scopes s).thisFunction with
  | none => exact vstep_refl h
  | some tf =>
    have howned : ownedExt stR s tf := by
      rcases h.tfS s with h2 | h2
      · rw [htf] at h2
        exact Or.inr (Or.inr (Or.inr (Or.inr (Or.inr (Or.inr h2.symm)))))
      · rw [htf] at h2
        exact Option.noConfusion h2
    have h1 := vstep_mustAllocate h s tf howned
    first | dsimp only | skip
    split
    · exact vstep_trans h1 (vstep_nullTF h1.1 s s)
    · exact h1

theorem vstep_allocateLocals {stR st : AState} (h : AllocInv stR st) (fuel s : Nat)
    (hstk : (closureTargetForStack fuel stR s).isSome = true) :
    VStep stR s st (allocateLocals fuel st s) ∧
    (∀ v, (stR.scopes s).functionVar = some v → PendOK stR s st v →
      DoneOK stR s (allocateLocals fuel st s) v) := by
  unfold allocateLocals
  have h1 := vstep_alFunctionVar h fuel s hstk
  have h2 := vstep_alNewTarget h1.1.1 s
  have h3 := vstep_alThisFunction h2.1 s
  refine ⟨vstep_trans h1.1 (vstep_trans h2 h3), ?_⟩
  intro v hfv hpend
  exact h3.2.2.1 v (h2.2.2.1 v (h1.2 v hfv hpend))

theorem vstep_allocateNPLocals {stR st : AState} (h : AllocInv stR st) (fuel s : Nat)
    (hstk : (closureTargetForStack fuel stR s).isSome = true) :
    VStep stR s st (allocateNPLocals fuel st s) ∧
    (∀ v, v ∈ (stR.scopes s).locals → PendOK stR s st v →
      DoneOK stR s (allocateNPLocals fuel st s) v) ∧
    (∀ v, (stR.scopes s).isDecl = true → (stR.scopes s).functionVar = some v →
      PendOK stR s st v → DoneOK stR s (allocateNPLocals fuel st s) v) := by
  unfold allocateNPLocals
  have hlocEq : (st.scopes s).locals = (stR.scopes s).locals := AllocPres.locals_eq h.pres s
  have hstep : ∀ (st2 : AState) (a : Nat), a ∈ (st.scopes s).locals → AllocInv stR st2 →
      VStep stR s st2 (allocateNonParameterLocal fuel st2 s a) ∧
      (PendOK stR s st2 a → DoneOK stR s (allocateNonParameterLocal fuel st2 s a) a) := by
    intro st2 a ha hinv
    have howned : ownedExt stR s a := Or.inl (by rw [← hlocEq]; exact ha)
    exact ⟨vstep_allocateNonParameterLocal hinv fuel s a hstk howned,
      fun hp => doneOK_allocateNonParameterLocal hinv.pres fuel s a hstk hp⟩
  have hfold := vstep_fold (fun acc v => allocateNonParameterLocal fuel acc s v)
    (fun v => v) ((st.scopes s).locals) hstep st h
  first | dsimp only | skip
  rw [AllocPres.isDecl_eq hfold.1.1.pres s]
  by_cases hd : (stR.scopes s).isDecl = true
  · rw [if_pos hd]
    have h2 := vstep_allocateLocals hfold.1.1 fuel s hstk
    refine ⟨vstep_trans hfold.1 h2.1, ?_, ?_⟩
    · intro v hv hpend
      exact h2.1.2.2.1 v (hfold.2 v (by rw [hlocEq]; exact hv) hpend)
    · intro v hdx hfv hpend
      exact h2.2 v hfv (hfold.1.2.2.2 v hpend)
  · rw [if_neg hd]
    refine ⟨hfold.1, ?_, ?_⟩
    · intro v hv hpend
      exact hfold.2 v (by rw [hlocEq]; exact hv) hpend
    · intro v hdx
      exact absurd hdx hd

theorem vstep_asoDeclPhase {stR st : AState} (h : AllocInv stR st) (s : Nat)
    (hnm : (stR.scopes s).isModuleScope = false) :
    VStep stR s st (asoDeclPhase st s) ∧
    (∀ v, (stR.scopes s).isDecl = true → (stR.scopes s).isFunctionScope = true →
      v ∈ (stR.scopes s).params → PendOK stR s st v →
      DoneOK stR s (asoDeclPhase st s) v) ∧
    (∀ v, (stR.scopes s).isDecl = true → (stR.scopes s).hasThisDecl = true →
      (stR.scopes s).receiver = some v → PendOK stR s st v →
      DoneOK stR s (asoDeclPhase st s) v) := by
  unfold asoDeclPhase
  rw [AllocPres.isDecl_eq h.pres s]
  by_cases hd : (stR.scopes s).isDecl = true
  · rw [if_pos hd]
    have hmEq : (st.scopes s).isModuleScope = false := by
      unfold SScope.isModuleScope
      unfold SScope.isModuleScope at hnm
      rw [AllocPres.stype_eq h.pres s]
      exact hnm
    rw [hmEq, if_neg Bool.false_ne_true]
    have hfEq : (st.scopes s).isFunctionScope = (stR.scopes s).isFunctionScope := by
      unfold SScope.isFunctionScope
      rw [AllocPres.stype_eq h.pres s]
    rw [hfEq]
    by_cases hf : (stR.scopes s).isFunctionScope = true
    · rw [if_pos hf]
      have h1 := vstep_allocateParameterLocals h s
      have h2 := vstep_allocateReceiver h1.1.1 s
      refine ⟨vstep_trans h1.1 h2.1, ?_, ?_⟩
      · intro v hdx hfx hpv hpend
        exact h2.1.2.2.1 v (h1.2 v hpv hpend)
      · intro v hdx htx hrx hpend
        exact h2.2 v htx hrx (h1.1.2.2.2 v hpend)
    · rw [if_neg hf]
      have h2 := vstep_allocateReceiver h s
      refine ⟨h2.1, ?_, ?_⟩
      · intro v hdx hfx hpv hpend
        exact absurd hfx hf
      · intro v hdx htx hrx hpend
        exact h2.2 v htx hrx hpend
  · rw [if_neg hd]
    refine ⟨vstep_refl h, ?_, ?_⟩
    · intro v hdx
      exact absurd hdx hd
    · intro v hdx
      exact absurd hdx hd

theorem vstep_asoDropHeap {stR st : AState} (h : AllocInv stR st) (s : Nat) :
    VStep stR s st (asoDropHeap st s) := by
  unfold asoDropHeap
  split
  · exact vstep_updScopeKeep h s s (fun sc => { sc with numHeap := 0 })
      (fun sc => Eq.refl _) (fun sc => Eq.refl _) (fun sc => Eq.refl _) (fun sc => Eq.refl _)
  · exact vstep_refl h

theorem vstep_visit {stR : AState} (fuel s : Nat) {st : AState} (h : AllocInv stR st)
    (hnm : (stR.scopes s).isModuleScope = false)
    (hstk : (closureTargetForStack fuel stR s).isSome = true) :
    VStep stR s st (allocateScopeOwn fuel st s) ∧
    (∀ v, estOwned stR s v → PendOK stR s st v →
      DoneOK stR s (allocateScopeOwn fuel st s) v) := by
  unfold allocateScopeOwn
  have h1 := vstep_asoDeclPhase h s hnm
  have h2 := vstep_allocateNPLocals h1.1.1 fuel s hstk
  have h3 := vstep_asoDropHeap h2.1.1 s
  refine ⟨vstep_trans h1.1 (vstep_trans h2.1 h3), ?_⟩
  intro v hest hpend
  rcases hest with hl | hp | hr | hf
  · exact h3.2.2.1 v (h2.2.1 v hl (h1.1.2.2.2 v hpend))
  · exact h3.2.2.1 v (h2.1.2.2.1 v (h1.2.1 v hp.1 hp.2.1 hp.2.2 hpend))
  · exact h3.2.2.1 v (h2.1.2.2.1 v (h1.2.2 v hr.1 hr.2.1 hr.2.2 hpend))
  · exact h3.2.2.1 v (h2.2.2 v hf.1 hf.2 (h1.1.2.2.2 v hpend))

/-- Per-node side conditions at the reference state: not a module scope, a
closure target exists for stack slots, and the scope owns its slot variables
exclusively, with ids below the resolution baseline. -/
def NodeHyps (stR : AState) (fuel n0 s : Nat) : Prop :=
  (stR.scopes s).isModuleScope = false ∧
  (closureTargetForStack fuel stR s).isSome = true ∧
  (∀ v, ownedExt stR s v → (stR.vars v).scope = some s) ∧
  (∀ v, ownedExt stR s v → v < n0)

/-- The whole-tree invariant: scopes already visited have all their
unconditionally-processed variables done; variables owned by a scope not yet
visited are still unallocated. -/
def C1Inv (stR : AState) (n0 : Nat) (D : Nat → Prop) (st : AState) : Prop :=
  (∀ s, D s → ∀ v, estOwned stR s v → DoneOK stR s st v) ∧
  (∀ v, v < n0 → (∀ s, (stR.vars v).scope = some s → ¬ D s) →
    (st.vars v).location = .UNALLOCATED)

theorem c1Inv_iff {stR : AState} {n0 : Nat} {D1 D2 : Nat → Prop}
    (h : ∀ j, D1 j ↔ D2 j) {st : AState} (hc : C1Inv stR n0 D1 st) :
    C1Inv stR n0 D2 st := by
  constructor
  · intro s hs
    exact hc.1 s ((h s).mpr hs)
  · intro v hv hnot
    exact hc.2 v hv (fun s2 hs2 hD1 => hnot s2 hs2 ((h s2).mp hD1))

theorem c1Inv_visit {stR : AState} {n0 fuel : Nat} {s : Nat} {st : AState} {D : Nat → Prop}
    (h : AllocInv stR st)
    (hself : NodeHyps stR fuel n0 s)
    (hothers : ∀ s0, D s0 → NodeHyps stR fuel n0 s0)
    (hc : C1Inv stR n0 D st) :
    AllocInv stR (allocateScopeOwn fuel st s) ∧
    C1Inv stR n0 (fun j => D j ∨ j = s) (allocateScopeOwn fuel st s) := by
  obtain ⟨hnm, hstk, hown, hid⟩ := hself
  have hv := vstep_visit fuel s h hnm hstk
  refine ⟨hv.1.1, ?_, ?_⟩
  · intro s0 hs0 v hest
    by_cases hseq : s0 = s
    · rw [hseq] at hest ⊢
      refine hv.2 v hest ?_
      by_cases hD : D s
      · exact Or.inr (hc.1 s hD v hest)
      · refine Or.inl (hc.2 v (hid v (estOwned_ownedExt hest)) ?_)
        intro s2 hs2
        have hs2e : s2 = s :=
          (Option.some.inj ((hown v (estOwned_ownedExt hest)).symm.trans hs2)).symm
        rw [hs2e]
        exact hD
    · have hD : D s0 := by
        rcases hs0 with hD | he
        · exact hD
        · exact absurd he hseq
      have hdone := hc.1 s0 hD v hest
      have hnotown : ¬ ownedExt stR s v := by
        intro ho
        have h1 := hown v ho
        have h2 := (hothers s0 hD).2.2.1 v (estOwned_ownedExt hest)
        exact hseq (Option.some.inj (h2.symm.trans h1))
      have hfr := hv.1.2.1 v hnotown
      exact doneOK_of_eqs (by rw [hfr]) (by rw [hfr]) hdone
  · intro v hvn hnot
    have hUN := hc.2 v hvn (fun s2 hs2 hD2 => hnot s2 hs2 (Or.inl hD2))
    have hnotown : ¬ ownedExt stR s v := by
      intro ho
      exact hnot s (hown v ho) (Or.inr rfl)
    have hfr := hv.1.2.1 v hnotown
    rw [hfr]
    exact hUN

mutual
theorem c1_tree (stR : AState) (fuel n0 : Nat) :
    ∀ (t : STree) (st : AState) (D : Nat → Prop),
      (∀ s0, s0 ∈ treeNodes t → NodeHyps stR fuel n0 s0) →
      (∀ s0, D s0 → NodeHyps stR fuel n0 s0) →
      AllocInv stR st → C1Inv stR n0 D st →
      AllocInv stR (allocateVariablesRecursively fuel t st) ∧
      C1Inv stR n0 (fun j => D j ∨ j ∈ treeNodes t)
        (allocateVariablesRecursively fuel t st)
  | .node s kids, st, D, hT, hD, hinv, hc => by
    simp only [allocateVariablesRecursively]
    have hkT : ∀ s0, s0 ∈ treeNodesList kids → NodeHyps stR fuel n0 s0 := by
      intro s0 hs0
      refine hT s0 ?_
      simp only [treeNodes]
      exact List.mem_cons_of_mem s hs0
    have hk := c1_treeList stR fuel n0 kids st D hkT hD hinv hc
    have hD1 : ∀ s0, (fun j => D j ∨ j ∈ treeNodesList kids) s0 →
        NodeHyps stR fuel n0 s0 := by
      intro s0 hs0
      rcases hs0 with h1 | h1
      · exact hD s0 h1
      · exact hkT s0 h1
    have hns : NodeHyps stR fuel n0 s := by
      refine hT s ?_
      simp only [treeNodes]
      exact List.mem_cons_self s _
    have hvisit := c1Inv_visit hk.1 hns hD1 hk.2
    refine ⟨hvisit.1, c1Inv_iff ?_ hvisit.2⟩
    intro j
    simp only [treeNodes, List.mem_cons]
    tauto
theorem c1_treeList (stR : AState) (fuel n0 : Nat) :
    ∀ (ts : STreeList) (st : AState) (D : Nat → Prop),
      (∀ s0, s0 ∈ treeNodesList ts → NodeHyps stR fuel n0 s0) →
      (∀ s0, D s0 → NodeHyps stR fuel n0 s0) →
      AllocInv stR st → C1Inv stR n0 D st →
      AllocInv stR (allocateVariablesList fuel ts st) ∧
      C1Inv stR n0 (fun j => D j ∨ j ∈ treeNodesList ts)
        (allocateVariablesList fuel ts st)
  | .snil, st, D, hT, hD, hinv, hc => by
    simp only [allocateVariablesList]
    refine ⟨hinv, c1Inv_iff ?_ hc⟩
    intro j
    simp only [treeNodesList, List.not_mem_nil]
    tauto
  | .scons t ts, st, D, hT, hD, hinv, hc => by
    simp only [allocateVariablesList]
    have htT : ∀ s0, s0 ∈ treeNodes t → NodeHyps stR fuel n0 s0 := by
      intro s0 hs0
      refine hT s0 ?_
      simp only [treeNodesList]
      exact List.mem_append.mpr (Or.inl hs0)
    have h1 := c1_tree stR fuel n0 t st D htT hD hinv hc
    have hD1 : ∀ s0, (fun j => D j ∨ j ∈ treeNodes t) s0 → NodeHyps stR fuel n0 s0 := by
      intro s0 hs0
      rcases hs0 with h2 | h2
      · exact hD s0 h2
      · exact htT s0 h2
    have htsT : ∀ s0, s0 ∈ treeNodesList ts → NodeHyps stR fuel n0 s0 := by
      intro s0 hs0
      refine hT s0 ?_
      simp only [treeNodesList]
      exact List.mem_append.mpr (Or.inr hs0)
    have h2 := c1_treeList stR fuel n0 ts _ _ htsT hD1 h1.1 h1.2
    refine ⟨h2.1, c1Inv_iff ?_ h2.2⟩
    intro j
    simp only [treeNodesList, List.mem_append]
    tauto
end

theorem ownedExt_resEq {st stR : AState} (hs : ∀ j, resScopeEq st stR j) (s v : Nat) :
    ownedExt stR s v ↔ ownedExt st s v := by
  unfold ownedExt
  rw [resScopeEq_locals (hs s), resScopeEq_params (hs s), resScopeEq_receiver (hs s),
    resScopeEq_functionVar (hs s), resScopeEq_argumentsVar (hs s),
    resScopeEq_newTarget (hs s), resScopeEq_thisFunction (hs s)]

theorem estOwned_resEq {st stR : AState} (hs : ∀ j, resScopeEq st stR j) (s v : Nat) :
    estOwned stR s v ↔ estOwned st s v := by
  unfold estOwned SScope.isFunctionScope
  rw [resScopeEq_locals (hs s), resScopeEq_params (hs s), resScopeEq_receiver (hs s),
    resScopeEq_functionVar (hs s), resScopeEq_isDecl (hs s), resScopeEq_stype (hs s),
    resScopeEq_hasThisDecl (hs s)]

theorem resEq_triple {st stR : AState} (hs : ∀ j, resScopeEq st stR j) :
    ∀ j, (stR.scopes j).stype = (st.scopes j).stype ∧
      (stR.scopes j).isDecl = (st.scopes j).isDecl ∧
      (stR.scopes j).outer = (st.scopes j).outer :=
  fun j => ⟨resScopeEq_stype (hs j), resScopeEq_isDecl (hs j), resScopeEq_outer (hs j)⟩

theorem c1_endToEnd (fuel : Nat) (t : STree) (st stR : AState)
    (F : ResFrame st.nextVar st stR)
    (hun : ∀ v, (st.vars v).location = .UNALLOCATED)
    (hnomod : ∀ s, s ∈ treeNodes t → (st.scopes s).isModuleScope = false)
    (hown : ∀ s, s ∈ treeNodes t → ∀ v, ownedExt st s v → (st.vars v).scope = some s)
    (hlt : ∀ s, s ∈ treeNodes t → ∀ v, ownedExt st s v → v < st.nextVar)
    (hstk : ∀ s, s ∈ treeNodes t → (closureTargetForStack fuel st s).isSome = true) :
    ∀ s, s ∈ treeNodes t → ∀ v, estOwned st s v →
      (((allocateVariablesRecursively fuel t stR).vars v).location ≠ .UNALLOCATED ↔
        (((allocateVariablesRecursively fuel t stR).vars v).isUsed = true ∧
          isGlobalObjectProperty (allocateVariablesRecursively fuel t stR) v = false)) := by
  intro s hs v hest
  have hsfr := F.sfr
  have hownR : ∀ s0, s0 ∈ treeNodes t → ∀ w, ownedExt stR s0 w →
      (stR.vars w).scope = some s0 := by
    intro s0 hs0 w hw
    have hw2 : ownedExt st s0 w := (ownedExt_resEq hsfr s0 w).mp hw
    have hlt2 : w < st.nextVar := hlt s0 hs0 w hw2
    rw [(F.vfr w hlt2).2.2.2.1]
    exact hown s0 hs0 w hw2
  have hltR : ∀ s0, s0 ∈ treeNodes t → ∀ w, ownedExt stR s0 w → w < st.nextVar :=
    fun s0 hs0 w hw => hlt s0 hs0 w ((ownedExt_resEq hsfr s0 w).mp hw)
  have hNH : ∀ s0, s0 ∈ treeNodes t → NodeHyps stR fuel st.nextVar s0 := by
    intro s0 hs0
    refine ⟨?_, ?_, hownR s0 hs0, hltR s0 hs0⟩
    · unfold SScope.isModuleScope
      have h2 := hnomod s0 hs0
      unfold SScope.isModuleScope at h2
      rw [resScopeEq_stype (hsfr s0)]
      exact h2
    · rw [closureTargetForStack_congr st stR (resEq_triple hsfr) fuel s0]
      exact hstk s0 hs0
  have hc0 : C1Inv stR st.nextVar (fun _ => False) stR := by
    constructor
    · intro s0 hs0
      exact hs0.elim
    · intro w hw hnot
      rw [(F.vfr w hw).2.2.2.2]
      exact hun w
  have htree := c1_tree stR fuel st.nextVar t stR (fun _ => False) hNH
    (fun s0 hs0 => hs0.elim) (allocInv_refl stR) hc0
  have hdone := htree.2.1 s (Or.inr hs) v ((estOwned_resEq hsfr s v).mpr hest)
  have hP := hdone.1
  unfold ProcessedOK at hP
  rw [← globalProp_stable htree.1.pres v] at hP
  exact hP

/-- C1, corrected: after the AllocateVariables pipeline, the claimed
used/global-property characterisation holds for the variables the allocator
itself processes — the locals of every scope, and the parameters, receiver
and function variable of declaration scopes — under the stated entry
conditions (all variables unallocated, no debug-evaluate or module scopes,
exclusive slot ownership with ids below the arena cursor, and a reachable
closure scope for stack allocation).  It does not hold for every reachable
variable: resolution can leave reachable DYNAMIC non-locals at LOOKUP with
is_used still false (see the counterexample). -/
theorem claim1_amended (fuel : Nat) (t : STree) (st : AState)
    (hun : ∀ v, (st.vars v).location = .UNALLOCATED)
    (hdbg : ∀ j, (st.scopes j).isDebugEvaluate = false)
    (hnomod : ∀ s, s ∈ treeNodes t → (st.scopes s).isModuleScope = false)
    (hown : ∀ s, s ∈ treeNodes t → ∀ v, ownedExt st s v → (st.vars v).scope = some s)
    (hlt : ∀ s, s ∈ treeNodes t → ∀ v, ownedExt st s v → v < st.nextVar)
    (hstk : ∀ s, s ∈ treeNodes t → (closureTargetForStack fuel st s).isSome = true) :
    ∀ s, s ∈ treeNodes t → ∀ v, estOwned st s v →
      (((allocateVariables fuel t st).vars v).location ≠ .UNALLOCATED ↔
        (((allocateVariables fuel t st).vars v).isUsed = true ∧
          isGlobalObjectProperty (allocateVariables fuel t st) v = false)) := by
  have F : ResFrame st.nextVar st
      (resolveVariablesRecursively fuel t (propagateScopeInfo t st)) := by
    refine (resFrame_propagate t st).trans ?_
    refine @resFrame_resolveRec st.nextVar fuel t (propagateScopeInfo t st) ?_ ?_
    · exact Nat.le_of_eq (propagate_state t st).2.2.symm
    · intro j
      rw [propagate_proj SScope.isDebugEvaluate (fun sc => Eq.refl _) t st j]
      exact hdbg j
  exact c1_endToEnd fuel t st
    (resolveVariablesRecursively fuel t (propagateScopeInfo t st)) F hun hnomod hown hlt hstk

/-- Witness input for C1: one used LET local in a function declaration
scope; the pipeline gives it a stack slot, satisfying the equivalence. -/
def c1wState : AState :=
  { vars := fun _ => { vname := 3, mode := .LET, scope := some 0, isUsed := true }
    scopes := fun _ => { stype := .FUNCTION, isDecl := true, locals := [0] }
    proxies := fun _ => { pname := 3 }
    nextVar := 1 }

def c1wTree : STree := STree.node 0 STreeList.snil

theorem claim1_witness :
    ((allocateVariables 2 c1wTree c1wState).vars 0).location ≠ .UNALLOCATED ↔
      (((allocateVariables 2 c1wTree c1wState).vars 0).isUsed = true ∧
        isGlobalObjectProperty (allocateVariables 2 c1wTree c1wState) 0 = false) := by
  refine claim1_amended 2 c1wTree c1wState (fun v => rfl) (fun j => rfl)
    (fun s hs => rfl) ?_ ?_ (fun s hs => rfl) 0 (by decide) 0 ?_
  · intro s hs v hv
    have hs0 : s = 0 := by
      simp [c1wTree, treeNodes, treeNodesList] at hs
      exact hs
    rw [hs0]
    rfl
  · intro s hs v hv
    show v < 1
    rcases hv with h | h | h | h | h | h | h
    · simp [c1wState] at h
      omega
    · simp [c1wState] at h
    · simp [c1wState] at h
    · simp [c1wState] at h
    · simp [c1wState] at h
    · simp [c1wState] at h
    · simp [c1wState] at h
  · exact Or.inl (by decide)
